import Mathlib

/-! Halo-exchange engine: tag encoder, radii, communication planner, partition, poll loop.

A shallow embedding of `include/stencil/tx_common.hpp` (the MPI tag encoders), of
`include/stencil/direction_map.hpp` and `include/stencil/radius.hpp` (direction maps and
radii), and of `DistributedDomain` in `include/stencil/stencil.hpp`: `add_data`, `realize`
(local domains, the two creation passes, the planning pass, the prepare calls) and the poll
loop of `exchange`, together with the properties the specification states about them.
`stencil/partition.hpp`, `stencil/dim3.hpp`, `stencil/local_domain.cuh` and `stencil/tx.hpp`
are not part of the sources at hand: the engine takes its partition as a parameter, and the
Prime-Factor Partition, the data handle and the stages of the remote endpoints are modelled
from the specification.

C++ `int` is a 32-bit two's complement integer. A value is an `Int`; the bitwise operators
act on its 32-bit pattern, a `Nat` below `2^32`. A function that can fail an assertion
returns an `Option` or an `Except Fault`; a function that may not return takes the number of
steps it is allowed.
-/

namespace Stencil

/-! ## Machine integers -/

/-- The 32-bit two's complement bit pattern of a signed value. -/
def toBits (x : Int) : Nat := (x % 2 ^ 32).toNat

/-- The signed value of a 32-bit pattern (bit 31 is the sign bit). -/
def ofBits (n : Nat) : Int :=
  if n % 2 ^ 32 < 2 ^ 31 then ((n % 2 ^ 32 : Nat) : Int) else ((n % 2 ^ 32 : Nat) : Int) - 2 ^ 32

/-- The `&` of C on `int`. -/
def band (a b : Int) : Int := ofBits (toBits a &&& toBits b)

/-- The `|` of C on `int`. -/
def bor (a b : Int) : Int := ofBits (toBits a ||| toBits b)

/-- The `<<` of C on `int`, by a non-negative amount. -/
def shl (a : Int) (k : Nat) : Int := ofBits (toBits a <<< k)

/-! ## `Dim3` and `Message` -/

/-- The integer triple `Dim3` of `stencil/dim3.hpp`. -/
structure Dim3 where
  x : Int
  y : Int
  z : Int
  deriving DecidableEq, Repr

/-- A scheduled transfer (`class Message` of `tx_common.hpp`). -/
structure Message where
  dir_ : Dim3
  srcGPU_ : Int
  dstGPU_ : Int
  deriving DecidableEq, Repr

/-- The message kinds (`enum class MsgKind`). -/
inductive MsgKind where
  | ColocatedEvt
  | ColocatedMem
  | ColocatedDev
  | Other
  deriving DecidableEq, Repr

/-- The `static_cast<int>` of a message kind. -/
def MsgKind.toInt : MsgKind → Int
  | .ColocatedEvt => 0
  | .ColocatedMem => 1
  | .ColocatedDev => 2
  | .Other => 3

/-! ## Tag encoders -/

/-- The two bits of one direction component:
`d == 0 ? 0b00 : (d == 1 ? 0b01 : 0b10)`. -/
def dirCode (d : Int) : Int := if d = 0 then 0 else if d = 1 then 1 else 2

/-- The three `dirBits |= ...` lines shared by the three encoders. -/
def dirBitsOf (dir : Dim3) : Int :=
  let dirBits : Int := 0
  let dirBits := bor dirBits (dirCode dir.x)
  let dirBits := bor dirBits (shl (dirCode dir.y) 2)
  let dirBits := bor dirBits (shl (dirCode dir.z) 4)
  dirBits

/-- The three direction assertions shared by the three encoders. -/
def dirAsserts (dir : Dim3) : Bool :=
  (decide (dir.x ≥ -1) && decide (dir.x ≤ 1)) &&
  (decide (dir.y ≥ -1) && decide (dir.y ≤ 1)) &&
  (decide (dir.z ≥ -1) && decide (dir.z ≤ 1))

/-- The template `make_tag<kind>(payload, dir)`: `none` when an assertion fails. -/
def make_tag_kind (kind : MsgKind) (payload : Int) (dir : Dim3) : Option Int :=
  let ret : Int := 0
  let kindInt := kind.toInt
  if ¬ (kindInt < 4) then none else
  if ¬ (kindInt ≥ 0) then none else
  let ret := bor ret (shl kindInt 29)
  if ¬ dirAsserts dir then none else
  let dirBits := dirBitsOf dir
  let ret := bor ret (shl dirBits 23)
  if ¬ (payload < shl 1 21) then none else
  let ret := bor ret (band payload 0x3FFFFF)
  if ¬ (ret ≥ 0) then none else
  some ret

/-- The encoder `make_tag(int gpu, int idx, Dim3 dir)`: `none` when an assertion fails. -/
def make_tag (gpu idx : Int) (dir : Dim3) : Option Int :=
  let IDX_BITS : Nat := 16
  let GPU_BITS : Nat := 8
  if ¬ (gpu < shl 1 GPU_BITS) then none else
  if ¬ (idx < shl 1 IDX_BITS) then none else
  if ¬ dirAsserts dir then none else
  let t : Int := 0
  let idxBits := band idx (shl 1 IDX_BITS - 1)
  let gpuBits := band gpu (shl 1 GPU_BITS - 1)
  let dirBits := dirBitsOf dir
  let t := bor t idxBits
  let t := bor t (shl gpuBits IDX_BITS)
  let t := bor t (shl dirBits (IDX_BITS + GPU_BITS))
  if ¬ (t ≥ 0) then none else
  some t

/-- The encoder `make_tag(int gpu, Dim3 dir)`: `none` when an assertion fails. -/
def make_tag_dir (gpu : Int) (dir : Dim3) : Option Int :=
  let GPU_BITS : Nat := 8
  if ¬ (gpu < shl 1 GPU_BITS) then none else
  if ¬ dirAsserts dir then none else
  let t : Int := 0
  let gpuBits := band gpu (shl 1 GPU_BITS - 1)
  let dirBits := dirBitsOf dir
  let t := bor t gpuBits
  let t := bor t (shl dirBits GPU_BITS)
  if ¬ (t ≥ 0) then none else
  some t

/-- A direction vector: every component is `-1`, `0` or `1`. -/
def IsDirection (d : Dim3) : Prop :=
  (d.x = -1 ∨ d.x = 0 ∨ d.x = 1) ∧ (d.y = -1 ∨ d.y = 0 ∨ d.y = 1) ∧
  (d.z = -1 ∨ d.z = 0 ∨ d.z = 1)

instance (d : Dim3) : Decidable (IsDirection d) := by
  unfold IsDirection
  exact inferInstance

/-! ## Geometry (`stencil/dim3.hpp`) -/

/-- Modelled from the spec: `dim3.hpp` is missing; `Dim3` "supports component
arithmetic", here the sum of two triples. -/
def Dim3.add (a b : Dim3) : Dim3 := ⟨a.x + b.x, a.y + b.y, a.z + b.z⟩

/-- Modelled from the spec: `dim3.hpp` is missing; component-wise difference. -/
def Dim3.sub (a b : Dim3) : Dim3 := ⟨a.x - b.x, a.y - b.y, a.z - b.z⟩

/-- Modelled from the spec: `dim3.hpp` is missing; component-wise product. -/
def Dim3.mul (a b : Dim3) : Dim3 := ⟨a.x * b.x, a.y * b.y, a.z * b.z⟩

instance : Add Dim3 := ⟨Dim3.add⟩
instance : Sub Dim3 := ⟨Dim3.sub⟩
instance : Mul Dim3 := ⟨Dim3.mul⟩

/-- Modelled from the spec: `dim3.hpp` is missing; `wrap(extent)` "returns the unique value
congruent modulo `extent` in the half-open range `[0, extent)`", on every component. -/
def Dim3.wrap (a extent : Dim3) : Dim3 := ⟨a.x % extent.x, a.y % extent.y, a.z % extent.z⟩

/-- Modelled from the spec: `dim3.hpp` is missing; the "lexicographic order" of triples,
`x` first. It orders the keys of a `std::map<Dim3, _>`. -/
def Dim3.lt (a b : Dim3) : Bool :=
  decide (a.x < b.x) || (decide (a.x = b.x) &&
    (decide (a.y < b.y) || (decide (a.y = b.y) && decide (a.z < b.z))))

/-- The order of `int` keys of a `std::map<int, _>`. -/
def intLt (a b : Int) : Bool := decide (a < b)

/-! ## Containers -/

/-- A `std::map<K, V>`: its entries in key order. -/
abbrev AMap (K V : Type) := List (K × V)

/-- The keys of a map, in iteration order. -/
def AMap.keys {K V : Type} (m : AMap K V) : List K := m.map Prod.fst

/-- The member `count(k)` of a map: `1` when the key is present, `0` otherwise. -/
def AMap.count {K V : Type} [DecidableEq K] (m : AMap K V) (k : K) : Nat :=
  if k ∈ m.keys then 1 else 0

/-- The value stored under a key, if any. -/
def AMap.find? {K V : Type} [DecidableEq K] : AMap K V → K → Option V
  | [], _ => none
  | (k', v) :: rest, k => if k = k' then some v else AMap.find? rest k

/-- Overwrite the value of the entry of `k`. -/
def AMap.replace {K V : Type} [DecidableEq K] : AMap K V → K → V → AMap K V
  | [], _, _ => []
  | (k', v') :: rest, k, v =>
    if k = k' then (k, v) :: rest else (k', v') :: AMap.replace rest k v

/-- Insert a new entry at its place in the key order `lt`. -/
def AMap.insert {K V : Type} (lt : K → K → Bool) : AMap K V → K → V → AMap K V
  | [], k, v => [(k, v)]
  | (k', v') :: rest, k, v =>
    if lt k k' then (k, v) :: (k', v') :: rest else (k', v') :: AMap.insert lt rest k v

/-- The assignment `m[k] = v`: overwrite the entry of `k` when there is one, else insert
one at its place in the key order `lt`. -/
def AMap.set {K V : Type} [DecidableEq K] (lt : K → K → Bool) (m : AMap K V) (k : K) (v : V) :
    AMap K V :=
  if k ∈ m.keys then AMap.replace m k v else AMap.insert lt m k v

/-- The read `m[k]` of a map of vectors: the stored vector, or the empty vector that
`operator[]` creates for a missing key. -/
def AMap.getD {K V : Type} [DecidableEq K] (m : AMap K (List V)) (k : K) : List V :=
  (AMap.find? m k).getD []

/-- The statement `m[k].push_back(x)`. -/
def AMap.push {K V : Type} [DecidableEq K] (lt : K → K → Bool) (m : AMap K (List V)) (k : K)
    (x : V) : AMap K (List V) :=
  AMap.set lt m k (AMap.getD m k ++ [x])

/-- The member `resize(n)` of a `std::vector`: keep the first `n` elements and pad with
value-initialised ones. -/
def resize {α : Type} (v : List α) (n : Nat) (dflt : α) : List α :=
  v.take n ++ List.replicate (n - v.length) dflt

/-- The integers `lo, lo+1, ..., hi-1` of a loop `for (int i = lo; i < hi; ++i)`. -/
def intRange (lo hi : Int) : List Int :=
  (List.range (hi - lo).toNat).map fun i => lo + (i : Int)

/-! ## The engine (`stencil/stencil.hpp`) -/

/-- How a run of the engine can stop early. -/
inductive Fault where
  /-- an `assert` failed -/
  | assertion
  /-- a `std::vector` was indexed outside its size -/
  | outOfRange
  /-- the message "No method available to send/recv required message", then `exit(EXIT_FAILURE)` -/
  | noMethod
  deriving DecidableEq, Repr

deriving instance DecidableEq for Except

/-- The bit mask of `enum class MethodFlags`. -/
abbrev MethodFlags := Nat

/-- The value `MethodFlags::None`. -/
def MethodFlags.None : MethodFlags := 0
/-- The value `MethodFlags::CudaMpi`. -/
def MethodFlags.CudaMpi : MethodFlags := 1
/-- The value `MethodFlags::CudaAwareMpi`. -/
def MethodFlags.CudaAwareMpi : MethodFlags := 2
/-- The value `MethodFlags::CudaMpiColocated`. -/
def MethodFlags.CudaMpiColocated : MethodFlags := 4
/-- The value `MethodFlags::CudaMemcpyPeer`. -/
def MethodFlags.CudaMemcpyPeer : MethodFlags := 8
/-- The value `MethodFlags::CudaKernel`. -/
def MethodFlags.CudaKernel : MethodFlags := 16
/-- The value `MethodFlags::All`. -/
def MethodFlags.All : MethodFlags := 1 + 2 + 4 + 8 + 16

/-- The abstract class `Partition` of `stencil/partition.hpp`, as the engine uses it. -/
structure Partition where
  rank_dim : Dim3
  gpu_dim : Dim3
  get_rank : Dim3 → Int
  get_gpu : Dim3 → Int
  dom_idx : Int → Int → Dim3
  local_domain_size : Dim3 → Dim3

/-- The part of `LocalDomain` (`stencil/local_domain.cuh`) the engine touches: extent,
physical device, radius, and the element sizes registered with `add_data`. -/
structure LocalDomain where
  sz_ : Dim3
  dev_ : Int
  radius_ : Nat
  elemSizes_ : List Nat
  realized_ : Bool
  deriving DecidableEq, Repr

/-- The accessor `LocalDomain::gpu()`. -/
def LocalDomain.gpu (d : LocalDomain) : Int := d.dev_

/-- A sender or receiver object, as the four ranks and slots its constructor is given. -/
structure Endpoint where
  srcRank : Int
  srcGPU : Int
  dstRank : Int
  dstGPU : Int
  deriving DecidableEq, Repr

/-- The members of `class DistributedDomain` that `realize()` reads and writes. -/
structure DistributedDomain where
  size_ : Dim3
  rank_ : Int
  worldSize_ : Int
  gpus_ : List Int
  radius_ : Nat
  domains_ : List LocalDomain
  domainIdx_ : List Dim3
  partition_ : Partition
  remoteSenders_ : List (AMap Dim3 Endpoint)
  remoteRecvers_ : List (AMap Dim3 Endpoint)
  colocatedSenders_ : List (AMap Int Endpoint)
  colocatedRecvers_ : List (AMap Int Endpoint)
  dataElemSize_ : List Nat
  colocated_ : List Int
  flags_ : MethodFlags

/-- The member `any_methods`: `(methods & flags_) != MethodFlags::None`. -/
def DistributedDomain.any_methods (dd : DistributedDomain) (methods : MethodFlags) : Bool :=
  (methods &&& dd.flags_) != MethodFlags.None

/-- The local outboxes and inboxes of `realize()`. -/
structure Outboxes where
  peerAccessOutbox : List Message
  peerCopyOutbox : List Message
  colocatedOutboxes : List (AMap Int (List Message))
  colocatedInboxes : List (AMap Int (List Message))
  remoteInboxes : List (AMap Dim3 (List Message))
  remoteOutboxes : List (AMap Dim3 (List Message))
  deriving DecidableEq, Repr

/-- The locals as `realize()` declares them: all empty. -/
def Outboxes.empty : Outboxes := ⟨[], [], [], [], [], []⟩

/-- An `assert(c)`. -/
def assert (c : Bool) : Except Fault Unit := if c then pure () else throw Fault.assertion

/-- The element `v[i]` of a vector, for an unsigned index. -/
def vecAt {α : Type} (v : List α) (i : Nat) : Except Fault α :=
  match v[i]? with
  | some a => pure a
  | none => throw Fault.outOfRange

/-- The element `v[i]` of a vector, for an `int` index. -/
def vecAtInt {α : Type} (v : List α) (i : Int) : Except Fault α :=
  if 0 ≤ i then vecAt v i.toNat else throw Fault.outOfRange

/-- The assignment `v[di][k] = val` on a vector of maps. -/
def setAt {K V : Type} [DecidableEq K] (lt : K → K → Bool) (v : List (AMap K V)) (di : Nat)
    (k : K) (val : V) : Except Fault (List (AMap K V)) := do
  let m ← vecAt v di
  pure (v.set di (AMap.set lt m k val))

/-- The statement `v[di][k].push_back(x)` on a vector of maps of vectors. -/
def pushAt {K V : Type} [DecidableEq K] (lt : K → K → Bool) (v : List (AMap K (List V)))
    (di : Nat) (k : K) (x : V) : Except Fault (List (AMap K (List V))) := do
  let m ← vecAt v di
  pure (v.set di (AMap.push lt m k x))

/-- The neighbours of sub-domain `di` in direction `dir`, as each pass of `realize()`
computes them. -/
structure Neighbours where
  srcIdx : Dim3
  dstIdx : Dim3
  srcRank : Int
  dstRank : Int
  srcGPU : Int
  dstGPU : Int
  deriving DecidableEq, Repr

/-- The lines `globalDim = gpu_dim() * rank_dim()`, `myIdx = dom_idx(rank_, di)`,
`srcIdx = (myIdx - dir).wrap(globalDim)`, `dstIdx = (myIdx + dir).wrap(globalDim)` and the
four partition look-ups. -/
def DistributedDomain.neighbours (dd : DistributedDomain) (di : Nat) (dir : Dim3) :
    Neighbours :=
  let globalDim := dd.partition_.gpu_dim * dd.partition_.rank_dim
  let myIdx := dd.partition_.dom_idx dd.rank_ di
  let srcIdx := (myIdx - dir).wrap globalDim
  let dstIdx := (myIdx + dir).wrap globalDim
  { srcIdx := srcIdx, dstIdx := dstIdx,
    srcRank := dd.partition_.get_rank srcIdx, dstRank := dd.partition_.get_rank dstIdx,
    srcGPU := dd.partition_.get_gpu srcIdx, dstGPU := dd.partition_.get_gpu dstIdx }

/-- The directions the three nested loops
`for (int z = -1; z < 1; ++z) for (int y = -1; y < 1; ++y) for (int x = -1; x < 1; ++x)`
reach, in order, the iteration `Dim3(0,0,0) == dir` being skipped by `continue`. -/
def loopDirs : List Dim3 :=
  (intRange (-1) 1).flatMap fun z =>
    (intRange (-1) 1).flatMap fun y =>
      (intRange (-1) 1).flatMap fun x =>
        let dir : Dim3 := ⟨x, y, z⟩
        if (⟨0, 0, 0⟩ : Dim3) = dir then [] else [dir]

/-- The first loop of `realize()`: one `LocalDomain` per entry of `gpus_`, pushed on
`domains_`, its index pushed on `domainIdx_`; then every domain is realized. -/
def DistributedDomain.createLocalDomains (dd : DistributedDomain) : DistributedDomain :=
  let dd := (List.range dd.gpus_.length).foldl (fun (dd : DistributedDomain) (i : Nat) =>
    let idx := dd.partition_.dom_idx dd.rank_ i
    let ldSize := dd.partition_.local_domain_size idx
    let ld : LocalDomain := ⟨ldSize, dd.gpus_.getD i 0, 0, [], false⟩
    let ld := { ld with radius_ := dd.radius_ }
    let ld := dd.dataElemSize_.foldl (fun (ld : LocalDomain) sz =>
      { ld with elemSizes_ := ld.elemSizes_ ++ [sz] }) ld
    { dd with domains_ := dd.domains_ ++ [ld], domainIdx_ := dd.domainIdx_ ++ [idx] }) dd
  { dd with domains_ := dd.domains_.map fun d => { d with realized_ := true } }

/-- The body of the "create remote" loops for one sub-domain and one direction. -/
def DistributedDomain.createRemoteStep (di : Nat) (st : DistributedDomain × Outboxes)
    (dir : Dim3) : Except Fault (DistributedDomain × Outboxes) := do
  let (dd, out) := st
  let n := dd.neighbours di dir
  let (dd, out) ←
    if dd.rank_ ≠ n.srcRank then do
      let recvers ← vecAt dd.remoteRecvers_ di
      if 0 = recvers.count n.srcIdx then do
        let recvers' ← setAt Dim3.lt dd.remoteRecvers_ di n.srcIdx
          ⟨dd.rank_, di, n.dstRank, n.dstGPU⟩
        let inboxes' ← setAt Dim3.lt out.remoteInboxes di n.srcIdx []
        pure ({ dd with remoteRecvers_ := recvers' }, { out with remoteInboxes := inboxes' })
      else pure (dd, out)
    else pure (dd, out)
  if dd.rank_ ≠ n.dstRank then do
    let senders' ← setAt Dim3.lt dd.remoteSenders_ di n.dstIdx
      ⟨n.srcRank, n.srcGPU, dd.rank_, di⟩
    let outboxes' ← setAt Dim3.lt out.remoteOutboxes di n.dstIdx []
    pure ({ dd with remoteSenders_ := senders' }, { out with remoteOutboxes := outboxes' })
  else pure (dd, out)

/-- The block "create remote sender/recvers" of `realize()`. -/
def DistributedDomain.createRemote (st : DistributedDomain × Outboxes) :
    Except Fault (DistributedDomain × Outboxes) :=
  let (dd, out) := st
  if dd.any_methods MethodFlags.CudaMpi then
    let n := dd.gpus_.length
    let out := { out with remoteOutboxes := resize out.remoteOutboxes n [],
                          remoteInboxes := resize out.remoteInboxes n [] }
    let dd := { dd with remoteSenders_ := resize dd.remoteSenders_ n [],
                        remoteRecvers_ := resize dd.remoteRecvers_ n [] }
    (List.range dd.domains_.length).foldlM
      (fun st di => loopDirs.foldlM (DistributedDomain.createRemoteStep di) st) (dd, out)
  else pure (dd, out)

/-- The body of the "create colocated" loops for one sub-domain and one direction. -/
def DistributedDomain.createColocatedStep (di : Nat) (st : DistributedDomain × Outboxes)
    (dir : Dim3) : Except Fault (DistributedDomain × Outboxes) := do
  let (dd, out) := st
  let n := dd.neighbours di dir
  let (dd, out) ←
    if dd.rank_ ≠ n.srcRank ∧ dd.colocated_.count n.srcRank ≠ 0 then do
      let recvers' ← setAt intLt dd.colocatedRecvers_ di n.srcRank
        ⟨n.srcRank, n.srcGPU, n.dstRank, n.dstGPU⟩
      let inboxes' ← setAt intLt out.colocatedInboxes di n.srcRank []
      pure ({ dd with colocatedRecvers_ := recvers' }, { out with colocatedInboxes := inboxes' })
    else pure (dd, out)
  if dd.rank_ ≠ n.dstRank ∧ dd.colocated_.count n.dstRank ≠ 0 then do
    let senders' ← setAt intLt dd.colocatedSenders_ di n.dstRank
      ⟨n.srcRank, n.srcGPU, n.dstRank, n.dstGPU⟩
    let outboxes' ← setAt intLt out.colocatedOutboxes di n.srcRank []
    pure ({ dd with colocatedSenders_ := senders' }, { out with colocatedOutboxes := outboxes' })
  else pure (dd, out)

/-- The block "create colocated sender/recvers" of `realize()`. -/
def DistributedDomain.createColocated (st : DistributedDomain × Outboxes) :
    Except Fault (DistributedDomain × Outboxes) :=
  let (dd, out) := st
  if dd.any_methods MethodFlags.CudaMpiColocated then
    let n := dd.gpus_.length
    let out := { out with colocatedOutboxes := resize out.colocatedOutboxes n [],
                          colocatedInboxes := resize out.colocatedInboxes n [] }
    let dd := { dd with colocatedRecvers_ := resize dd.colocatedRecvers_ n [],
                        colocatedSenders_ := resize dd.colocatedSenders_ n [] }
    (List.range dd.domains_.length).foldlM
      (fun st di => loopDirs.foldlM (DistributedDomain.createColocatedStep di) st) (dd, out)
  else pure (dd, out)

/-- The send half of the planning loop body (`sMsg` and the classification of the send to
`dstIdx`), for one sub-domain and one direction. -/
def DistributedDomain.planSend (dd : DistributedDomain) (di : Nat) (dir : Dim3)
    (out : Outboxes) : Except Fault Outboxes := do
  let n := dd.neighbours di dir
  let sMsg : Message := ⟨dir, di, n.dstGPU⟩
  if dd.rank_ = n.dstRank then do
    let myDev := (← vecAt dd.domains_ di).gpu
    let dstDev := (← vecAtInt dd.domains_ n.dstGPU).gpu
    if myDev = dstDev ∧ dd.any_methods MethodFlags.CudaKernel then
      pure { out with peerAccessOutbox := out.peerAccessOutbox ++ [sMsg] }
    else if dd.any_methods MethodFlags.CudaMemcpyPeer then
      pure { out with peerCopyOutbox := out.peerCopyOutbox ++ [sMsg] }
    else if dd.any_methods MethodFlags.CudaMpi then do
      assert (decide (di < out.remoteOutboxes.length))
      assert ((← vecAt out.remoteOutboxes di).count n.dstIdx != 0)
      pure { out with remoteOutboxes := ← pushAt Dim3.lt out.remoteOutboxes di n.dstIdx sMsg }
    else throw Fault.noMethod
  else if dd.colocated_.count n.dstRank ≠ 0 ∧ dd.any_methods MethodFlags.CudaMpiColocated
  then do
    assert (decide (di < out.colocatedOutboxes.length))
    assert ((← vecAt out.colocatedOutboxes di).count n.dstRank != 0)
    pure { out with
      colocatedOutboxes := ← pushAt intLt out.colocatedOutboxes di n.dstRank sMsg }
  else if dd.any_methods MethodFlags.CudaMpi then
    pure { out with remoteOutboxes := ← pushAt Dim3.lt out.remoteOutboxes di n.dstIdx sMsg }
  else throw Fault.noMethod

/-- The receive half of the planning loop body (`rMsg` and the classification of the
receive from `srcIdx`), for one sub-domain and one direction. -/
def DistributedDomain.planRecv (dd : DistributedDomain) (di : Nat) (dir : Dim3)
    (out : Outboxes) : Except Fault Outboxes := do
  let n := dd.neighbours di dir
  let rMsg : Message := ⟨dir, n.srcGPU, di⟩
  if dd.rank_ = n.srcRank then do
    let myDev := (← vecAt dd.domains_ di).gpu
    let srcDev := (← vecAtInt dd.domains_ n.srcGPU).gpu
    if myDev = srcDev ∧ dd.any_methods MethodFlags.CudaKernel then
      pure out
    else if dd.any_methods MethodFlags.CudaMemcpyPeer then
      pure out
    else if dd.any_methods MethodFlags.CudaMpi then
      pure { out with remoteInboxes := ← pushAt Dim3.lt out.remoteInboxes di n.srcIdx rMsg }
    else throw Fault.noMethod
  else if dd.colocated_.count n.srcRank ≠ 0 ∧ dd.any_methods MethodFlags.CudaMpi then
    pure { out with
      colocatedInboxes := ← pushAt intLt out.colocatedInboxes di n.srcRank rMsg }
  else if dd.any_methods MethodFlags.CudaMpi then
    pure { out with remoteInboxes := ← pushAt Dim3.lt out.remoteInboxes di n.srcIdx rMsg }
  else throw Fault.noMethod

/-- The body of the planning loops for one sub-domain and one direction. -/
def DistributedDomain.planStep (dd : DistributedDomain) (di : Nat) (out : Outboxes)
    (dir : Dim3) : Except Fault Outboxes := do
  let out ← dd.planSend di dir out
  dd.planRecv di dir out

/-- The block "plan messages" of `realize()`. -/
def DistributedDomain.planMessages (dd : DistributedDomain) (out : Outboxes) :
    Except Fault Outboxes :=
  (List.range dd.domains_.length).foldlM
    (fun out di => loopDirs.foldlM (dd.planStep di) out) out

/-! ## The partition (`stencil/partition.hpp`, modelled from the specification) -/

/-- Modelled from the spec: `partition.hpp` is missing. The prime factors of `n`, with
multiplicity, found by trial division from `d` upwards (`fuel` bounds the search). The
specification does not say in which order the factors are assigned; they are taken in
increasing order. -/
def primeFactorsFrom : Nat → Nat → Nat → List Nat
  | 0, _, _ => []
  | fuel + 1, d, n =>
    if n < 2 then []
    else if n % d = 0 then d :: primeFactorsFrom fuel d (n / d)
    else primeFactorsFrom fuel (d + 1) n

/-- Modelled from the spec: `partition.hpp` is missing. "factor `R` and `D` independently
into primes". -/
def prime_factors (n : Nat) : List Nat := primeFactorsFrom (2 * n) 2 n

/-- Modelled from the spec: `partition.hpp` is missing. `ceil(n / d)` on non-negative
integers. -/
def div_ceil (n d : Int) : Int := (n + d - 1) / d

/-- Modelled from the spec: `partition.hpp` is missing. One step of "greedily assign each
prime factor to the currently-longest axis of the working extent", "ties broken by lower axis
index": the pair is (working extent, grid so far). The working extent of the chosen axis
shrinks to the extent of its first part, `ceil(extent / p)`. -/
def assignFactor (st : Dim3 × Dim3) (p : Nat) : Dim3 × Dim3 :=
  let (ext, grid) := st
  if ext.x ≥ ext.y ∧ ext.x ≥ ext.z then
    ({ ext with x := div_ceil ext.x p }, { grid with x := grid.x * p })
  else if ext.y ≥ ext.z then
    ({ ext with y := div_ceil ext.y p }, { grid with y := grid.y * p })
  else
    ({ ext with z := div_ceil ext.z p }, { grid with z := grid.z * p })

/-- Modelled from the spec: `partition.hpp` is missing. The Prime-Factor Partition: global
extent `G`, process grid `R_grid`, device grid `D_grid`. -/
structure PFP where
  size_ : Dim3
  rankDim_ : Dim3
  gpuDim_ : Dim3
  deriving DecidableEq, Repr

/-- Modelled from the spec: `partition.hpp` is missing. The constructor `PFP(G, R, D)`:
the factors of `R` are assigned on the global extent ("rank grid first"), "then device grid
on the residual local extent"; "construction with `R ≤ 0`, `D ≤ 0`, or any
`G_i < R_grid_i · D_grid_i` results in a partition-infeasible error", here `none`. -/
def PFP.make (G : Dim3) (R D : Int) : Option PFP :=
  if R ≤ 0 ∨ D ≤ 0 then none else
  let (ext, rankDim) := (prime_factors R.toNat).foldl assignFactor (G, ⟨1, 1, 1⟩)
  let (_, gpuDim) := (prime_factors D.toNat).foldl assignFactor (ext, ⟨1, 1, 1⟩)
  if G.x < rankDim.x * gpuDim.x ∨ G.y < rankDim.y * gpuDim.y ∨ G.z < rankDim.z * gpuDim.z
  then none
  else some ⟨G, rankDim, gpuDim⟩

/-- Modelled from the spec: `rank_dim()`, the process-grid extent. -/
def PFP.rank_dim (p : PFP) : Dim3 := p.rankDim_

/-- Modelled from the spec: `gpu_dim()`, the device-grid extent. -/
def PFP.gpu_dim (p : PFP) : Dim3 := p.gpuDim_

/-- Modelled from the spec: the "row-major inverse of flat index" into a grid of extent
`dim`, the `x` component running fastest. -/
def unflatten (dim : Dim3) (i : Int) : Dim3 := ⟨i % dim.x, i / dim.x % dim.y, i / dim.x / dim.y⟩

/-- Modelled from the spec: the "forward mapping" of a grid index of a grid of extent `dim`
to its flat index, the `x` component running fastest. -/
def flatten (dim : Dim3) (idx : Dim3) : Int := idx.x + idx.y * dim.x + idx.z * dim.x * dim.y

/-- Modelled from the spec: `rank_idx(rankId)`, "row-major inverse of flat index" into the
process grid. -/
def PFP.rank_idx (p : PFP) (i : Int) : Dim3 := unflatten p.rankDim_ i

/-- Modelled from the spec: `gpu_idx(slotId)`, "row-major inverse of flat index" into the
device grid. -/
def PFP.gpu_idx (p : PFP) (i : Int) : Dim3 := unflatten p.gpuDim_ i

/-- Modelled from the spec: `get_rank(idx)`, the "forward mapping" to the flat rank id. Its
argument is a global sub-domain index: the engine calls `partition_->get_rank(dstIdx)` on an
index wrapped in `gpu_dim() * rank_dim()`. In "the sub-domain's position within the overall
`R_grid · D_grid` global index space" the process-grid index is the quotient by the device
grid, which is then flattened over the process grid. -/
def PFP.get_rank (p : PFP) (idx : Dim3) : Int :=
  flatten p.rankDim_ ⟨idx.x / p.gpuDim_.x, idx.y / p.gpuDim_.y, idx.z / p.gpuDim_.z⟩

/-- Modelled from the spec: `get_gpu(idx)`, the "forward mapping" to the flat device slot. Its
argument is a global sub-domain index, as for `get_rank`: the device-grid index is the
remainder by the device grid, which is then flattened over the device grid. -/
def PFP.get_gpu (p : PFP) (idx : Dim3) : Int :=
  flatten p.gpuDim_ ⟨idx.x % p.gpuDim_.x, idx.y % p.gpuDim_.y, idx.z % p.gpuDim_.z⟩

/-- Modelled from the spec: `dom_idx(rankId, slotId)`, "the sub-domain's position within the
overall `R_grid · D_grid` global index space". -/
def PFP.dom_idx (p : PFP) (rank gpu : Int) : Dim3 := p.rank_idx rank * p.gpuDim_ + p.gpu_idx gpu

/-- Modelled from the spec: the local extent along one axis of global extent `G` cut in `N`
parts: "the first `G_a mod N_a` sub-domains along axis `a` get `ceil(G_a / N_a)`; the
remainder get `floor(G_a / N_a)`". -/
def axisSize (G N i : Int) : Int := if i < G % N then div_ceil G N else G / N

/-- Modelled from the spec: `local_domain_size(subDomainIdx)`, the policy of `axisSize`
"applied independently per axis" with `N_a = R_grid_a · D_grid_a`. -/
def PFP.local_domain_size (p : PFP) (idx : Dim3) : Dim3 :=
  ⟨axisSize p.size_.x (p.rankDim_.x * p.gpuDim_.x) idx.x,
   axisSize p.size_.y (p.rankDim_.y * p.gpuDim_.y) idx.y,
   axisSize p.size_.z (p.rankDim_.z * p.gpuDim_.z) idx.z⟩

/-- Modelled from the spec: the `PFP` object behind the `Partition` interface the engine
holds. -/
def PFP.toPartition (p : PFP) : Partition :=
  { rank_dim := p.rank_dim, gpu_dim := p.gpu_dim, get_rank := p.get_rank,
    get_gpu := p.get_gpu, dom_idx := p.dom_idx, local_domain_size := p.local_domain_size }

/-! ## The prepare calls of `realize()` -/

/-- The transport objects of the engine. -/
inductive Peer where
  | peerAccessSender
  | peerCopySender
  | colocatedSender (di : Nat) (dstRank : Int)
  | colocatedRecver (di : Nat) (srcRank : Int)
  | remoteSender (di : Nat) (dstIdx : Dim3)
  | remoteRecver (di : Nat) (srcIdx : Dim3)
  deriving DecidableEq, Repr

/-- A call `realize()` makes on a transport object, with the messages it hands over. -/
inductive Call where
  | prepare (peer : Peer) (msgs : List Message)
  | start_prepare (peer : Peer) (msgs : List Message)
  | finish_prepare (peer : Peer)
  deriving DecidableEq, Repr

/-- The object a call is made on. -/
def Call.peer : Call → Peer
  | .prepare p _ => p
  | .start_prepare p _ => p
  | .finish_prepare p => p

/-- Whether a call is a `start_prepare`. -/
def Call.isStart : Call → Bool
  | .start_prepare _ _ => true
  | _ => false

/-- Whether a call is a `finish_prepare`. -/
def Call.isFinish : Call → Bool
  | .finish_prepare _ => true
  | _ => false

/-- The calls a piece of code makes, in order, and the fault that stopped it, if any. -/
abbrev Trace := List Call × Option Fault

/-- Sequential composition: the second piece runs only when the first did not stop. -/
def Trace.seq (a b : Trace) : Trace :=
  match a.2 with
  | none => (a.1 ++ b.1, b.2)
  | some e => (a.1, some e)

/-- A `for` loop over `l` whose body makes the calls `body b`. -/
def forEach {β : Type} : List β → (β → Trace) → Trace
  | [], _ => ([], none)
  | b :: rest, body => (body b).seq (forEach rest body)

/-- A single call whose argument may fail to evaluate. -/
def call (c : Except Fault Call) : Trace :=
  match c with
  | .ok c => ([c], none)
  | .error e => ([], some e)

/-- The block "prep colocated" of `realize()`: the loop of `start_prepare` calls, then the
loop of `finish_prepare` calls. -/
def DistributedDomain.prepColocated (dd : DistributedDomain) (out : Outboxes) : Trace :=
  if dd.colocatedSenders_.length ≠ dd.colocatedRecvers_.length then ([], some Fault.assertion)
  else
    (forEach (List.range dd.colocatedSenders_.length) fun di =>
      (forEach (dd.colocatedSenders_.getD di []).keys fun dstRank =>
        call do
          let m ← vecAt out.colocatedOutboxes di
          pure (Call.start_prepare (Peer.colocatedSender di dstRank) (m.getD dstRank))).seq
      (forEach (dd.colocatedRecvers_.getD di []).keys fun srcRank =>
        call do
          let m ← vecAt out.colocatedInboxes di
          pure (Call.start_prepare (Peer.colocatedRecver di srcRank) (m.getD srcRank)))).seq
    (forEach (List.range dd.colocatedSenders_.length) fun di =>
      (forEach (dd.colocatedSenders_.getD di []).keys fun dstRank =>
        call (pure (Call.finish_prepare (Peer.colocatedSender di dstRank)))).seq
      (forEach (dd.colocatedRecvers_.getD di []).keys fun srcRank =>
        call (pure (Call.finish_prepare (Peer.colocatedRecver di srcRank)))))

/-- The block "prep remote" of `realize()`. -/
def DistributedDomain.prepRemote (dd : DistributedDomain) (out : Outboxes) : Trace :=
  if dd.remoteSenders_.length ≠ dd.remoteRecvers_.length then ([], some Fault.assertion)
  else
    forEach (List.range dd.remoteSenders_.length) fun di =>
      (forEach (dd.remoteSenders_.getD di []).keys fun dstIdx =>
        call do
          let m ← vecAt out.remoteOutboxes di
          pure (Call.prepare (Peer.remoteSender di dstIdx) (m.getD dstIdx))).seq
      (forEach (dd.remoteRecvers_.getD di []).keys fun srcIdx =>
        call do
          let m ← vecAt out.remoteInboxes di
          pure (Call.prepare (Peer.remoteRecver di srcIdx) (m.getD srcIdx)))

/-- The prepare calls of `realize()`, after the plan: same-device sender, peer-copy sender,
shared-host senders and receivers, remote senders and receivers. -/
def DistributedDomain.prepareAll (dd : DistributedDomain) (out : Outboxes) : Trace :=
  (call (pure (Call.prepare Peer.peerAccessSender out.peerAccessOutbox))).seq
    ((call (pure (Call.prepare Peer.peerCopySender out.peerCopyOutbox))).seq
      ((dd.prepColocated out).seq (dd.prepRemote out)))

/-- The planning part of `realize()`: local domains, the two creation passes, the plan. -/
def DistributedDomain.realizePlan (dd : DistributedDomain) :
    Except Fault (DistributedDomain × Outboxes) := do
  let dd := dd.createLocalDomains
  let (dd, out) ← DistributedDomain.createRemote (dd, Outboxes.empty)
  let (dd, out) ← DistributedDomain.createColocated (dd, out)
  let out ← dd.planMessages out
  pure (dd, out)

/-- The method `realize()`: the engine after the call and the prepare calls made, or the
fault that stopped the planning. -/
def DistributedDomain.realize (dd : DistributedDomain) :
    Except Fault (DistributedDomain × Trace) := do
  let (dd, out) ← dd.realizePlan
  pure (dd, dd.prepareAll out)

/-- The engine as its constructor leaves it on rank `rank` of `worldSize` ranks, all of
`colocated` on this host, with the devices `gpus` and the partition `part`: no domains, no
senders, all methods enabled. -/
def DistributedDomain.init (size : Dim3) (rank worldSize : Int) (gpus : List Int)
    (colocated : List Int) (part : Partition) : DistributedDomain :=
  { size_ := size, rank_ := rank, worldSize_ := worldSize, gpus_ := gpus, radius_ := 0,
    domains_ := [], domainIdx_ := [], partition_ := part, remoteSenders_ := [],
    remoteRecvers_ := [], colocatedSenders_ := [], colocatedRecvers_ := [],
    dataElemSize_ := [], colocated_ := colocated, flags_ := MethodFlags.All }

/-- The member `set_methods`. -/
def DistributedDomain.set_methods (dd : DistributedDomain) (flags : MethodFlags) :
    DistributedDomain := { dd with flags_ := flags }

/-! ## Example engines -/

/-- The partition `PFP((12,4,4), R, 1)` of a `12 x 4 x 4` domain over `R = 2` or `R = 3`
ranks with one device each: the ranks in a line along `x`. -/
def linePFP (R : Int) : PFP := ⟨⟨12, 4, 4⟩, ⟨R, 1, 1⟩, ⟨1, 1, 1⟩⟩

/-- The engine `DistributedDomain(12, 4, 4)` on rank 1 of two ranks that share a host with
two devices: the constructor gives rank 1 the device 1. -/
def twoRanks : DistributedDomain :=
  DistributedDomain.init ⟨12, 4, 4⟩ 1 2 [1] [0, 1] (linePFP 2).toPartition

/-- The engine `DistributedDomain(12, 4, 4)` on rank 1 of three ranks that share a host with
three devices: the constructor gives rank 1 the device 1. -/
def threeRanks : DistributedDomain :=
  DistributedDomain.init ⟨12, 4, 4⟩ 1 3 [1] [0, 1, 2] (linePFP 3).toPartition

/-- The number of messages in the boxes of one map. -/
def AMap.total {K V : Type} (m : AMap K (List V)) : Nat := (m.map fun kv => kv.2.length).sum

/-- The number of messages in the boxes of a vector of maps. -/
def boxTotal {K V : Type} (v : List (AMap K (List V))) : Nat := (v.map AMap.total).sum

/-- The number of messages in the outboxes of all four tiers. -/
def Outboxes.outgoing (out : Outboxes) : Nat :=
  out.peerAccessOutbox.length + out.peerCopyOutbox.length
    + (boxTotal out.colocatedOutboxes + boxTotal out.remoteOutboxes)

/-! ## The classification of a send, as a table -/

/-- The outcome of classifying one send or receive: one of the four transport tiers, or the
"no method available" error. -/
inductive Tier where
  | sameDevice
  | peerCopy
  | sharedHost
  | remote
  | fatal
  deriving DecidableEq, Repr

/-- Whether `flags` enables one of `methods`. -/
def enabled (flags methods : MethodFlags) : Bool := (methods &&& flags) != MethodFlags.None

/-- The rule list of the specification for a send, in its words: "same rank AND same
physical device AND same-device tier enabled ⇒ tier 1; same rank AND peer-copy tier enabled ⇒
tier 2; different rank, same host, shared-host tier enabled ⇒ tier 3; different rank,
cross-host tier enabled ⇒ tier 4; otherwise ⇒ no-method-available fatal error". -/
def specTier (sameRank sameDev colocated : Bool) (flags : MethodFlags) : Tier :=
  if sameRank && sameDev && enabled flags MethodFlags.CudaKernel then Tier.sameDevice
  else if sameRank && enabled flags MethodFlags.CudaMemcpyPeer then Tier.peerCopy
  else if !sameRank && colocated && enabled flags MethodFlags.CudaMpiColocated then
    Tier.sharedHost
  else if !sameRank && enabled flags MethodFlags.CudaMpi then Tier.remote
  else Tier.fatal

/-- The branches of the planner's send classification, as a table: the rule list of the
specification with the planner's `else if (any_methods(MethodFlags::CudaMpi))` of the same-rank
case in third place. -/
def sendTier (sameRank sameDev colocated : Bool) (flags : MethodFlags) : Tier :=
  if sameRank && sameDev && enabled flags MethodFlags.CudaKernel then Tier.sameDevice
  else if sameRank && enabled flags MethodFlags.CudaMemcpyPeer then Tier.peerCopy
  else if sameRank && enabled flags MethodFlags.CudaMpi then Tier.remote
  else if !sameRank && colocated && enabled flags MethodFlags.CudaMpiColocated then
    Tier.sharedHost
  else if !sameRank && enabled flags MethodFlags.CudaMpi then Tier.remote
  else Tier.fatal

/-- The number of messages in the inboxes of the two tiers that have receivers. -/
def Outboxes.incoming (out : Outboxes) : Nat :=
  boxTotal out.colocatedInboxes + boxTotal out.remoteInboxes

/-- The message `sMsg(dir, di, dstGPU)` the planning step builds for a send. -/
def DistributedDomain.sMsg (dd : DistributedDomain) (di : Nat) (dir : Dim3) : Message :=
  ⟨dir, di, (dd.neighbours di dir).dstGPU⟩

/-- The message `rMsg(dir, srcGPU, di)` the planning step builds for a receive. -/
def DistributedDomain.rMsg (dd : DistributedDomain) (di : Nat) (dir : Dim3) : Message :=
  ⟨dir, (dd.neighbours di dir).srcGPU, di⟩

/-- The outboxes after `peerAccessOutbox.push_back(m)`. -/
def Outboxes.toSameDevice (out : Outboxes) (m : Message) : Outboxes :=
  { out with peerAccessOutbox := out.peerAccessOutbox ++ [m] }

/-- The outboxes after `peerCopyOutbox.push_back(m)`. -/
def Outboxes.toPeerCopy (out : Outboxes) (m : Message) : Outboxes :=
  { out with peerCopyOutbox := out.peerCopyOutbox ++ [m] }

/-- The outboxes after `colocatedOutboxes[di][dstRank].push_back(m)`, the map
`colocatedOutboxes[di]` being `box`. -/
def Outboxes.toSharedHost (out : Outboxes) (di : Nat) (box : AMap Int (List Message))
    (dstRank : Int) (m : Message) : Outboxes :=
  { out with colocatedOutboxes := out.colocatedOutboxes.set di (AMap.push intLt box dstRank m) }

/-- The outboxes after `remoteOutboxes[di][dstIdx].push_back(m)`, the map
`remoteOutboxes[di]` being `box`. -/
def Outboxes.toRemote (out : Outboxes) (di : Nat) (box : AMap Dim3 (List Message))
    (dstIdx : Dim3) (m : Message) : Outboxes :=
  { out with remoteOutboxes := out.remoteOutboxes.set di (AMap.push Dim3.lt box dstIdx m) }

/-- The engine `twoRanks` after the first loop of `realize()`: its one local domain, on
device 1, exists. -/
def twoRanksReady : DistributedDomain := twoRanks.createLocalDomains

/-- The boxes of `twoRanks` as the two creation passes leave them with all methods enabled:
one empty box per tier towards rank 0, whose sub-domain has index `(0,0,0)`. -/
def twoRanksBoxes : Outboxes :=
  ⟨[], [], [[(0, [])]], [[(0, [])]], [[(⟨0, 0, 0⟩, [])]], [[(⟨0, 0, 0⟩, [])]]⟩

/-- The only local domain of `twoRanks`: the half `6 x 4 x 4` of the domain, on device 1. -/
def twoRanksDomain : LocalDomain := ⟨⟨6, 4, 4⟩, 1, 0, [], true⟩

/-- The `start_prepare` calls of the "prep colocated" block for sub-domain `di`, when every
box it reads exists. -/
def DistributedDomain.startCalls (dd : DistributedDomain) (out : Outboxes) (di : Nat) :
    List Call :=
  ((dd.colocatedSenders_.getD di []).keys.map fun k =>
    Call.start_prepare (Peer.colocatedSender di k) ((out.colocatedOutboxes.getD di []).getD k))
  ++ ((dd.colocatedRecvers_.getD di []).keys.map fun k =>
    Call.start_prepare (Peer.colocatedRecver di k) ((out.colocatedInboxes.getD di []).getD k))

/-- The `finish_prepare` calls of the "prep colocated" block for sub-domain `di`. -/
def DistributedDomain.finishCalls (dd : DistributedDomain) (di : Nat) : List Call :=
  ((dd.colocatedSenders_.getD di []).keys.map fun k =>
    Call.finish_prepare (Peer.colocatedSender di k))
  ++ ((dd.colocatedRecvers_.getD di []).keys.map fun k =>
    Call.finish_prepare (Peer.colocatedRecver di k))

/-- The engine `twoRanks` as the planning part of `realize()` leaves it with all methods
enabled: one shared-host sender and one receiver, both for rank 0, and one remote pair. -/
def twoRanksPlanned : DistributedDomain :=
  { twoRanksReady with
    remoteSenders_ := [[(⟨0, 0, 0⟩, ⟨0, 0, 1, 0⟩)]],
    remoteRecvers_ := [[(⟨0, 0, 0⟩, ⟨1, 0, 0, 0⟩)]],
    colocatedSenders_ := [[(0, ⟨0, 0, 0, 0⟩)]],
    colocatedRecvers_ := [[(0, ⟨0, 0, 0, 0⟩)]] }

/-- The four messages `twoRanks` plans for rank 0: those of the directions with `x = -1`. -/
def twoRanksToRank0 : List Message :=
  [⟨⟨-1, -1, -1⟩, 0, 0⟩, ⟨⟨-1, 0, -1⟩, 0, 0⟩, ⟨⟨-1, -1, 0⟩, 0, 0⟩, ⟨⟨-1, 0, 0⟩, 0, 0⟩]

/-- The boxes of `twoRanks` after the planning pass with all methods enabled. -/
def twoRanksPlannedBoxes : Outboxes :=
  ⟨[⟨⟨0, -1, -1⟩, 0, 0⟩, ⟨⟨0, 0, -1⟩, 0, 0⟩, ⟨⟨0, -1, 0⟩, 0, 0⟩], [],
    [[(0, twoRanksToRank0)]], [[(0, twoRanksToRank0)]],
    [[(⟨0, 0, 0⟩, [])]], [[(⟨0, 0, 0⟩, [])]]⟩

/-- The state of the shared-host maps that the "prep colocated" block relies on: as many
sender maps as receiver maps, a box map for each of them, and distinct keys in every map. -/
def ColocatedWF (st : DistributedDomain × Outboxes) : Prop :=
  st.1.colocatedSenders_.length = st.1.colocatedRecvers_.length ∧
  st.1.colocatedSenders_.length ≤ st.2.colocatedOutboxes.length ∧
  st.1.colocatedSenders_.length ≤ st.2.colocatedInboxes.length ∧
  (∀ m ∈ st.1.colocatedSenders_, (AMap.keys m).Nodup) ∧
  (∀ m ∈ st.1.colocatedRecvers_, (AMap.keys m).Nodup)

/-! ## Direction maps and radii (`stencil/direction_map.hpp`, `stencil/radius.hpp`) -/

/-- The class `DirectionMap<T>`: the array `data_[z][y][x]`, three by three by three. -/
structure DirectionMap (T : Type) where
  data_ : Fin 3 → Fin 3 → Fin 3 → T

/-- An index into a `std::array<_, 3>`: defined for `0`, `1` and `2` only. -/
def arrayIndex (i : Int) : Except Fault (Fin 3) :=
  if h : 0 ≤ i ∧ i < 3 then pure ⟨i.toNat, by omega⟩ else throw Fault.outOfRange

/-- The array `data_` with the element `data_[zi][yi][xi]` replaced by `v`. -/
def DirectionMap.store {T : Type} (m : DirectionMap T) (zi yi xi : Fin 3) (v : T) :
    DirectionMap T :=
  ⟨fun a b c => if a = zi ∧ b = yi ∧ c = xi then v else m.data_ a b c⟩

/-- A read through the reference `at(x, y, z)`: the three assertions, all on `x`, then
`data_[z][y][x]`. -/
def DirectionMap.at {T : Type} (m : DirectionMap T) (x y z : Int) : Except Fault T := do
  assert (decide (x ≥ 0) && decide (x ≤ 2))
  assert (decide (x ≥ 0) && decide (x ≤ 2))
  assert (decide (x ≥ 0) && decide (x ≤ 2))
  let zi ← arrayIndex z
  let yi ← arrayIndex y
  let xi ← arrayIndex x
  pure (m.data_ zi yi xi)

/-- The assignment `at(x, y, z) = v`. -/
def DirectionMap.set_at {T : Type} (m : DirectionMap T) (x y z : Int) (v : T) :
    Except Fault (DirectionMap T) := do
  assert (decide (x ≥ 0) && decide (x ≤ 2))
  assert (decide (x ≥ 0) && decide (x ≤ 2))
  assert (decide (x ≥ 0) && decide (x ≤ 2))
  let zi ← arrayIndex z
  let yi ← arrayIndex y
  let xi ← arrayIndex x
  pure (m.store zi yi xi v)

/-- A read through the reference of the non-const `at_dir(x, y, z)`: the three assertions,
all on `x`, then `data_[z + 1][y + 1][x + 1]`. -/
def DirectionMap.at_dir {T : Type} (m : DirectionMap T) (x y z : Int) : Except Fault T := do
  assert (decide (x ≥ -1) && decide (x ≤ 1))
  assert (decide (x ≥ -1) && decide (x ≤ 1))
  assert (decide (x ≥ -1) && decide (x ≤ 1))
  let zi ← arrayIndex (z + 1)
  let yi ← arrayIndex (y + 1)
  let xi ← arrayIndex (x + 1)
  pure (m.data_ zi yi xi)

/-- The assignment `at_dir(x, y, z) = v` through the non-const `at_dir`. -/
def DirectionMap.set_at_dir {T : Type} (m : DirectionMap T) (x y z : Int) (v : T) :
    Except Fault (DirectionMap T) := do
  assert (decide (x ≥ -1) && decide (x ≤ 1))
  assert (decide (x ≥ -1) && decide (x ≤ 1))
  assert (decide (x ≥ -1) && decide (x ≤ 1))
  let zi ← arrayIndex (z + 1)
  let yi ← arrayIndex (y + 1)
  let xi ← arrayIndex (x + 1)
  pure (m.store zi yi xi v)

/-- The const `at_dir(x, y, z)`, whose body is `return at_dir(x, y, z);`. On a const object
the call in the body resolves to the const overload, this function itself. `fuel` bounds the
depth of the calls; `none` means the call has not returned at that depth. -/
def DirectionMap.at_dir_const {T : Type} (m : DirectionMap T) (x y z : Int) :
    Nat → Option (Except Fault T)
  | 0 => none
  | fuel + 1 => DirectionMap.at_dir_const m x y z fuel

/-- The class `Radius`: a direction map of `size_t`. -/
structure Radius where
  rads_ : DirectionMap Nat

/-- A read through the non-const `Radius::dir(x, y, z)`: `rads_.at_dir(x, y, z)`. -/
def Radius.dir (r : Radius) (x y z : Int) : Except Fault Nat := r.rads_.at_dir x y z

/-- The const `Radius::dir(x, y, z)`: `rads_.at_dir(x, y, z)` on the const member, the const
overload of `at_dir`. -/
def Radius.dir_const (r : Radius) (x y z : Int) (fuel : Nat) : Option (Except Fault Nat) :=
  r.rads_.at_dir_const x y z fuel

/-- The const accessor `Radius::x(d)`: two assertions, then the const `dir(d, 0, 0)`. -/
def Radius.x (r : Radius) (d : Int) (fuel : Nat) : Option (Except Fault Nat) :=
  if ¬ (d ≥ -1) then some (throw Fault.assertion) else
  if ¬ (d ≤ 1) then some (throw Fault.assertion) else
  r.dir_const d 0 0 fuel

/-- The const accessor `Radius::y(d)`: two assertions, then the const `dir(0, d, 0)`. -/
def Radius.y (r : Radius) (d : Int) (fuel : Nat) : Option (Except Fault Nat) :=
  if ¬ (d ≥ -1) then some (throw Fault.assertion) else
  if ¬ (d ≤ 1) then some (throw Fault.assertion) else
  r.dir_const 0 d 0 fuel

/-- The const accessor `Radius::z(d)`: two assertions, then the const `dir(0, 0, d)`. -/
def Radius.z (r : Radius) (d : Int) (fuel : Nat) : Option (Except Fault Nat) :=
  if ¬ (d ≥ -1) then some (throw Fault.assertion) else
  if ¬ (d ≤ 1) then some (throw Fault.assertion) else
  r.dir_const 0 0 d fuel

/-- The statement `rads_.at(x, y, z) = v` of the setters. -/
def Radius.put (r : Radius) (x y z : Int) (v : Nat) : Except Fault Radius := do
  pure ⟨← r.rads_.set_at x y z v⟩

/-- The member `Radius::set_face(r)`. -/
def Radius.set_face (self : Radius) (r : Nat) : Except Fault Radius := do
  let self ← self.put 0 0 1 r
  let self ← self.put 0 0 2 r
  let self ← self.put 0 1 0 r
  let self ← self.put 0 2 0 r
  let self ← self.put 1 0 0 r
  self.put 2 0 0 r

/-- The member `Radius::set_edge(r)`. -/
def Radius.set_edge (self : Radius) (r : Nat) : Except Fault Radius := do
  let self ← self.put 0 1 1 r
  let self ← self.put 0 1 2 r
  let self ← self.put 0 2 1 r
  let self ← self.put 0 2 2 r
  let self ← self.put 1 0 1 r
  let self ← self.put 1 0 2 r
  let self ← self.put 2 0 1 r
  let self ← self.put 2 0 2 r
  let self ← self.put 1 1 0 r
  let self ← self.put 1 2 0 r
  let self ← self.put 2 1 0 r
  self.put 2 2 0 r

/-- The member `Radius::set_corner(r)`. -/
def Radius.set_corner (self : Radius) (r : Nat) : Except Fault Radius := do
  let self ← self.put 1 1 1 r
  let self ← self.put 1 1 2 r
  let self ← self.put 1 2 1 r
  let self ← self.put 1 2 2 r
  let self ← self.put 2 1 1 r
  let self ← self.put 2 1 2 r
  let self ← self.put 2 2 1 r
  self.put 2 2 2 r

/-- The static `Radius::constant(r)`. The local `Radius result;` is not initialised: `init`
is what its memory holds. The three loops run `zi`, `yi`, `xi` over `0, 1, 2`. -/
def Radius.constant (init : Radius) (r : Nat) : Except Fault Radius :=
  (intRange 0 3).foldlM (fun result zi =>
    (intRange 0 3).foldlM (fun result yi =>
      (intRange 0 3).foldlM (fun (result : Radius) xi => result.put xi yi zi r) result)
      result) init

/-- The static `Radius::face_edge_corner(face, edge, corner)`. The local `Radius result;` is
not initialised: `init` is what its memory holds. -/
def Radius.face_edge_corner (init : Radius) (face edge corner : Nat) : Except Fault Radius := do
  let result := init
  let result ← result.set_face face
  let result ← result.set_edge edge
  let result ← result.set_corner corner
  pure ⟨← result.rads_.set_at_dir 0 0 0 0⟩

/-- A radius whose 27 entries all hold `v`: one possible content of uninitialised memory. -/
def Radius.filled (v : Nat) : Radius := ⟨⟨fun _ _ _ => v⟩⟩

/-- The number of components of a triple that are not zero. -/
def nonZeroCount (x y z : Int) : Nat :=
  (if x = 0 then 0 else 1) + (if y = 0 then 0 else 1) + (if z = 0 then 0 else 1)

/-! ## Registering data fields (`DistributedDomain::add_data`) -/

/-- Modelled from the spec: the handle `DataHandle<T>` of `stencil/local_domain.cuh`, a
wrapper of the index it is constructed from. -/
structure DataHandle where
  id_ : Nat
  deriving DecidableEq, Repr

/-- The member `add_data<T>()`, given `sizeof(T)`: `dataElemSize_.push_back(sizeof(T))`, then
the handle of `dataElemSize_.size() - 1`. The size is at least one after the push, so the
unsigned subtraction does not wrap. -/
def DistributedDomain.add_data (dd : DistributedDomain) (sizeofT : Nat) :
    DistributedDomain × DataHandle :=
  let dd := { dd with dataElemSize_ := dd.dataElemSize_ ++ [sizeofT] }
  (dd, ⟨dd.dataElemSize_.length - 1⟩)

/-- A run of `add_data` calls, one per element size, with the handles in the order the calls
return them. -/
def DistributedDomain.add_data_all (dd : DistributedDomain) :
    List Nat → DistributedDomain × List DataHandle
  | [] => (dd, [])
  | sz :: rest =>
    let r := dd.add_data sz
    let rs := DistributedDomain.add_data_all r.1 rest
    (rs.1, r.2 :: rs.2)

/-! ## An engine on a single rank -/

/-- The engine `DistributedDomain(4, 4, 4)` on the only rank of a run, with one device. -/
def oneRank : DistributedDomain :=
  DistributedDomain.init ⟨4, 4, 4⟩ 0 1 [0] [0]
    (PFP.toPartition ⟨⟨4, 4, 4⟩, ⟨1, 1, 1⟩, ⟨1, 1, 1⟩⟩)

/-- The local domain of `oneRank`: the whole `4 x 4 x 4` domain on device 0, realized. -/
def oneRankDomain : LocalDomain := ⟨⟨4, 4, 4⟩, 0, 0, [], true⟩

/-- The engine `oneRank` with `n` copies of its local domain and one empty map in each of the
four sender and receiver vectors. -/
def oneRankAfter (n : Nat) : DistributedDomain :=
  { oneRank with
    domains_ := List.replicate n oneRankDomain,
    domainIdx_ := List.replicate n ⟨0, 0, 0⟩,
    remoteSenders_ := [[]], remoteRecvers_ := [[]],
    colocatedSenders_ := [[]], colocatedRecvers_ := [[]] }

/-! ## The poll loop of `exchange()` (`stencil/stencil.hpp`)

`stencil/tx.hpp` is not part of the sources at hand: the two endpoint classes are modelled
from the state machines of the specification. The vector of maps `remoteRecvers_` is a list in
iteration order (sub-domain by sub-domain, each map in key order), and an endpoint is named by
its position in that order; likewise `remoteSenders_`. The answers of the asynchronous queries
`h2h_done()` and `d2h_done()` are those of an arbitrary function of the number of queries made
so far. -/

/-- Modelled from the spec: the stages of a remote sender,
`IDLE → D2H → H2H → DONE → IDLE`. -/
inductive SenderState where
  | IDLE
  | D2H
  | H2H
  | DONE
  deriving DecidableEq, Repr

/-- Modelled from the spec: the stages of a remote receiver,
`IDLE → H2H → H2D → DONE → IDLE`. -/
inductive RecverState where
  | IDLE
  | H2H
  | H2D
  | DONE
  deriving DecidableEq, Repr

/-- Modelled from the spec: a remote sender, as the stage it is in. -/
structure RemoteSender where
  state_ : SenderState
  deriving DecidableEq, Repr

/-- Modelled from the spec: a remote receiver, as the stage it is in. -/
structure RemoteRecver where
  state_ : RecverState
  deriving DecidableEq, Repr

/-- Modelled from the spec: the query `is_d2h()`. -/
def RemoteSender.is_d2h (s : RemoteSender) : Bool := decide (s.state_ = SenderState.D2H)

/-- Modelled from the spec: the call `send_h2h()` takes the sender to the host-to-host stage. -/
def RemoteSender.send_h2h (_ : RemoteSender) : RemoteSender := ⟨SenderState.H2H⟩

/-- Modelled from the spec: the query `is_h2h()`. -/
def RemoteRecver.is_h2h (r : RemoteRecver) : Bool := decide (r.state_ = RecverState.H2H)

/-- Modelled from the spec: the call `recv_h2d()` takes the receiver to the host-to-device
stage. -/
def RemoteRecver.recv_h2d (_ : RemoteRecver) : RemoteRecver := ⟨RecverState.H2D⟩

/-- An advance made by the poll loop: the position of the endpoint, the endpoint as it was
when the call was made, and the number of the query whose answer led to the call. -/
inductive PollCall where
  | recv_h2d (i : Nat) (recver : RemoteRecver) (query : Nat)
  | send_h2h (i : Nat) (sender : RemoteSender) (query : Nat)
  deriving DecidableEq, Repr

/-- The endpoint a call advances: `Sum.inl i` for receiver `i`, `Sum.inr i` for sender `i`. -/
def PollCall.target : PollCall → Nat ⊕ Nat
  | .recv_h2d i _ _ => Sum.inl i
  | .send_h2h i _ _ => Sum.inr i

/-- The state of the poll loop: the endpoints, the local `pending`, the number of `done`
queries made, and the advances made so far. -/
structure PollState where
  remoteRecvers_ : List RemoteRecver
  remoteSenders_ : List RemoteSender
  pending : Bool
  queries : Nat
  calls : List PollCall
  deriving DecidableEq, Repr

/-- The loops under the label `recvers:` over the receivers at the positions given: the state
after them, and whether they were left by `goto senders`. -/
def recversLoop (done : Nat → Bool) : List Nat → PollState → PollState × Bool
  | [], s => (s, false)
  | i :: rest, s =>
    let recver := s.remoteRecvers_.getD i ⟨RecverState.IDLE⟩
    if recver.is_h2h then
      let s := { s with pending := true }
      let q := s.queries
      let s := { s with queries := q + 1 }
      if done q then
        ({ s with remoteRecvers_ := s.remoteRecvers_.set i recver.recv_h2d,
                  calls := s.calls ++ [PollCall.recv_h2d i recver q] }, true)
      else recversLoop done rest s
    else recversLoop done rest s

/-- The loops under the label `senders:` over the senders at the positions given: the state
after them, and whether they were left by `goto recvers`. -/
def sendersLoop (done : Nat → Bool) : List Nat → PollState → PollState × Bool
  | [], s => (s, false)
  | i :: rest, s =>
    let sender := s.remoteSenders_.getD i ⟨SenderState.IDLE⟩
    if sender.is_d2h then
      let s := { s with pending := true }
      let q := s.queries
      let s := { s with queries := q + 1 }
      if done q then
        ({ s with remoteSenders_ := s.remoteSenders_.set i sender.send_h2h,
                  calls := s.calls ++ [PollCall.send_h2h i sender q] }, true)
      else sendersLoop done rest s
    else sendersLoop done rest s

/-- The body of `while (pending)` from the label `recvers:` on, for at most `fuel` passes over
the two loops: the state reached, and whether the `while` loop has been left. After
`goto recvers` the next pass starts without resetting `pending`; after a pass that ends at the
closing brace the condition is tested, and a next iteration starts with `pending = false`. -/
def pollFrom (done : Nat → Bool) : Nat → PollState → PollState × Bool
  | 0, s => (s, false)
  | fuel + 1, s =>
    let s := (recversLoop done (List.range s.remoteRecvers_.length) s).1
    let r := sendersLoop done (List.range s.remoteSenders_.length) s
    if r.2 then pollFrom done fuel r.1
    else if r.1.pending then pollFrom done fuel { r.1 with pending := false }
    else (r.1, true)

/-- The state in which `exchange()` reaches the poll loop: `bool pending = true`, nothing
queried, nothing advanced. -/
def PollState.start (recvers : List RemoteRecver) (senders : List RemoteSender) : PollState :=
  ⟨recvers, senders, true, 0, []⟩

/-- The poll loop of `exchange()`: `pending` is true, so the `while` body is entered and sets
it to false before the label `recvers:`. -/
def pollLoop (done : Nat → Bool) (fuel : Nat) (recvers : List RemoteRecver)
    (senders : List RemoteSender) : PollState × Bool :=
  pollFrom done fuel { PollState.start recvers senders with pending := false }

/-- The guard under which an advance was made: the endpoint was in the stage the call leaves,
and the query answered that the stage had finished. -/
def PollCall.justified (done : Nat → Bool) : PollCall → Bool
  | .recv_h2d _ recver q => recver.is_h2h && done q
  | .send_h2h _ sender q => sender.is_d2h && done q

/-- The endpoint a call advanced is in the lists of the state, and no longer in the stage the
call leaves. -/
def PollCall.settled (s : PollState) : PollCall → Prop
  | .recv_h2d i _ _ => ∃ r, s.remoteRecvers_[i]? = some r ∧ r.is_h2h = false
  | .send_h2h i _ _ => ∃ x, s.remoteSenders_[i]? = some x ∧ x.is_d2h = false

/-- The invariant of the poll loop: every advance made was justified, its endpoint has left
the stage, and no endpoint was advanced twice. -/
def PollInv (done : Nat → Bool) (s : PollState) : Prop :=
  (∀ c ∈ s.calls, c.justified done = true ∧ c.settled s) ∧
  (s.calls.map PollCall.target).Nodup

/-- The number of endpoints the poll loop still has to advance: the receivers in the
host-to-host stage and the senders in the device-to-host stage. -/
def PollState.waiting (s : PollState) : Nat :=
  s.remoteRecvers_.countP RemoteRecver.is_h2h + s.remoteSenders_.countP RemoteSender.is_d2h

/-- The keys of the remote outboxes are sub-domain indices of other ranks. -/
def RemoteKeysForeign (st : DistributedDomain × Outboxes) : Prop :=
  ∀ m ∈ st.2.remoteOutboxes, ∀ k ∈ AMap.keys m, st.1.partition_.get_rank k ≠ st.1.rank_

/-! # Properties -/

/-! ## Bit-level lemmas -/

theorem toBits_natCast (n : Nat) (h : n < 2 ^ 31) : toBits (n : Int) = n := by
  unfold toBits
  omega

theorem ofBits_of_lt (n : Nat) (h : n < 2 ^ 31) : ofBits n = (n : Int) := by
  unfold ofBits
  have h1 : n % 2 ^ 32 = n := Nat.mod_eq_of_lt (by omega)
  rw [h1, if_pos h]

theorem bor_natCast (a b : Nat) (ha : a < 2 ^ 31) (hb : b < 2 ^ 31) :
    bor (a : Int) (b : Int) = ((a ||| b : Nat) : Int) := by
  unfold bor
  rw [toBits_natCast a ha, toBits_natCast b hb, ofBits_of_lt _ (Nat.or_lt_two_pow ha hb)]

theorem band_natCast (a b : Nat) (ha : a < 2 ^ 31) (hb : b < 2 ^ 31) :
    band (a : Int) (b : Int) = ((a &&& b : Nat) : Int) := by
  unfold band
  rw [toBits_natCast a ha, toBits_natCast b hb, ofBits_of_lt _ (Nat.and_lt_two_pow _ hb)]

theorem shl_natCast (a k : Nat) (h : a * 2 ^ k < 2 ^ 31) :
    shl (a : Int) k = ((a * 2 ^ k : Nat) : Int) := by
  unfold shl
  have ha : a < 2 ^ 31 := lt_of_le_of_lt (Nat.le_mul_of_pos_right a (by positivity)) h
  rw [toBits_natCast a ha, Nat.shiftLeft_eq, ofBits_of_lt _ h]

/-- Bits that do not overlap are added: `lo ||| hi * 2^k = lo + hi * 2^k`. -/
theorem or_mul_two_pow (lo hi k : Nat) (h : lo < 2 ^ k) : lo ||| hi * 2 ^ k = lo + hi * 2 ^ k := by
  rw [Nat.or_comm, Nat.mul_comm, ← Nat.mul_add_lt_is_or h, Nat.add_comm]

theorem shl_one_8 : shl 1 8 = 256 := by decide
theorem shl_one_16 : shl 1 16 = 65536 := by decide
theorem shl_one_21 : shl 1 21 = 2097152 := by decide

theorem dirAsserts_iff (dir : Dim3) :
    dirAsserts dir = true ↔
      (dir.x = -1 ∨ dir.x = 0 ∨ dir.x = 1) ∧ (dir.y = -1 ∨ dir.y = 0 ∨ dir.y = 1) ∧
      (dir.z = -1 ∨ dir.z = 0 ∨ dir.z = 1) := by
  simp only [dirAsserts, Bool.and_eq_true, decide_eq_true_eq]
  omega

theorem dirCode_cases (d : Int) (h : d = -1 ∨ d = 0 ∨ d = 1) :
    (d = -1 ∧ dirCode d = 2) ∨ (d = 0 ∧ dirCode d = 0) ∨ (d = 1 ∧ dirCode d = 1) := by
  rcases h with h | h | h <;> subst h <;> simp [dirCode]

theorem dirBitsOf_eq (dir : Dim3) (h : dirAsserts dir = true) :
    dirBitsOf dir = dirCode dir.x + 4 * dirCode dir.y + 16 * dirCode dir.z := by
  obtain ⟨x, y, z⟩ := dir
  rw [dirAsserts_iff] at h
  obtain ⟨hx, hy, hz⟩ := h
  simp only at hx hy hz
  rcases hx with hx | hx | hx <;> rcases hy with hy | hy | hy <;> rcases hz with hz | hz | hz <;>
    subst hx <;> subst hy <;> subst hz <;> decide

theorem dirCode_range (d : Int) : 0 ≤ dirCode d ∧ dirCode d ≤ 2 := by
  unfold dirCode
  split_ifs <;> omega

theorem band_mask (i k : Nat) (hi : i < 2 ^ k) (hk : k ≤ 30) :
    band (i : Int) ((2 ^ k : Int) - 1) = (i : Int) := by
  have hk31 : (2 : Nat) ^ k < 2 ^ 31 := Nat.pow_lt_pow_right (by norm_num) (by omega)
  have e : ((2 ^ k : Int) - 1) = ((2 ^ k - 1 : Nat) : Int) := by
    have : 1 ≤ 2 ^ k := Nat.one_le_two_pow
    push_cast [Nat.cast_sub this]
    rfl
  rw [e, band_natCast i (2 ^ k - 1) (by omega) (by omega), Nat.and_pow_two_sub_one_eq_mod,
    Nat.mod_eq_of_lt hi]


theorem band_mask16 (i : Nat) (hi : i < 65536) : band (i : Int) (65536 - 1) = (i : Int) := by
  have h := band_mask i 16 (by omega) (by norm_num)
  norm_num at h ⊢
  exact h

theorem band_mask8 (g : Nat) (hg : g < 256) : band (g : Int) (256 - 1) = (g : Int) := by
  have h := band_mask g 8 (by omega) (by norm_num)
  norm_num at h ⊢
  exact h

theorem bor_zero_left (i : Nat) (hi : i < 2 ^ 31) : bor 0 (i : Int) = (i : Int) := by
  have := bor_natCast 0 i (by norm_num) hi
  simpa using this

theorem bor_disjoint (lo hi k : Nat) (h : lo < 2 ^ k) (hb : lo + hi * 2 ^ k < 2 ^ 31) :
    bor (lo : Int) ((hi * 2 ^ k : Nat) : Int) = ((lo + hi * 2 ^ k : Nat) : Int) := by
  rw [bor_natCast lo _ (by omega) (by omega), or_mul_two_pow lo hi k h]

theorem dirBitsOf_nat (dir : Dim3) (hd : dirAsserts dir = true) :
    ∃ c : Nat, c ≤ 42 ∧ dirBitsOf dir = (c : Int) := by
  have hx := dirCode_range dir.x
  have hy := dirCode_range dir.y
  have hz := dirCode_range dir.z
  have hcb := dirBitsOf_eq dir hd
  obtain ⟨c, hc⟩ := Int.eq_ofNat_of_zero_le (show 0 ≤ dirBitsOf dir by omega)
  exact ⟨c, by omega, hc⟩

/-- Closed form of the three-argument encoder on its declared bounds. -/
theorem make_tag_eq (g i : Nat) (dir : Dim3) (hg : g < 256) (hi : i < 65536)
    (hd : dirAsserts dir = true) :
    make_tag g i dir = some ((i : Int) + 65536 * g + 16777216 * dirBitsOf dir) := by
  obtain ⟨c, hc42, hc⟩ := dirBitsOf_nat dir hd
  have e3 : shl (g : Int) 16 = ((g * 2 ^ 16 : Nat) : Int) := shl_natCast g 16 (by omega)
  have e4 : shl (c : Int) (16 + 8) = ((c * 2 ^ 24 : Nat) : Int) := shl_natCast c 24 (by omega)
  have e6 := bor_disjoint i g 16 (by omega) (by omega)
  have e7 := bor_disjoint (i + g * 2 ^ 16) c 24 (by omega) (by omega)
  have h1 : ((g : Int) < 256) := by exact_mod_cast hg
  have h2 : ((i : Int) < 65536) := by exact_mod_cast hi
  unfold make_tag
  simp only [shl_one_8, shl_one_16, hd, hc, band_mask16 i hi, band_mask8 g hg]
  rw [bor_zero_left i (by omega), e3, e6, e4, e7]
  simp only [h1, h2, not_true_eq_false, if_false]
  have hnn : ¬ ¬ (((i + g * 2 ^ 16 + c * 2 ^ 24 : Nat) : Int) ≥ 0) :=
    not_not.mpr (Int.ofNat_zero_le _)
  rw [if_neg hnn]
  simp only [Option.some.injEq]
  push_cast
  ring

theorem dirAsserts_of_isDirection (dir : Dim3) (h : IsDirection dir) : dirAsserts dir = true :=
  (dirAsserts_iff dir).mpr h

theorem bor_disjoint_high (lo hi k : Nat) (h : lo < 2 ^ k) (hb : lo + hi * 2 ^ k < 2 ^ 31) :
    bor ((hi * 2 ^ k : Nat) : Int) (lo : Int) = ((lo + hi * 2 ^ k : Nat) : Int) := by
  rw [bor_natCast _ lo (by omega) (by omega), Nat.or_comm, or_mul_two_pow lo hi k h]

/-- Closed form of the two-argument encoder on its declared bounds. -/
theorem make_tag_dir_eq (g : Nat) (dir : Dim3) (hg : g < 256) (hd : dirAsserts dir = true) :
    make_tag_dir g dir = some ((g : Int) + 256 * dirBitsOf dir) := by
  obtain ⟨c, hc42, hc⟩ := dirBitsOf_nat dir hd
  have e4 : shl (c : Int) 8 = ((c * 2 ^ 8 : Nat) : Int) := shl_natCast c 8 (by omega)
  have e6 := bor_disjoint g c 8 (by omega) (by omega)
  have h1 : ((g : Int) < 256) := by exact_mod_cast hg
  unfold make_tag_dir
  simp only [shl_one_8, hd, hc, band_mask8 g hg]
  rw [bor_zero_left g (by omega), e4, e6]
  simp only [h1, not_true_eq_false, if_false]
  have hnn : ¬ ¬ (((g + c * 2 ^ 8 : Nat) : Int) ≥ 0) := not_not.mpr (Int.ofNat_zero_le _)
  rw [if_neg hnn]
  simp only [Option.some.injEq]
  push_cast
  ring

theorem band_mask22 (p : Nat) (hp : p < 2097152) : band (p : Int) 0x3FFFFF = (p : Int) := by
  have h := band_mask p 22 (by omega) (by norm_num)
  norm_num at h ⊢
  exact h

theorem MsgKind.toInt_nat (kind : MsgKind) : ∃ k : Nat, k ≤ 3 ∧ kind.toInt = (k : Int) := by
  cases kind
  · exact ⟨0, by omega, rfl⟩
  · exact ⟨1, by omega, rfl⟩
  · exact ⟨2, by omega, rfl⟩
  · exact ⟨3, by omega, rfl⟩

/-- Closed form of the kind-tagged encoder on its accepted inputs. -/
theorem make_tag_kind_eq (kind : MsgKind) (p : Nat) (dir : Dim3) (hp : p < 2097152)
    (hd : dirAsserts dir = true) :
    make_tag_kind kind p dir
      = some ((p : Int) + 8388608 * dirBitsOf dir + 536870912 * kind.toInt) := by
  obtain ⟨c, hc42, hc⟩ := dirBitsOf_nat dir hd
  obtain ⟨k, hk3, hk⟩ := MsgKind.toInt_nat kind
  have e1 : shl (k : Int) 29 = ((k * 2 ^ 29 : Nat) : Int) := shl_natCast k 29 (by omega)
  have e2 : shl (c : Int) 23 = ((c * 2 ^ 23 : Nat) : Int) := shl_natCast c 23 (by omega)
  have e3 : bor 0 ((k * 2 ^ 29 : Nat) : Int) = ((k * 2 ^ 29 : Nat) : Int) :=
    bor_zero_left _ (by omega)
  have e4 := bor_disjoint_high (c * 2 ^ 23) k 29 (by omega) (by omega)
  have e5 : bor ((c * 2 ^ 23 + k * 2 ^ 29 : Nat) : Int) (p : Int)
      = ((p + (c * 4 + k * 256) * 2 ^ 21 : Nat) : Int) := by
    have h := bor_disjoint_high p (c * 4 + k * 256) 21 (by omega) (by omega)
    have e : (c * 4 + k * 256) * 2 ^ 21 = c * 2 ^ 23 + k * 2 ^ 29 := by ring
    rw [e] at h
    rw [h, e]
  have h1 : ((p : Int) < 2097152) := by exact_mod_cast hp
  have h2 : ((k : Int) < 4) := by exact_mod_cast (by omega : k < 4)
  have h3 : ((k : Int) ≥ 0) := Int.ofNat_zero_le _
  unfold make_tag_kind
  simp only [shl_one_21, hd, hc, hk, band_mask22 p hp]
  rw [e1, e3, e2, e4, e5]
  simp only [h1, h2, h3, not_true_eq_false, if_false]
  have hnn : ¬ ¬ (((p + (c * 4 + k * 256) * 2 ^ 21 : Nat) : Int) ≥ 0) :=
    not_not.mpr (Int.ofNat_zero_le _)
  rw [if_neg hnn]
  simp only [Option.some.injEq]
  push_cast
  ring

theorem dirCode_inj (a b : Int) (ha : a = -1 ∨ a = 0 ∨ a = 1) (hb : b = -1 ∨ b = 0 ∨ b = 1)
    (h : dirCode a = dirCode b) : a = b := by
  rcases dirCode_cases a ha with ⟨h1, h2⟩ | ⟨h1, h2⟩ | ⟨h1, h2⟩ <;>
    rcases dirCode_cases b hb with ⟨h3, h4⟩ | ⟨h3, h4⟩ | ⟨h3, h4⟩ <;> omega

/-- The six direction bits determine the direction. -/
theorem dirBitsOf_inj (d e : Dim3) (hd : IsDirection d) (he : IsDirection e)
    (h : dirBitsOf d = dirBitsOf e) : d = e := by
  rw [dirBitsOf_eq d (dirAsserts_of_isDirection d hd),
    dirBitsOf_eq e (dirAsserts_of_isDirection e he)] at h
  have dx := dirCode_range d.x
  have dy := dirCode_range d.y
  have dz := dirCode_range d.z
  have ex := dirCode_range e.x
  have ey := dirCode_range e.y
  have ez := dirCode_range e.z
  obtain ⟨hdx, hdy, hdz⟩ := hd
  obtain ⟨hex, hey, hez⟩ := he
  have h1 : d.x = e.x := dirCode_inj _ _ hdx hex (by omega)
  have h2 : d.y = e.y := dirCode_inj _ _ hdy hey (by omega)
  have h3 : d.z = e.z := dirCode_inj _ _ hdz hez (by omega)
  cases d
  cases e
  simp_all

theorem dirBitsOf_range (d : Dim3) (hd : IsDirection d) : 0 ≤ dirBitsOf d ∧ dirBitsOf d ≤ 42 := by
  obtain ⟨c, hc42, hc⟩ := dirBitsOf_nat d (dirAsserts_of_isDirection d hd)
  omega

/-! ## The tag encoders -/

/-- C1: each reduced tag form is injective on its declared bounds: for device slots in
`[0,256)`, field indices in `[0,65536)` and direction vectors, equal three-argument tags
come from equal `(gpu, idx, dir)`, equal two-argument tags from equal `(gpu, dir)`; and
`make_tag(3, 7, (-1,0,1))` differs from `make_tag(3, 7, (1,0,-1))`. -/
theorem make_tag_injective (gpu gpu' idx idx' : Int) (dir dir' : Dim3)
    (hg : 0 ≤ gpu ∧ gpu < 256) (hg' : 0 ≤ gpu' ∧ gpu' < 256)
    (hi : 0 ≤ idx ∧ idx < 65536) (hi' : 0 ≤ idx' ∧ idx' < 65536)
    (hd : IsDirection dir) (hd' : IsDirection dir') :
    (make_tag gpu idx dir = make_tag gpu' idx' dir' → gpu = gpu' ∧ idx = idx' ∧ dir = dir') ∧
    (make_tag_dir gpu dir = make_tag_dir gpu' dir' → gpu = gpu' ∧ dir = dir') ∧
    make_tag 3 7 ⟨-1, 0, 1⟩ ≠ make_tag 3 7 ⟨1, 0, -1⟩ := by
  obtain ⟨g, rfl⟩ := Int.eq_ofNat_of_zero_le hg.1
  obtain ⟨g', rfl⟩ := Int.eq_ofNat_of_zero_le hg'.1
  obtain ⟨i, rfl⟩ := Int.eq_ofNat_of_zero_le hi.1
  obtain ⟨i', rfl⟩ := Int.eq_ofNat_of_zero_le hi'.1
  have hdA := dirAsserts_of_isDirection dir hd
  have hdA' := dirAsserts_of_isDirection dir' hd'
  have r := dirBitsOf_range dir hd
  have r' := dirBitsOf_range dir' hd'
  refine ⟨?_, ?_, by decide⟩
  · intro h
    rw [make_tag_eq g i dir (by omega) (by omega) hdA,
      make_tag_eq g' i' dir' (by omega) (by omega) hdA', Option.some.injEq] at h
    have hb : dirBitsOf dir = dirBitsOf dir' := by omega
    exact ⟨by omega, by omega, dirBitsOf_inj dir dir' hd hd' hb⟩
  · intro h
    rw [make_tag_dir_eq g dir (by omega) hdA, make_tag_dir_eq g' dir' (by omega) hdA',
      Option.some.injEq] at h
    have hb : dirBitsOf dir = dirBitsOf dir' := by omega
    exact ⟨by omega, dirBitsOf_inj dir dir' hd hd' hb⟩

/-- Witness for C1: the two tags of the specification's scenario, for device 3 and field 7
in directions `(-1,0,1)` and `(-1,0,0)`, are different because the directions are. -/
theorem make_tag_injective_witness :
    make_tag 3 7 ⟨-1, 0, 1⟩ ≠ make_tag 3 7 ⟨-1, 0, 0⟩ ∧
    make_tag_dir 3 ⟨-1, 0, 1⟩ ≠ make_tag_dir 3 ⟨-1, 0, 0⟩ :=
  have t := make_tag_injective 3 3 7 7 ⟨-1, 0, 1⟩ ⟨-1, 0, 0⟩ (by decide) (by decide) (by decide)
    (by decide) (by decide) (by decide)
  ⟨fun h => absurd (t.1 h).2.2 (by decide), fun h => absurd (t.2.1 h).2 (by decide)⟩

/-- C2: every tag is non-negative as a 32-bit signed int: for every kind, payload in
`[0, 2^21)`, device slot in `[0,256)`, field index in `[0,65536)` and direction vector, each
of the three encoders passes all its assertions and returns a value `>= 0`. -/
theorem make_tag_nonneg (kind : MsgKind) (payload gpu idx : Int) (dir : Dim3)
    (hp : 0 ≤ payload ∧ payload < 2 ^ 21) (hg : 0 ≤ gpu ∧ gpu < 256)
    (hi : 0 ≤ idx ∧ idx < 65536) (hd : IsDirection dir) :
    (∃ t, make_tag_kind kind payload dir = some t ∧ 0 ≤ t ∧ t < 2 ^ 31) ∧
    (∃ t, make_tag gpu idx dir = some t ∧ 0 ≤ t ∧ t < 2 ^ 31) ∧
    (∃ t, make_tag_dir gpu dir = some t ∧ 0 ≤ t ∧ t < 2 ^ 31) := by
  obtain ⟨g, rfl⟩ := Int.eq_ofNat_of_zero_le hg.1
  obtain ⟨i, rfl⟩ := Int.eq_ofNat_of_zero_le hi.1
  obtain ⟨p, rfl⟩ := Int.eq_ofNat_of_zero_le hp.1
  obtain ⟨k, hk3, hk⟩ := MsgKind.toInt_nat kind
  have hdA := dirAsserts_of_isDirection dir hd
  have r := dirBitsOf_range dir hd
  have hp2 : (p : Int) < 2097152 := by
    have := hp.2
    norm_num at this
    exact_mod_cast this
  refine ⟨⟨_, make_tag_kind_eq kind p dir (by omega) hdA, ?_, ?_⟩,
    ⟨_, make_tag_eq g i dir (by omega) (by omega) hdA, ?_, ?_⟩,
    ⟨_, make_tag_dir_eq g dir (by omega) hdA, ?_, ?_⟩⟩ <;> norm_num <;> omega

/-- Witness for C2 at kind `Other`, payload `2^21 - 1`, device 255, field 65535 and
direction `(-1,-1,-1)`, the largest value of every field. -/
theorem make_tag_nonneg_witness :
    (∃ t, make_tag_kind .Other 2097151 ⟨-1, -1, -1⟩ = some t ∧ 0 ≤ t ∧ t < 2 ^ 31) ∧
    (∃ t, make_tag 255 65535 ⟨-1, -1, -1⟩ = some t ∧ 0 ≤ t ∧ t < 2 ^ 31) ∧
    (∃ t, make_tag_dir 255 ⟨-1, -1, -1⟩ = some t ∧ 0 ≤ t ∧ t < 2 ^ 31) :=
  make_tag_nonneg .Other 2097151 255 65535 ⟨-1, -1, -1⟩ (by decide) (by decide) (by decide)
    (by decide)


/-! ## Maps and vectors of maps -/

theorem AMap.find?_eq_none {K V : Type} [DecidableEq K] (m : AMap K V) (k : K)
    (h : k ∉ m.keys) : AMap.find? m k = none := by
  induction m with
  | nil => rfl
  | cons kv rest ih =>
    obtain ⟨k', v'⟩ := kv
    simp only [AMap.keys, List.map_cons, List.mem_cons, not_or] at h
    simp only [AMap.find?, if_neg h.1]
    exact ih h.2

theorem AMap.total_replace {K V : Type} [DecidableEq K] (m : AMap K (List V)) (k : K)
    (v : List V) (h : k ∈ m.keys) :
    AMap.total (AMap.replace m k v) + (AMap.getD m k).length = AMap.total m + v.length := by
  induction m with
  | nil => simp [AMap.keys] at h
  | cons kv rest ih =>
    obtain ⟨k', v'⟩ := kv
    by_cases hk : k = k'
    · subst hk
      simp only [AMap.replace, AMap.getD, AMap.find?, if_true, AMap.total, List.map_cons,
        List.sum_cons, Option.getD_some]
      omega
    · have h' : k ∈ AMap.keys rest := by
        simp only [AMap.keys, List.map_cons, List.mem_cons] at h
        rcases h with h | h
        · exact absurd h hk
        · exact h
      have := ih h'
      simp only [AMap.replace, AMap.getD, AMap.find?, if_neg hk, AMap.total, List.map_cons,
        List.sum_cons] at this ⊢
      omega

theorem AMap.total_insert {K V : Type} (lt : K → K → Bool) (m : AMap K (List V)) (k : K)
    (v : List V) : AMap.total (AMap.insert lt m k v) = AMap.total m + v.length := by
  induction m with
  | nil => simp [AMap.insert, AMap.total]
  | cons kv rest ih =>
    obtain ⟨k', v'⟩ := kv
    simp only [AMap.insert]
    split
    · simp only [AMap.total, List.map_cons, List.sum_cons]
      omega
    · simp only [AMap.total, List.map_cons, List.sum_cons] at ih ⊢
      omega

/-- A `push_back` on `m[k]` adds one message to the map. -/
theorem AMap.total_push {K V : Type} [DecidableEq K] (lt : K → K → Bool) (m : AMap K (List V))
    (k : K) (x : V) : AMap.total (AMap.push lt m k x) = AMap.total m + 1 := by
  unfold AMap.push AMap.set
  split
  · next h =>
    have := AMap.total_replace m k (AMap.getD m k ++ [x]) h
    simp only [List.length_append, List.length_singleton] at this
    omega
  · next h =>
    rw [AMap.total_insert, AMap.getD, AMap.find?_eq_none m k h]
    rfl

theorem boxTotal_set {K V : Type} (v : List (AMap K (List V))) (di : Nat)
    (m m' : AMap K (List V)) (h : v[di]? = some m) :
    boxTotal (v.set di m') + AMap.total m = boxTotal v + AMap.total m' := by
  induction v generalizing di with
  | nil => simp at h
  | cons a rest ih =>
    cases di with
    | zero =>
      simp only [List.getElem?_cons_zero, Option.some.injEq] at h
      subst h
      simp only [boxTotal, List.set_cons_zero, List.map_cons, List.sum_cons]
      omega
    | succ j =>
      simp only [List.getElem?_cons_succ] at h
      have := ih j h
      simp only [boxTotal, List.set_cons_succ, List.map_cons, List.sum_cons] at this ⊢
      omega

/-- The statement `v[di][k].push_back(x)` adds one message, when `v[di]` exists. -/
theorem pushAt_total {K V : Type} [DecidableEq K] (lt : K → K → Bool)
    (v v' : List (AMap K (List V))) (di : Nat) (k : K) (x : V)
    (h : pushAt lt v di k x = .ok v') : boxTotal v' = boxTotal v + 1 := by
  unfold pushAt vecAt at h
  cases hm : v[di]? with
  | none =>
    rw [hm] at h
    cases h
  | some m =>
    rw [hm] at h
    cases h
    have h1 := boxTotal_set v di m (AMap.push lt m k x) hm
    rw [AMap.total_push] at h1
    omega

/-! ## The planner -/

theorem linePFP_make : PFP.make ⟨12, 4, 4⟩ 2 1 = some (linePFP 2) ∧
    PFP.make ⟨12, 4, 4⟩ 3 1 = some (linePFP 3) := by decide

/-- The state `twoRanksReady`, `twoRanksBoxes` is the one `realize()` plans from. -/
theorem twoRanks_created :
    twoRanksReady.domains_ = [twoRanksDomain] ∧
    ((DistributedDomain.createRemote (twoRanksReady, Outboxes.empty) >>=
      DistributedDomain.createColocated).map fun r => r.2) = .ok twoRanksBoxes := by decide

/-- C3 (code bug): the planning loops run every axis over `-1, 0` only. They reach 7 of the
26 directions, none with a `+1` component, and `realize()` on rank 1 of two co-located ranks
plans 7 outgoing and 7 incoming messages for its sub-domain, not 26. -/
theorem planMessages_reaches_seven_directions :
    loopDirs = [⟨-1, -1, -1⟩, ⟨0, -1, -1⟩, ⟨-1, 0, -1⟩, ⟨0, 0, -1⟩, ⟨-1, -1, 0⟩, ⟨0, -1, 0⟩,
      ⟨-1, 0, 0⟩] ∧
    (⟨1, 0, 0⟩ : Dim3) ∉ loopDirs ∧
    (twoRanks.realizePlan.map fun r => r.2.outgoing) = .ok 7 := by decide


theorem any_methods_eq (dd : DistributedDomain) (m : MethodFlags) :
    dd.any_methods m = enabled dd.flags_ m := rfl

theorem ok_bind {α β : Type} (a : α) (f : α → Except Fault β) :
    ((Except.ok a : Except Fault α) >>= f) = f a := rfl

/-- The guarded `push_back` of the planner: two assertions, then `v[di][k].push_back(x)`. -/
theorem assert_push {K V β : Type} [DecidableEq K] (lt : K → K → Bool)
    (v : List (AMap K (List V))) (di : Nat) (k : K) (x : V)
    (f : List (AMap K (List V)) → β) :
    (do
      assert (decide (di < v.length))
      assert ((← vecAt v di).count k != 0)
      pure (f (← pushAt lt v di k x)) : Except Fault β) =
      match v[di]? with
      | none => .error Fault.assertion
      | some m =>
        if m.count k = 0 then .error Fault.assertion
        else .ok (f (v.set di (AMap.push lt m k x))) := by
  cases hm : v[di]? with
  | none =>
    have hlen : ¬ di < v.length := by
      intro h
      rw [List.getElem?_eq_getElem h] at hm
      cases hm
    simp [assert, hlen, bind, Except.bind, throw, throwThe, MonadExceptOf.throw]
  | some m =>
    have hlen : di < v.length := by
      by_contra h
      rw [List.getElem?_eq_none (by omega)] at hm
      cases hm
    by_cases hc : m.count k = 0
    · simp [assert, hlen, bind, Except.bind, throw, throwThe, MonadExceptOf.throw, vecAt, hm,
        hc, pure, Except.pure]
    · simp [assert, hlen, bind, Except.bind, vecAt, hm, hc, pure, Except.pure, pushAt]

/-- The unguarded `push_back` of the planner: `v[di][k].push_back(x)`. -/
theorem plain_push {K V β : Type} [DecidableEq K] (lt : K → K → Bool)
    (v : List (AMap K (List V))) (di : Nat) (k : K) (x : V)
    (f : List (AMap K (List V)) → β) :
    (do pure (f (← pushAt lt v di k x)) : Except Fault β) =
      match v[di]? with
      | none => .error Fault.outOfRange
      | some m => .ok (f (v.set di (AMap.push lt m k x))) := by
  cases hm : v[di]? with
  | none => simp [bind, Except.bind, throw, throwThe, MonadExceptOf.throw, vecAt, hm, pushAt]
  | some m => simp [bind, Except.bind, vecAt, hm, pure, Except.pure, pushAt]

/-- The send half of the planning step, when the destination is on this rank. -/
theorem planSend_same_rank (dd : DistributedDomain) (di : Nat) (dir : Dim3) (out : Outboxes)
    (d1 d2 : LocalDomain) (hr : dd.rank_ = (dd.neighbours di dir).dstRank)
    (h1 : vecAt dd.domains_ di = .ok d1)
    (h2 : vecAtInt dd.domains_ (dd.neighbours di dir).dstGPU = .ok d2) :
    dd.planSend di dir out =
      if d1.gpu = d2.gpu ∧ enabled dd.flags_ MethodFlags.CudaKernel = true then
        .ok (out.toSameDevice (dd.sMsg di dir))
      else if enabled dd.flags_ MethodFlags.CudaMemcpyPeer = true then
        .ok (out.toPeerCopy (dd.sMsg di dir))
      else if enabled dd.flags_ MethodFlags.CudaMpi = true then
        match out.remoteOutboxes[di]? with
        | none => .error Fault.assertion
        | some m =>
          if m.count (dd.neighbours di dir).dstIdx = 0 then .error Fault.assertion
          else .ok (out.toRemote di m (dd.neighbours di dir).dstIdx (dd.sMsg di dir))
      else .error Fault.noMethod := by
  unfold DistributedDomain.planSend
  simp only [any_methods_eq, if_pos hr, h1, h2, ok_bind]
  unfold Outboxes.toRemote Outboxes.toSameDevice Outboxes.toPeerCopy DistributedDomain.sMsg
  split_ifs
  · rfl
  · rfl
  · convert assert_push Dim3.lt out.remoteOutboxes di (dd.neighbours di dir).dstIdx
      (⟨dir, di, (dd.neighbours di dir).dstGPU⟩ : Message)
      (fun v => ({ out with remoteOutboxes := v } : Outboxes)) using 1
    cases out.remoteOutboxes[di]? <;> rfl
  · rfl


/-- The send half of the planning step, when the destination is on another rank. -/
theorem planSend_other_rank (dd : DistributedDomain) (di : Nat) (dir : Dim3) (out : Outboxes)
    (hr : dd.rank_ ≠ (dd.neighbours di dir).dstRank) :
    dd.planSend di dir out =
      if dd.colocated_.count (dd.neighbours di dir).dstRank ≠ 0 ∧
          enabled dd.flags_ MethodFlags.CudaMpiColocated = true then
        match out.colocatedOutboxes[di]? with
        | none => .error Fault.assertion
        | some m =>
          if m.count (dd.neighbours di dir).dstRank = 0 then .error Fault.assertion
          else .ok (out.toSharedHost di m (dd.neighbours di dir).dstRank (dd.sMsg di dir))
      else if enabled dd.flags_ MethodFlags.CudaMpi = true then
        match out.remoteOutboxes[di]? with
        | none => .error Fault.outOfRange
        | some m => .ok (out.toRemote di m (dd.neighbours di dir).dstIdx (dd.sMsg di dir))
      else .error Fault.noMethod := by
  unfold DistributedDomain.planSend
  simp only [any_methods_eq, if_neg hr]
  unfold Outboxes.toRemote Outboxes.toSharedHost DistributedDomain.sMsg
  split_ifs
  · convert assert_push intLt out.colocatedOutboxes di (dd.neighbours di dir).dstRank
      (⟨dir, di, (dd.neighbours di dir).dstGPU⟩ : Message)
      (fun v => ({ out with colocatedOutboxes := v } : Outboxes)) using 1
    cases out.colocatedOutboxes[di]? <;> rfl
  · convert plain_push Dim3.lt out.remoteOutboxes di (dd.neighbours di dir).dstIdx
      (⟨dir, di, (dd.neighbours di dir).dstGPU⟩ : Message)
      (fun v => ({ out with remoteOutboxes := v } : Outboxes)) using 1
    cases out.remoteOutboxes[di]? <;> rfl
  · rfl

theorem outgoing_toSameDevice (out : Outboxes) (m : Message) :
    (out.toSameDevice m).outgoing = out.outgoing + 1 ∧
    (out.toSameDevice m).incoming = out.incoming := by
  refine ⟨?_, rfl⟩
  simp only [Outboxes.toSameDevice, Outboxes.outgoing, List.length_append,
    List.length_singleton]
  omega

theorem outgoing_toPeerCopy (out : Outboxes) (m : Message) :
    (out.toPeerCopy m).outgoing = out.outgoing + 1 ∧
    (out.toPeerCopy m).incoming = out.incoming := by
  refine ⟨?_, rfl⟩
  simp only [Outboxes.toPeerCopy, Outboxes.outgoing, List.length_append,
    List.length_singleton]
  omega

theorem outgoing_toSharedHost (out : Outboxes) (di : Nat) (box : AMap Int (List Message))
    (k : Int) (m : Message) (h : out.colocatedOutboxes[di]? = some box) :
    (out.toSharedHost di box k m).outgoing = out.outgoing + 1 ∧
    (out.toSharedHost di box k m).incoming = out.incoming := by
  have h1 := boxTotal_set out.colocatedOutboxes di box (AMap.push intLt box k m) h
  rw [AMap.total_push] at h1
  refine ⟨?_, rfl⟩
  simp only [Outboxes.toSharedHost, Outboxes.outgoing]
  omega

theorem outgoing_toRemote (out : Outboxes) (di : Nat) (box : AMap Dim3 (List Message))
    (k : Dim3) (m : Message) (h : out.remoteOutboxes[di]? = some box) :
    (out.toRemote di box k m).outgoing = out.outgoing + 1 ∧
    (out.toRemote di box k m).incoming = out.incoming := by
  have h1 := boxTotal_set out.remoteOutboxes di box (AMap.push Dim3.lt box k m) h
  rw [AMap.total_push] at h1
  refine ⟨?_, rfl⟩
  simp only [Outboxes.toRemote, Outboxes.outgoing]
  omega

/-- Every successful send step adds exactly one message to the outboxes. -/
theorem planSend_outgoing (dd : DistributedDomain) (di : Nat) (dir : Dim3) (out out' : Outboxes)
    (h : dd.planSend di dir out = .ok out') :
    out'.outgoing = out.outgoing + 1 ∧ out'.incoming = out.incoming := by
  by_cases hr : dd.rank_ = (dd.neighbours di dir).dstRank
  · cases h1 : vecAt dd.domains_ di with
    | error e =>
      unfold DistributedDomain.planSend at h
      simp [if_pos hr, h1, bind, Except.bind] at h
    | ok d1 =>
      cases h2 : vecAtInt dd.domains_ (dd.neighbours di dir).dstGPU with
      | error e =>
        unfold DistributedDomain.planSend at h
        simp [if_pos hr, h1, h2, bind, Except.bind] at h
      | ok d2 =>
        rw [planSend_same_rank dd di dir out d1 d2 hr h1 h2] at h
        split_ifs at h
        · cases h
          exact outgoing_toSameDevice out _
        · cases h
          exact outgoing_toPeerCopy out _
        · cases hm : out.remoteOutboxes[di]? with
          | none => simp [hm] at h
          | some m =>
            simp only [hm] at h
            split_ifs at h
            cases h
            exact outgoing_toRemote out di m _ _ hm
  · rw [planSend_other_rank dd di dir out hr] at h
    split_ifs at h
    · cases hm : out.colocatedOutboxes[di]? with
      | none => simp [hm] at h
      | some m =>
        simp only [hm] at h
        split_ifs at h
        cases h
        exact outgoing_toSharedHost out di m _ _ hm
    · cases hm : out.remoteOutboxes[di]? with
      | none => simp [hm] at h
      | some m =>
        simp only [hm] at h
        cases h
        exact outgoing_toRemote out di m _ _ hm

/-- The branch structure of the send classification: which branch the planner takes is the
function `sendTier` of (same rank?, same physical device?, destination rank co-located?,
enabled flags). The same-device and peer-copy branches append to their outbox, the shared-host
branch to the outbox of the destination rank when that outbox exists, the cross-host branch to
the outbox of the destination index (on this rank only when that outbox exists, which the
creation pass never arranges, see `planSend_same_rank_cudaMpi`), and with no branch left the
step stops with the no-method-available error. A step that succeeds adds exactly one message
to the outboxes and none to the inboxes. -/
theorem planSend_classification (dd : DistributedDomain) (di : Nat) (dir : Dim3)
    (out : Outboxes) (d1 d2 : LocalDomain)
    (hdom : dd.rank_ = (dd.neighbours di dir).dstRank →
      vecAt dd.domains_ di = .ok d1 ∧
      vecAtInt dd.domains_ (dd.neighbours di dir).dstGPU = .ok d2) :
    (sendTier (decide (dd.rank_ = (dd.neighbours di dir).dstRank)) (decide (d1.gpu = d2.gpu))
        (decide (dd.colocated_.count (dd.neighbours di dir).dstRank ≠ 0)) dd.flags_
          = Tier.sameDevice →
      dd.planSend di dir out = .ok (out.toSameDevice (dd.sMsg di dir))) ∧
    (sendTier (decide (dd.rank_ = (dd.neighbours di dir).dstRank)) (decide (d1.gpu = d2.gpu))
        (decide (dd.colocated_.count (dd.neighbours di dir).dstRank ≠ 0)) dd.flags_
          = Tier.peerCopy →
      dd.planSend di dir out = .ok (out.toPeerCopy (dd.sMsg di dir))) ∧
    (sendTier (decide (dd.rank_ = (dd.neighbours di dir).dstRank)) (decide (d1.gpu = d2.gpu))
        (decide (dd.colocated_.count (dd.neighbours di dir).dstRank ≠ 0)) dd.flags_
          = Tier.sharedHost →
      ∀ box, out.colocatedOutboxes[di]? = some box →
        box.count (dd.neighbours di dir).dstRank ≠ 0 →
        dd.planSend di dir out
          = .ok (out.toSharedHost di box (dd.neighbours di dir).dstRank (dd.sMsg di dir))) ∧
    (sendTier (decide (dd.rank_ = (dd.neighbours di dir).dstRank)) (decide (d1.gpu = d2.gpu))
        (decide (dd.colocated_.count (dd.neighbours di dir).dstRank ≠ 0)) dd.flags_
          = Tier.remote →
      ∀ box, out.remoteOutboxes[di]? = some box →
        (dd.rank_ = (dd.neighbours di dir).dstRank →
          box.count (dd.neighbours di dir).dstIdx ≠ 0) →
        dd.planSend di dir out
          = .ok (out.toRemote di box (dd.neighbours di dir).dstIdx (dd.sMsg di dir))) ∧
    (sendTier (decide (dd.rank_ = (dd.neighbours di dir).dstRank)) (decide (d1.gpu = d2.gpu))
        (decide (dd.colocated_.count (dd.neighbours di dir).dstRank ≠ 0)) dd.flags_
          = Tier.fatal →
      dd.planSend di dir out = .error Fault.noMethod) ∧
    (∀ out', dd.planSend di dir out = .ok out' →
      out'.outgoing = out.outgoing + 1 ∧ out'.incoming = out.incoming) := by
  refine ⟨?_, ?_, ?_, ?_, ?_, fun out' h => planSend_outgoing dd di dir out out' h⟩
  all_goals
    intro h
    unfold sendTier at h
    by_cases hr : dd.rank_ = (dd.neighbours di dir).dstRank
    · obtain ⟨h1, h2⟩ := hdom hr
      rw [planSend_same_rank dd di dir out d1 d2 hr h1 h2]
      cases hK : enabled dd.flags_ MethodFlags.CudaKernel <;>
      cases hP : enabled dd.flags_ MethodFlags.CudaMemcpyPeer <;>
      cases hM : enabled dd.flags_ MethodFlags.CudaMpi <;>
      by_cases hdev : d1.gpu = d2.gpu <;>
      simp [hr, hK, hP, hM, hdev] at h ⊢
      all_goals
        intro box hbox hcount
        simp [hbox, hcount]
    · rw [planSend_other_rank dd di dir out hr]
      cases hC : enabled dd.flags_ MethodFlags.CudaMpiColocated <;>
      cases hM : enabled dd.flags_ MethodFlags.CudaMpi <;>
      by_cases hcol : dd.colocated_.count (dd.neighbours di dir).dstRank = 0 <;>
      simp [hr, hC, hM, hcol] at h ⊢
      all_goals
        intro box hbox
        simp [hbox]


/-- The send classification on rank 1 of two co-located ranks, all methods enabled: the send
in direction `(0,-1,0)` stays on the sub-domain's own device and goes to the same-device
outbox; the send in direction `(-1,0,0)` goes to the shared-host outbox of rank 0. -/
theorem planSend_classification_witness :
    twoRanksReady.planSend 0 ⟨0, -1, 0⟩ twoRanksBoxes
      = .ok (twoRanksBoxes.toSameDevice (twoRanksReady.sMsg 0 ⟨0, -1, 0⟩)) ∧
    twoRanksReady.planSend 0 ⟨-1, 0, 0⟩ twoRanksBoxes
      = .ok (twoRanksBoxes.toSharedHost 0 [(0, [])] 0 (twoRanksReady.sMsg 0 ⟨-1, 0, 0⟩)) :=
  ⟨(planSend_classification twoRanksReady 0 ⟨0, -1, 0⟩ twoRanksBoxes twoRanksDomain
      twoRanksDomain (by decide)).1 (by decide),
   (planSend_classification twoRanksReady 0 ⟨-1, 0, 0⟩ twoRanksBoxes twoRanksDomain
      twoRanksDomain (by decide)).2.2.1 (by decide) [(0, [])] (by decide) (by decide)⟩

/-- C5 (code bug): the receive is not classified like the send. On rank 1 of two co-located
ranks, in direction `(-1,0,0)` (source and destination both rank 0): with only
`CudaMpiColocated` enabled the send goes to the shared-host outbox and the receive stops with
the no-method error; with only `CudaMpi` enabled the send goes to the remote outbox and the
receive to the shared-host inbox, where there is one. With only `CudaMpi` enabled `realize()`
creates no shared-host inbox, and the receive indexes the empty vector. -/
theorem planRecv_not_symmetric :
    ((twoRanksReady.set_methods MethodFlags.CudaMpiColocated).planSend 0 ⟨-1, 0, 0⟩
        twoRanksBoxes).map (fun o => (boxTotal o.colocatedOutboxes, boxTotal o.remoteOutboxes))
      = .ok (1, 0) ∧
    (twoRanksReady.set_methods MethodFlags.CudaMpiColocated).planRecv 0 ⟨-1, 0, 0⟩
        twoRanksBoxes = .error Fault.noMethod ∧
    ((twoRanksReady.set_methods MethodFlags.CudaMpi).planSend 0 ⟨-1, 0, 0⟩
        twoRanksBoxes).map (fun o => (boxTotal o.colocatedOutboxes, boxTotal o.remoteOutboxes))
      = .ok (0, 1) ∧
    ((twoRanksReady.set_methods MethodFlags.CudaMpi).planRecv 0 ⟨-1, 0, 0⟩
        twoRanksBoxes).map (fun o => (boxTotal o.colocatedInboxes, boxTotal o.remoteInboxes))
      = .ok (1, 0) ∧
    ((twoRanks.set_methods MethodFlags.CudaMpi).realizePlan.map fun r => r.2)
      = .error Fault.outOfRange := by decide

/-- C6 (code bug): the creation pass keys the shared-host outbox by the source rank. On
rank 1 of three co-located ranks in a line, the sender towards rank 0 is created under key 0
and its outbox under key 2; the planning pass then fails the assertion
`colocatedOutboxes[di].count(dstRank)`. -/
theorem createColocated_outbox_key :
    ((DistributedDomain.createColocated (threeRanks.createLocalDomains, Outboxes.empty)).map
      fun r => (r.1.colocatedSenders_.map AMap.keys, r.2.colocatedOutboxes.map AMap.keys))
      = .ok ([[0]], [[2]]) ∧
    (threeRanks.realizePlan.map fun r => r.2) = .error Fault.assertion := by decide


/-! ## The prepare calls -/

theorem Trace.seq_all (P : Call → Prop) (a b : Trace) (ha : ∀ c ∈ a.1, P c)
    (hb : ∀ c ∈ b.1, P c) : ∀ c ∈ (a.seq b).1, P c := by
  intro c hc
  unfold Trace.seq at hc
  cases h : a.2 with
  | none =>
    rw [h] at hc
    simp only [List.mem_append] at hc
    rcases hc with hc | hc
    · exact ha c hc
    · exact hb c hc
  | some e =>
    rw [h] at hc
    exact ha c hc

theorem forEach_all {β : Type} (P : Call → Prop) (l : List β) (body : β → Trace)
    (h : ∀ b ∈ l, ∀ c ∈ (body b).1, P c) : ∀ c ∈ (forEach l body).1, P c := by
  induction l with
  | nil =>
    intro c hc
    simp [forEach] at hc
  | cons b rest ih =>
    unfold forEach
    exact Trace.seq_all P _ _ (h b (List.mem_cons_self _ _))
      (ih fun b' hb' => h b' (List.mem_cons_of_mem _ hb'))

theorem call_all (P : Call → Prop) (x : Except Fault Call) (h : ∀ c, x = .ok c → P c) :
    ∀ c ∈ (call x).1, P c := by
  intro c hc
  cases x with
  | error e => simp [call] at hc
  | ok c' =>
    simp only [call, List.mem_singleton] at hc
    subst hc
    exact h _ rfl

theorem Trace.seq_ok (l1 l2 : List Call) (r : Option Fault) :
    Trace.seq (l1, none) (l2, r) = (l1 ++ l2, r) := rfl

/-- A loop whose bodies all run to their end makes the calls of its bodies, in order. -/
theorem forEach_ok {β : Type} (l : List β) (body : β → Trace) (f : β → List Call)
    (h : ∀ b ∈ l, body b = (f b, none)) : forEach l body = (l.flatMap f, none) := by
  induction l with
  | nil => rfl
  | cons b rest ih =>
    unfold forEach
    rw [h b (List.mem_cons_self _ _), ih fun b' hb' => h b' (List.mem_cons_of_mem _ hb'),
      Trace.seq_ok, List.flatMap_cons]

theorem forEach_call_ok {β : Type} (l : List β) (x : β → Except Fault Call) (f : β → Call)
    (h : ∀ b ∈ l, x b = .ok (f b)) : forEach l (fun b => call (x b)) = (l.map f, none) := by
  rw [forEach_ok l (fun b => call (x b)) (fun b => [f b])]
  · congr 1
    induction l with
    | nil => rfl
    | cons b rest ih =>
      rw [List.flatMap_cons, List.map_cons, ih fun b' hb' => h b' (List.mem_cons_of_mem _ hb')]
      rfl
  · intro b hb
    rw [h b hb]
    rfl

theorem vecAt_of_lt {α : Type} (v : List α) (i : Nat) (d : α) (h : i < v.length) :
    vecAt v i = .ok (v.getD i d) := by
  unfold vecAt
  rw [List.getD_eq_getElem?_getD, List.getElem?_eq_getElem h]
  rfl

/-- Among the images of distinct keys, exactly one call is on the object of a given key. -/
theorem filter_map_of_nodup {β : Type} [DecidableEq β] (l : List β) (f : β → Call)
    (g : β → Peer) (hg : Function.Injective g) (hf : ∀ b, (f b).peer = g b) (b0 : β)
    (hnd : l.Nodup) (hmem : b0 ∈ l) :
    (l.map f).filter (fun c => decide (c.peer = g b0)) = [f b0] := by
  induction l with
  | nil => simp at hmem
  | cons b rest ih =>
    rw [List.nodup_cons] at hnd
    rw [List.map_cons]
    by_cases hb : b = b0
    · subst hb
      have hrest : (rest.map f).filter (fun c => decide (c.peer = g b)) = [] := by
        rw [List.filter_eq_nil_iff]
        intro c hc
        obtain ⟨b', hb', rfl⟩ := List.mem_map.mp hc
        simp only [hf, decide_eq_true_eq]
        intro h
        exact hnd.1 (hg h ▸ hb')
      rw [List.filter_cons_of_pos (by simp [hf]), hrest]
    · have hmem' : b0 ∈ rest := by
        rcases List.mem_cons.mp hmem with h | h
        · exact absurd h.symm hb
        · exact h
      rw [List.filter_cons_of_neg, ih hnd.2 hmem']
      simp only [hf, decide_eq_true_eq]
      intro h
      exact hb (hg h)

theorem filter_map_of_ne {β : Type} (l : List β) (f : β → Call) (p : Peer)
    (h : ∀ b ∈ l, (f b).peer ≠ p) : (l.map f).filter (fun c => decide (c.peer = p)) = [] := by
  rw [List.filter_eq_nil_iff]
  intro c hc
  obtain ⟨b, hb, rfl⟩ := List.mem_map.mp hc
  simpa using h b hb

/-- In a loop over `0 .. n-1` whose body `di0` makes just the call `c` on an object and whose
other bodies make none, that object gets just the call `c`. -/
theorem filter_flatMap_range (n di0 : Nat) (body : Nat → List Call) (p : Peer) (c : Call)
    (hlt : di0 < n) (h0 : (body di0).filter (fun c => decide (c.peer = p)) = [c])
    (hne : ∀ di, di ≠ di0 → (body di).filter (fun c => decide (c.peer = p)) = []) :
    ((List.range n).flatMap body).filter (fun c => decide (c.peer = p)) = [c] := by
  rw [List.filter_flatMap]
  induction n with
  | zero => omega
  | succ m ih =>
    rw [List.range_succ, List.flatMap_append]
    by_cases hm : di0 = m
    · subst hm
      have hpre : (List.range di0).flatMap
          (fun di => (body di).filter (fun c => decide (c.peer = p))) = [] := by
        rw [List.flatMap_eq_nil_iff]
        intro di hdi
        exact hne di (by have := List.mem_range.mp hdi; omega)
      rw [hpre]
      simp [h0]
    · rw [ih (by omega)]
      simp [hne m (fun h => hm h.symm)]


/-- The "prep colocated" block runs to its end when the four vectors it indexes have the
sizes the creation pass gives them; its calls are all the `start_prepare` calls, sub-domain
by sub-domain, then all the `finish_prepare` calls. -/
theorem prepColocated_eq (dd : DistributedDomain) (out : Outboxes)
    (hlen : dd.colocatedSenders_.length = dd.colocatedRecvers_.length)
    (hO : dd.colocatedSenders_.length ≤ out.colocatedOutboxes.length)
    (hI : dd.colocatedSenders_.length ≤ out.colocatedInboxes.length) :
    dd.prepColocated out =
      ((List.range dd.colocatedSenders_.length).flatMap (dd.startCalls out)
        ++ (List.range dd.colocatedSenders_.length).flatMap dd.finishCalls, none) := by
  unfold DistributedDomain.prepColocated
  rw [if_neg (by simpa using hlen)]
  rw [forEach_ok _ _ (dd.startCalls out), forEach_ok _ _ dd.finishCalls, Trace.seq_ok]
  · intro di _
    rw [forEach_call_ok (dd.colocatedSenders_.getD di []).keys
        (fun k => pure (Call.finish_prepare (Peer.colocatedSender di k)))
        (fun k => Call.finish_prepare (Peer.colocatedSender di k)) (fun _ _ => rfl),
      forEach_call_ok (dd.colocatedRecvers_.getD di []).keys
        (fun k => pure (Call.finish_prepare (Peer.colocatedRecver di k)))
        (fun k => Call.finish_prepare (Peer.colocatedRecver di k)) (fun _ _ => rfl),
      Trace.seq_ok]
    rfl
  · intro di hdi
    have hdi' : di < dd.colocatedSenders_.length := List.mem_range.mp hdi
    rw [forEach_call_ok (dd.colocatedSenders_.getD di []).keys
        (fun k => do
          let m ← vecAt out.colocatedOutboxes di
          pure (Call.start_prepare (Peer.colocatedSender di k) (m.getD k)))
        (fun k => Call.start_prepare (Peer.colocatedSender di k)
          ((out.colocatedOutboxes.getD di []).getD k)),
      forEach_call_ok (dd.colocatedRecvers_.getD di []).keys
        (fun k => do
          let m ← vecAt out.colocatedInboxes di
          pure (Call.start_prepare (Peer.colocatedRecver di k) (m.getD k)))
        (fun k => Call.start_prepare (Peer.colocatedRecver di k)
          ((out.colocatedInboxes.getD di []).getD k)), Trace.seq_ok]
    · rfl
    · intro k _
      rw [vecAt_of_lt out.colocatedInboxes di [] (by omega)]
      rfl
    · intro k _
      rw [vecAt_of_lt out.colocatedOutboxes di [] (by omega)]
      rfl


theorem startCalls_isStart (dd : DistributedDomain) (out : Outboxes) (di : Nat) :
    ∀ c ∈ dd.startCalls out di, c.isStart = true := by
  intro c hc
  simp only [DistributedDomain.startCalls, List.mem_append, List.mem_map] at hc
  rcases hc with ⟨k, _, rfl⟩ | ⟨k, _, rfl⟩ <;> rfl

theorem finishCalls_isFinish (dd : DistributedDomain) (di : Nat) :
    ∀ c ∈ dd.finishCalls di, c.isFinish = true := by
  intro c hc
  simp only [DistributedDomain.finishCalls, List.mem_append, List.mem_map] at hc
  rcases hc with ⟨k, _, rfl⟩ | ⟨k, _, rfl⟩ <;> rfl

/-- The calls of the "prep colocated" block, also when it stops early: `start_prepare` calls,
then `finish_prepare` calls. -/
theorem prepColocated_phases (dd : DistributedDomain) (out : Outboxes) :
    ∃ starts finishes, (dd.prepColocated out).1 = starts ++ finishes ∧
      (∀ c ∈ starts, c.isStart = true) ∧ (∀ c ∈ finishes, c.isFinish = true) := by
  unfold DistributedDomain.prepColocated
  split
  · exact ⟨[], [], rfl, by simp, by simp⟩
  · generalize hS : (forEach (List.range dd.colocatedSenders_.length) fun di =>
      (forEach (dd.colocatedSenders_.getD di []).keys fun dstRank =>
        call do
          let m ← vecAt out.colocatedOutboxes di
          pure (Call.start_prepare (Peer.colocatedSender di dstRank) (m.getD dstRank))).seq
      (forEach (dd.colocatedRecvers_.getD di []).keys fun srcRank =>
        call do
          let m ← vecAt out.colocatedInboxes di
          pure (Call.start_prepare (Peer.colocatedRecver di srcRank) (m.getD srcRank)))) = S
    generalize hF : (forEach (List.range dd.colocatedSenders_.length) fun di =>
      (forEach (dd.colocatedSenders_.getD di []).keys fun dstRank =>
        call (pure (Call.finish_prepare (Peer.colocatedSender di dstRank)))).seq
      (forEach (dd.colocatedRecvers_.getD di []).keys fun srcRank =>
        call (pure (Call.finish_prepare (Peer.colocatedRecver di srcRank))))) = F
    have hSs : ∀ c ∈ S.1, c.isStart = true := by
      rw [← hS]
      refine forEach_all _ _ _ fun di _ => Trace.seq_all _ _ _ ?_ ?_
      · refine forEach_all _ _ _ fun k _ => call_all _ _ fun c hc => ?_
        cases hv : vecAt out.colocatedOutboxes di with
        | error e => simp [hv, bind, Except.bind] at hc
        | ok m =>
          simp only [hv, ok_bind, pure, Except.pure, Except.ok.injEq] at hc
          subst hc
          rfl
      · refine forEach_all _ _ _ fun k _ => call_all _ _ fun c hc => ?_
        cases hv : vecAt out.colocatedInboxes di with
        | error e => simp [hv, bind, Except.bind] at hc
        | ok m =>
          simp only [hv, ok_bind, pure, Except.pure, Except.ok.injEq] at hc
          subst hc
          rfl
    have hFs : ∀ c ∈ F.1, c.isFinish = true := by
      rw [← hF]
      refine forEach_all _ _ _ fun di _ => Trace.seq_all _ _ _ ?_ ?_
      · refine forEach_all _ _ _ fun k _ => call_all _ _ fun c hc => ?_
        simp only [pure, Except.pure, Except.ok.injEq] at hc
        subst hc
        rfl
      · refine forEach_all _ _ _ fun k _ => call_all _ _ fun c hc => ?_
        simp only [pure, Except.pure, Except.ok.injEq] at hc
        subst hc
        rfl
    unfold Trace.seq
    cases S.2 with
    | none => exact ⟨S.1, F.1, rfl, hSs, hFs⟩
    | some e => exact ⟨S.1, [], by simp, hSs, by simp⟩


theorem colocatedSender_injective (di : Nat) : Function.Injective (Peer.colocatedSender di) := by
  intro a b h
  cases h
  rfl

theorem colocatedRecver_injective (di : Nat) : Function.Injective (Peer.colocatedRecver di) := by
  intro a b h
  cases h
  rfl

/-- The calls of the "prep colocated" block on one shared-host sender. -/
theorem prepColocated_sender (dd : DistributedDomain) (out : Outboxes)
    (hlen : dd.colocatedSenders_.length = dd.colocatedRecvers_.length)
    (hO : dd.colocatedSenders_.length ≤ out.colocatedOutboxes.length)
    (hI : dd.colocatedSenders_.length ≤ out.colocatedInboxes.length)
    (di : Nat) (k : Int) (hdi : di < dd.colocatedSenders_.length)
    (hnd : (dd.colocatedSenders_.getD di []).keys.Nodup)
    (hk : k ∈ (dd.colocatedSenders_.getD di []).keys) :
    (dd.prepColocated out).1.filter (fun c => decide (c.peer = Peer.colocatedSender di k))
      = [Call.start_prepare (Peer.colocatedSender di k)
          ((out.colocatedOutboxes.getD di []).getD k),
        Call.finish_prepare (Peer.colocatedSender di k)] := by
  rw [prepColocated_eq dd out hlen hO hI, List.filter_append]
  rw [filter_flatMap_range _ di (dd.startCalls out) _
      (Call.start_prepare (Peer.colocatedSender di k)
        ((out.colocatedOutboxes.getD di []).getD k)) hdi,
    filter_flatMap_range _ di dd.finishCalls _
      (Call.finish_prepare (Peer.colocatedSender di k)) hdi]
  · rfl
  · unfold DistributedDomain.finishCalls
    rw [List.filter_append,
      filter_map_of_nodup _ (fun k => Call.finish_prepare (Peer.colocatedSender di k))
        (Peer.colocatedSender di) (colocatedSender_injective di) (fun _ => rfl) k hnd hk,
      filter_map_of_ne _ _ _ (fun b _ => by simp [Call.peer])]
    rfl
  · intro di' hne
    unfold DistributedDomain.finishCalls
    rw [List.filter_append, filter_map_of_ne _ _ _ (fun b _ => by simp [Call.peer, hne]),
      filter_map_of_ne _ _ _ (fun b _ => by simp [Call.peer])]
    rfl
  · unfold DistributedDomain.startCalls
    rw [List.filter_append,
      filter_map_of_nodup _ (fun k => Call.start_prepare (Peer.colocatedSender di k)
          ((out.colocatedOutboxes.getD di []).getD k))
        (Peer.colocatedSender di) (colocatedSender_injective di) (fun _ => rfl) k hnd hk,
      filter_map_of_ne _ _ _ (fun b _ => by simp [Call.peer])]
    rfl
  · intro di' hne
    unfold DistributedDomain.startCalls
    rw [List.filter_append, filter_map_of_ne _ _ _ (fun b _ => by simp [Call.peer, hne]),
      filter_map_of_ne _ _ _ (fun b _ => by simp [Call.peer])]
    rfl

/-- The calls of the "prep colocated" block on one shared-host receiver. -/
theorem prepColocated_recver (dd : DistributedDomain) (out : Outboxes)
    (hlen : dd.colocatedSenders_.length = dd.colocatedRecvers_.length)
    (hO : dd.colocatedSenders_.length ≤ out.colocatedOutboxes.length)
    (hI : dd.colocatedSenders_.length ≤ out.colocatedInboxes.length)
    (di : Nat) (k : Int) (hdi : di < dd.colocatedSenders_.length)
    (hnd : (dd.colocatedRecvers_.getD di []).keys.Nodup)
    (hk : k ∈ (dd.colocatedRecvers_.getD di []).keys) :
    (dd.prepColocated out).1.filter (fun c => decide (c.peer = Peer.colocatedRecver di k))
      = [Call.start_prepare (Peer.colocatedRecver di k)
          ((out.colocatedInboxes.getD di []).getD k),
        Call.finish_prepare (Peer.colocatedRecver di k)] := by
  rw [prepColocated_eq dd out hlen hO hI, List.filter_append]
  rw [filter_flatMap_range _ di (dd.startCalls out) _
      (Call.start_prepare (Peer.colocatedRecver di k)
        ((out.colocatedInboxes.getD di []).getD k)) hdi,
    filter_flatMap_range _ di dd.finishCalls _
      (Call.finish_prepare (Peer.colocatedRecver di k)) hdi]
  · rfl
  · unfold DistributedDomain.finishCalls
    rw [List.filter_append,
      filter_map_of_nodup _ (fun k => Call.finish_prepare (Peer.colocatedRecver di k))
        (Peer.colocatedRecver di) (colocatedRecver_injective di) (fun _ => rfl) k hnd hk,
      filter_map_of_ne _ _ _ (fun b _ => by simp [Call.peer])]
    rfl
  · intro di' hne
    unfold DistributedDomain.finishCalls
    rw [List.filter_append, filter_map_of_ne _ _ _ (fun b _ => by simp [Call.peer]),
      filter_map_of_ne _ _ _ (fun b _ => by simp [Call.peer, hne])]
    rfl
  · unfold DistributedDomain.startCalls
    rw [List.filter_append,
      filter_map_of_nodup _ (fun k => Call.start_prepare (Peer.colocatedRecver di k)
          ((out.colocatedInboxes.getD di []).getD k))
        (Peer.colocatedRecver di) (colocatedRecver_injective di) (fun _ => rfl) k hnd hk,
      filter_map_of_ne _ _ _ (fun b _ => by simp [Call.peer])]
    rfl
  · intro di' hne
    unfold DistributedDomain.startCalls
    rw [List.filter_append, filter_map_of_ne _ _ _ (fun b _ => by simp [Call.peer]),
      filter_map_of_ne _ _ _ (fun b _ => by simp [Call.peer, hne])]
    rfl


/-- The engine `twoRanksPlanned` with the boxes `twoRanksPlannedBoxes` is what the planning
part of `realize()` makes of `twoRanks`. -/
theorem twoRanks_planned :
    (twoRanks.realizePlan.map fun r => r.1.colocatedSenders_)
      = .ok twoRanksPlanned.colocatedSenders_ ∧
    (twoRanks.realizePlan.map fun r => r.1.colocatedRecvers_)
      = .ok twoRanksPlanned.colocatedRecvers_ ∧
    (twoRanks.realizePlan.map fun r => r.1.remoteSenders_)
      = .ok twoRanksPlanned.remoteSenders_ ∧
    (twoRanks.realizePlan.map fun r => r.1.remoteRecvers_)
      = .ok twoRanksPlanned.remoteRecvers_ ∧
    (twoRanks.realizePlan.map fun r => r.1.domains_) = .ok twoRanksPlanned.domains_ ∧
    (twoRanks.realizePlan.map fun r => r.2) = .ok twoRanksPlannedBoxes := by decide

/-! ## The partition -/

theorem primeFactorsFrom_ge (fuel d n : Nat) : ∀ x ∈ primeFactorsFrom fuel d n, d ≤ x := by
  induction fuel generalizing d n with
  | zero =>
    intro x hx
    simp [primeFactorsFrom] at hx
  | succ fuel ih =>
    intro x hx
    unfold primeFactorsFrom at hx
    split_ifs at hx
    · simp at hx
    · rcases List.mem_cons.mp hx with h | h
      · omega
      · exact ih d (n / d) x h
    · have := ih (d + 1) n x hx
      omega

theorem prime_factors_pos (n : Nat) : ∀ x ∈ prime_factors n, 0 < x := by
  intro x hx
  have := primeFactorsFrom_ge (2 * n) 2 n x hx
  omega

/-- A grid: all three extents are positive. -/
theorem assignFactor_pos (st : Dim3 × Dim3) (p : Nat) (hp : 0 < p)
    (h : 0 < st.2.x ∧ 0 < st.2.y ∧ 0 < st.2.z) :
    0 < (assignFactor st p).2.x ∧ 0 < (assignFactor st p).2.y ∧ 0 < (assignFactor st p).2.z := by
  obtain ⟨ext, grid⟩ := st
  obtain ⟨hx, hy, hz⟩ := h
  have hp' : (0 : Int) < (p : Int) := by exact_mod_cast hp
  unfold assignFactor
  simp only
  split_ifs
  · exact ⟨Int.mul_pos hx hp', hy, hz⟩
  · exact ⟨hx, Int.mul_pos hy hp', hz⟩
  · exact ⟨hx, hy, Int.mul_pos hz hp'⟩

theorem foldl_assignFactor_pos (l : List Nat) (hl : ∀ x ∈ l, 0 < x) (st : Dim3 × Dim3)
    (h : 0 < st.2.x ∧ 0 < st.2.y ∧ 0 < st.2.z) :
    0 < (l.foldl assignFactor st).2.x ∧ 0 < (l.foldl assignFactor st).2.y ∧
      0 < (l.foldl assignFactor st).2.z := by
  induction l generalizing st with
  | nil => exact h
  | cons p rest ih =>
    rw [List.foldl_cons]
    exact ih (fun x hx => hl x (List.mem_cons_of_mem _ hx)) _
      (assignFactor_pos st p (hl p (List.mem_cons_self _ _)) h)

/-- What a successful construction `PFP(G, R, D)` guarantees: the global extent is `G`, both
grids have positive extents, and every axis is at least as long as it has sub-domains. -/
theorem PFP.make_spec (G : Dim3) (R D : Int) (p : PFP) (h : PFP.make G R D = some p) :
    p.size_ = G ∧
    (0 < p.rankDim_.x ∧ 0 < p.rankDim_.y ∧ 0 < p.rankDim_.z) ∧
    (0 < p.gpuDim_.x ∧ 0 < p.gpuDim_.y ∧ 0 < p.gpuDim_.z) ∧
    (p.rankDim_.x * p.gpuDim_.x ≤ G.x ∧ p.rankDim_.y * p.gpuDim_.y ≤ G.y ∧
      p.rankDim_.z * p.gpuDim_.z ≤ G.z) := by
  unfold PFP.make at h
  rw [if_neg (by
    intro hc
    rw [if_pos hc] at h
    cases h)] at h
  simp only at h
  split_ifs at h with h2
  simp only [Option.some.injEq] at h
  subst h
  refine ⟨rfl, ?_, ?_, ?_⟩
  · exact foldl_assignFactor_pos _ (prime_factors_pos _) _
      ⟨Int.one_pos, Int.one_pos, Int.one_pos⟩
  · exact foldl_assignFactor_pos _ (prime_factors_pos _) _
      ⟨Int.one_pos, Int.one_pos, Int.one_pos⟩
  · simp only [not_or, not_lt] at h2
    exact h2

theorem floor_div (G N : Int) (hN : 0 < N) : ⌊(G : ℚ) / (N : ℚ)⌋ = G / N := by
  rw [Int.floor_eq_iff]
  have hNq : (0 : ℚ) < N := by exact_mod_cast hN
  constructor
  · rw [le_div_iff₀ hNq]
    exact_mod_cast Int.ediv_mul_le G (ne_of_gt hN)
  · rw [div_lt_iff₀ hNq]
    exact_mod_cast Int.lt_ediv_add_one_mul_self G hN

theorem ceil_div (G N : Int) (hN : 0 < N) : ⌈(G : ℚ) / (N : ℚ)⌉ = div_ceil G N := by
  unfold div_ceil
  rw [Int.ceil_eq_iff]
  have hNq : (0 : ℚ) < N := by exact_mod_cast hN
  have h1 := Int.ediv_mul_le (G + N - 1) (ne_of_gt hN)
  have h2 := Int.lt_ediv_add_one_mul_self (G + N - 1) hN
  constructor
  · rw [lt_div_iff₀ hNq]
    have : ((G + N - 1) / N - 1) * N < G := by nlinarith
    exact_mod_cast this
  · rw [div_le_iff₀ hNq]
    have : G ≤ ((G + N - 1) / N) * N := by nlinarith
    exact_mod_cast this

/-- The extent of part `i` of an axis of extent `G` cut in `N` parts, with the rational
ceiling and floor of `G / N`. -/
theorem axisSize_eq (G N i : Int) (hN : 0 < N) :
    axisSize G N i = if i < G % N then ⌈(G : ℚ) / (N : ℚ)⌉ else ⌊(G : ℚ) / (N : ℚ)⌋ := by
  rw [ceil_div G N hN, floor_div G N hN]
  rfl

/-- C9: `local_domain_size` gives, independently on each axis `a` with
`N_a = rank_dim_a * gpu_dim_a` sub-domains, `ceil(G_a / N_a)` to the sub-domains with index
`< G_a mod N_a` and `floor(G_a / N_a)` to the others; `G=(10,3,1), R=4, D=1` yields `x`-sizes
3,3,2,2; `G=(13,7,7), R=4` yields 4,3,3,3; `G=(17,7,7), R=3, D=2` yields `(6,4,7)` at
`(0,0,0)`, `(5,4,7)` at `(2,0,0)` and `(5,3,7)` at `(2,1,0)`. -/
theorem local_domain_size_policy (G : Dim3) (R D : Int) (p : PFP)
    (h : PFP.make G R D = some p) (idx : Dim3) :
    ((p.local_domain_size idx).x =
      if idx.x < G.x % (p.rank_dim.x * p.gpu_dim.x)
      then ⌈(G.x : ℚ) / ((p.rank_dim.x * p.gpu_dim.x : Int) : ℚ)⌉
      else ⌊(G.x : ℚ) / ((p.rank_dim.x * p.gpu_dim.x : Int) : ℚ)⌋) ∧
    ((p.local_domain_size idx).y =
      if idx.y < G.y % (p.rank_dim.y * p.gpu_dim.y)
      then ⌈(G.y : ℚ) / ((p.rank_dim.y * p.gpu_dim.y : Int) : ℚ)⌉
      else ⌊(G.y : ℚ) / ((p.rank_dim.y * p.gpu_dim.y : Int) : ℚ)⌋) ∧
    ((p.local_domain_size idx).z =
      if idx.z < G.z % (p.rank_dim.z * p.gpu_dim.z)
      then ⌈(G.z : ℚ) / ((p.rank_dim.z * p.gpu_dim.z : Int) : ℚ)⌉
      else ⌊(G.z : ℚ) / ((p.rank_dim.z * p.gpu_dim.z : Int) : ℚ)⌋) ∧
    ((PFP.make ⟨10, 3, 1⟩ 4 1).map fun q =>
        (List.range 4).map fun i => (q.local_domain_size ⟨i, 0, 0⟩).x) = some [3, 3, 2, 2] ∧
    ((PFP.make ⟨13, 7, 7⟩ 4 1).map fun q =>
        (List.range 4).map fun i => (q.local_domain_size ⟨i, 0, 0⟩).x) = some [4, 3, 3, 3] ∧
    ((PFP.make ⟨17, 7, 7⟩ 3 2).map fun q =>
        [q.local_domain_size ⟨0, 0, 0⟩, q.local_domain_size ⟨2, 0, 0⟩,
          q.local_domain_size ⟨2, 1, 0⟩]) = some [⟨6, 4, 7⟩, ⟨5, 4, 7⟩, ⟨5, 3, 7⟩] := by
  obtain ⟨hG, hR, hD, _⟩ := PFP.make_spec G R D p h
  subst hG
  refine ⟨?_, ?_, ?_, by decide, by decide, by decide⟩
  · exact axisSize_eq _ _ _ (Int.mul_pos hR.1 hD.1)
  · exact axisSize_eq _ _ _ (Int.mul_pos hR.2.1 hD.2.1)
  · exact axisSize_eq _ _ _ (Int.mul_pos hR.2.2 hD.2.2)

/-- Witness for C9 on the partition of the test "17x7x7 into 3x2", at sub-domain `(2,1,0)`:
`17 mod 3 = 2` and `7 mod 2 = 1`, so its `x` and `y` extents are the floors of `17/3` and
`7/2`. -/
theorem local_domain_size_policy_witness :
    (PFP.local_domain_size ⟨⟨17, 7, 7⟩, ⟨3, 1, 1⟩, ⟨1, 2, 1⟩⟩ ⟨2, 1, 0⟩).x
      = ⌊((17 : Int) : ℚ) / (((3 : Int) * 1 : Int) : ℚ)⌋ ∧
    (PFP.local_domain_size ⟨⟨17, 7, 7⟩, ⟨3, 1, 1⟩, ⟨1, 2, 1⟩⟩ ⟨2, 1, 0⟩).y
      = ⌊((7 : Int) : ℚ) / (((1 : Int) * 2 : Int) : ℚ)⌋ :=
  have h := local_domain_size_policy ⟨17, 7, 7⟩ 3 2 ⟨⟨17, 7, 7⟩, ⟨3, 1, 1⟩, ⟨1, 2, 1⟩⟩
    (by decide) ⟨2, 1, 0⟩
  ⟨h.1.trans (if_neg (by decide)), h.2.1.trans (if_neg (by decide))⟩


/-- With a remainder, the ceiling is one more than the quotient. -/
theorem div_ceil_of_rem (G N : Int) (hN : 0 < N) (hr : 0 < G % N) : div_ceil G N = G / N + 1 := by
  unfold div_ceil
  have h1 := Int.emod_add_ediv G N
  have h2 := Int.emod_lt_of_pos G hN
  have e : G + N - 1 = (G % N - 1) + N * (G / N + 1) := by linarith
  rw [e, Int.add_mul_ediv_left _ _ (ne_of_gt hN), Int.ediv_eq_zero_of_lt (by omega) (by omega)]
  ring

theorem axisSize_nat (G N : Int) (i : Nat) (hN : 0 < N) :
    axisSize G N i = G / N + if (i : Int) < G % N then 1 else 0 := by
  unfold axisSize
  split_ifs with h
  · exact div_ceil_of_rem G N hN (by omega)
  · ring

theorem sum_axisSize_le (G N : Int) (hN : 0 < N) (n : Nat) :
    ∑ i in Finset.range n, axisSize G N i = n * (G / N) + min (n : Int) (G % N) := by
  have hr := Int.emod_nonneg G (ne_of_gt hN)
  induction n with
  | zero => simp [hr]
  | succ n ih =>
    rw [Finset.sum_range_succ, ih, axisSize_nat G N n hN]
    push_cast
    split_ifs with h
    · rw [min_eq_left (by omega), min_eq_left (by omega)]
      ring
    · rw [min_eq_right (by omega), min_eq_right (by omega)]
      ring

/-- The parts of an axis add up to the axis. -/
theorem sum_axisSize (G N : Int) (hN : 0 < N) :
    ∑ i in Finset.range N.toNat, axisSize G N i = G := by
  have h1 := Int.emod_add_ediv G N
  have h2 := Int.emod_lt_of_pos G hN
  have h3 : ((N.toNat : Nat) : Int) = N := Int.toNat_of_nonneg (le_of_lt hN)
  rw [sum_axisSize_le G N hN, h3, min_eq_right (le_of_lt h2)]
  linarith

/-- C10: for every feasible partition and every axis `a`, the local extents along any
axis-aligned line of sub-domains add up to the global extent: the sum over `i` in
`[0, N_a)` of `local_domain_size(sub-domain with a-index i)_a` equals `G_a`. -/
theorem local_domain_size_sum (G : Dim3) (R D : Int) (p : PFP)
    (h : PFP.make G R D = some p) (x y z : Int) :
    ∑ i in Finset.range (p.rank_dim.x * p.gpu_dim.x).toNat,
        (p.local_domain_size ⟨i, y, z⟩).x = G.x ∧
    ∑ i in Finset.range (p.rank_dim.y * p.gpu_dim.y).toNat,
        (p.local_domain_size ⟨x, i, z⟩).y = G.y ∧
    ∑ i in Finset.range (p.rank_dim.z * p.gpu_dim.z).toNat,
        (p.local_domain_size ⟨x, y, i⟩).z = G.z := by
  obtain ⟨hG, hR, hD, _⟩ := PFP.make_spec G R D p h
  subst hG
  exact ⟨sum_axisSize _ _ (Int.mul_pos hR.1 hD.1), sum_axisSize _ _ (Int.mul_pos hR.2.1 hD.2.1),
    sum_axisSize _ _ (Int.mul_pos hR.2.2 hD.2.2)⟩

/-- Witness for C10 on the partition of the test "10x5x5 into 3x1": the three `x` extents
4, 3, 3 add up to 10. -/
theorem local_domain_size_sum_witness :
    ∑ i in Finset.range (((3 : Int) * 1).toNat),
      (PFP.local_domain_size ⟨⟨10, 5, 5⟩, ⟨3, 1, 1⟩, ⟨1, 1, 1⟩⟩ ⟨i, 0, 0⟩).x = 10 :=
  (local_domain_size_sum ⟨10, 5, 5⟩ 3 1 ⟨⟨10, 5, 5⟩, ⟨3, 1, 1⟩, ⟨1, 1, 1⟩⟩ (by decide) 0 0 0).1


/-! ## The shared-host maps through `realize()` -/

theorem AMap.keys_replace {K V : Type} [DecidableEq K] (m : AMap K V) (k : K) (v : V) :
    (AMap.replace m k v).keys = m.keys := by
  induction m with
  | nil => rfl
  | cons kv rest ih =>
    obtain ⟨k', v'⟩ := kv
    unfold AMap.replace
    split
    · next h => simp [AMap.keys, h]
    · simp only [AMap.keys, List.map_cons] at ih ⊢
      rw [ih]

theorem AMap.mem_keys_insert {K V : Type} (lt : K → K → Bool) (m : AMap K V) (k : K) (v : V)
    (x : K) : x ∈ (AMap.insert lt m k v).keys ↔ x = k ∨ x ∈ m.keys := by
  induction m with
  | nil => simp [AMap.insert, AMap.keys]
  | cons kv rest ih =>
    obtain ⟨k', v'⟩ := kv
    unfold AMap.insert
    split
    · simp [AMap.keys]
    · simp only [AMap.keys, List.map_cons, List.mem_cons] at ih ⊢
      rw [ih]
      tauto

theorem AMap.nodup_keys_insert {K V : Type} (lt : K → K → Bool) (m : AMap K V) (k : K) (v : V)
    (hk : k ∉ m.keys) (h : m.keys.Nodup) : (AMap.insert lt m k v).keys.Nodup := by
  induction m with
  | nil => simp [AMap.insert, AMap.keys]
  | cons kv rest ih =>
    obtain ⟨k', v'⟩ := kv
    have hk' : k ≠ k' ∧ k ∉ AMap.keys rest := by
      simpa [AMap.keys] using hk
    have h' : k' ∉ AMap.keys rest ∧ (AMap.keys rest).Nodup := by
      simpa [AMap.keys] using h
    unfold AMap.insert
    split
    · simp only [AMap.keys, List.map_cons, List.nodup_cons, List.mem_cons, not_or]
      exact ⟨⟨hk'.1, hk'.2⟩, h'.1, h'.2⟩
    · have hmem := AMap.mem_keys_insert lt rest k v k'
      have ih' := ih hk'.2 h'.2
      simp only [AMap.keys, List.map_cons, List.nodup_cons] at hmem ih' ⊢
      refine ⟨?_, ih'⟩
      rw [hmem]
      intro hc
      rcases hc with hc | hc
      · exact hk'.1 hc.symm
      · exact h'.1 hc

/-- The assignment `m[k] = v` keeps the keys of a map distinct. -/
theorem AMap.nodup_keys_set {K V : Type} [DecidableEq K] (lt : K → K → Bool) (m : AMap K V)
    (k : K) (v : V) (h : m.keys.Nodup) : (AMap.set lt m k v).keys.Nodup := by
  unfold AMap.set
  split
  · rw [AMap.keys_replace]
    exact h
  · next hk => exact AMap.nodup_keys_insert lt m k v hk h

theorem setAt_spec {K V : Type} [DecidableEq K] (lt : K → K → Bool) (v v' : List (AMap K V))
    (di : Nat) (k : K) (val : V) (h : setAt lt v di k val = .ok v') :
    v'.length = v.length ∧
    ((∀ m ∈ v, (AMap.keys m).Nodup) → ∀ m ∈ v', (AMap.keys m).Nodup) := by
  unfold setAt vecAt at h
  cases hm : v[di]? with
  | none =>
    rw [hm] at h
    cases h
  | some m0 =>
    rw [hm] at h
    cases h
    refine ⟨List.length_set _ _ _, fun hall m hmem => ?_⟩
    rcases List.mem_or_eq_of_mem_set hmem with h1 | h1
    · exact hall m h1
    · rw [h1]
      exact AMap.nodup_keys_set lt m0 k val (hall m0 (List.getElem?_mem hm))

theorem pushAt_length {K V : Type} [DecidableEq K] (lt : K → K → Bool)
    (v v' : List (AMap K (List V))) (di : Nat) (k : K) (x : V)
    (h : pushAt lt v di k x = .ok v') : v'.length = v.length := by
  unfold pushAt vecAt at h
  cases hm : v[di]? with
  | none =>
    rw [hm] at h
    cases h
  | some m0 =>
    rw [hm] at h
    cases h
    exact List.length_set _ _ _

/-- A property that every step of a loop keeps holds after the loop. -/
theorem foldlM_inv {σ α : Type} (P : σ → Prop) (f : σ → α → Except Fault σ)
    (hf : ∀ s a s', P s → f s a = .ok s' → P s') :
    ∀ (l : List α) (s s' : σ), P s → l.foldlM f s = .ok s' → P s' := by
  intro l
  induction l with
  | nil =>
    intro s s' hs h
    cases h
    exact hs
  | cons a rest ih =>
    intro s s' hs h
    rw [List.foldlM_cons] at h
    cases hfa : f s a with
    | error e =>
      rw [hfa] at h
      cases h
    | ok s1 =>
      rw [hfa] at h
      exact ih s1 s' (hf s a s1 hs hfa) h


theorem bind_ok {α β : Type} (x : Except Fault α) (f : α → Except Fault β) (b : β)
    (h : (x >>= f) = .ok b) : ∃ a, x = .ok a ∧ f a = .ok b := by
  cases x with
  | error e => cases h
  | ok a => exact ⟨a, rfl, h⟩

theorem wf_set_recver (dd : DistributedDomain) (out : Outboxes) (di : Nat) (k k' : Int)
    (ep : Endpoint) (r' : List (AMap Int Endpoint)) (i' : List (AMap Int (List Message)))
    (hwf : ColocatedWF (dd, out))
    (hr : setAt intLt dd.colocatedRecvers_ di k ep = .ok r')
    (hi : setAt intLt out.colocatedInboxes di k' [] = .ok i') :
    ColocatedWF ({ dd with colocatedRecvers_ := r' }, { out with colocatedInboxes := i' }) := by
  obtain ⟨h1, h2, h3, h4, h5⟩ := hwf
  have sr := setAt_spec intLt _ _ di k ep hr
  have si := setAt_spec intLt _ _ di k' [] hi
  simp only at h1 h2 h3 h4 h5
  refine ⟨?_, ?_, ?_, ?_, ?_⟩ <;> simp only
  · omega
  · omega
  · omega
  · exact h4
  · exact sr.2 h5

theorem wf_set_sender (dd : DistributedDomain) (out : Outboxes) (di : Nat) (k k' : Int)
    (ep : Endpoint) (s' : List (AMap Int Endpoint)) (o' : List (AMap Int (List Message)))
    (hwf : ColocatedWF (dd, out))
    (hs : setAt intLt dd.colocatedSenders_ di k ep = .ok s')
    (ho : setAt intLt out.colocatedOutboxes di k' [] = .ok o') :
    ColocatedWF ({ dd with colocatedSenders_ := s' }, { out with colocatedOutboxes := o' }) := by
  obtain ⟨h1, h2, h3, h4, h5⟩ := hwf
  have ss := setAt_spec intLt _ _ di k ep hs
  have so := setAt_spec intLt _ _ di k' [] ho
  simp only at h1 h2 h3 h4 h5
  refine ⟨?_, ?_, ?_, ?_, ?_⟩ <;> simp only
  · omega
  · omega
  · omega
  · exact ss.2 h4
  · exact h5

theorem createColocatedStep_wf (di : Nat) (st st' : DistributedDomain × Outboxes) (dir : Dim3)
    (hwf : ColocatedWF st) (h : DistributedDomain.createColocatedStep di st dir = .ok st') :
    ColocatedWF st' := by
  obtain ⟨dd, out⟩ := st
  unfold DistributedDomain.createColocatedStep at h
  simp only at h
  split at h
  · obtain ⟨r', hr, h⟩ := bind_ok _ _ _ h
    obtain ⟨i', hi, h⟩ := bind_ok _ _ _ h
    have hwf1 := wf_set_recver dd out di _ _ _ r' i' hwf hr hi
    obtain ⟨y, hy, h⟩ := bind_ok _ _ _ h
    cases hy
    split at h
    · obtain ⟨s', hs, h⟩ := bind_ok _ _ _ h
      obtain ⟨o', ho, h⟩ := bind_ok _ _ _ h
      cases h
      exact wf_set_sender _ _ di _ _ _ s' o' hwf1 hs ho
    · cases h
      exact hwf1
  · obtain ⟨y, hy, h⟩ := bind_ok _ _ _ h
    cases hy
    split at h
    · obtain ⟨s', hs, h⟩ := bind_ok _ _ _ h
      obtain ⟨o', ho, h⟩ := bind_ok _ _ _ h
      cases h
      exact wf_set_sender _ _ di _ _ _ s' o' hwf hs ho
    · cases h
      exact hwf

theorem resize_length {α : Type} (v : List α) (n : Nat) (d : α) : (resize v n d).length = n := by
  unfold resize
  simp only [List.length_append, List.length_take, List.length_replicate]
  omega

theorem mem_resize {α : Type} (v : List α) (n : Nat) (d a : α) (h : a ∈ resize v n d) :
    a ∈ v ∨ a = d := by
  unfold resize at h
  rcases List.mem_append.mp h with h | h
  · exact Or.inl (List.mem_of_mem_take h)
  · exact Or.inr (List.eq_of_mem_replicate h)

theorem createColocated_wf (st st' : DistributedDomain × Outboxes) (hwf : ColocatedWF st)
    (h : DistributedDomain.createColocated st = .ok st') : ColocatedWF st' := by
  obtain ⟨dd, out⟩ := st
  unfold DistributedDomain.createColocated at h
  simp only at h
  split at h
  · refine foldlM_inv ColocatedWF _ (fun s di s' hs hf =>
      foldlM_inv ColocatedWF _ (fun s dir s' hs hf => createColocatedStep_wf di s s' dir hs hf)
        loopDirs s s' hs hf) _ _ st' ?_ h
    obtain ⟨_, _, _, h4, h5⟩ := hwf
    refine ⟨?_, ?_, ?_, ?_, ?_⟩
    · simp only [resize_length]
    · simp only [resize_length, le_refl]
    · simp only [resize_length, le_refl]
    · intro m hm
      rcases mem_resize _ _ _ _ hm with hm | hm
      · exact h4 m hm
      · rw [hm]
        exact List.nodup_nil
    · intro m hm
      rcases mem_resize _ _ _ _ hm with hm | hm
      · exact h5 m hm
      · rw [hm]
        exact List.nodup_nil
  · cases h
    exact hwf

theorem createRemoteStep_wf (di : Nat) (st st' : DistributedDomain × Outboxes) (dir : Dim3)
    (hwf : ColocatedWF st) (h : DistributedDomain.createRemoteStep di st dir = .ok st') :
    ColocatedWF st' := by
  obtain ⟨dd, out⟩ := st
  unfold DistributedDomain.createRemoteStep at h
  simp only at h
  have tail : ∀ (h : (do
        let y ← (pure (dd, out) : Except Fault (DistributedDomain × Outboxes))
        if y.1.rank_ ≠ (dd.neighbours di dir).dstRank then do
          let senders' ← setAt Dim3.lt y.1.remoteSenders_ di (dd.neighbours di dir).dstIdx
            ⟨(dd.neighbours di dir).srcRank, (dd.neighbours di dir).srcGPU, y.1.rank_, di⟩
          let outboxes' ← setAt Dim3.lt y.2.remoteOutboxes di (dd.neighbours di dir).dstIdx []
          pure ({ y.1 with remoteSenders_ := senders' }, { y.2 with remoteOutboxes := outboxes' })
        else pure (y.1, y.2)) = Except.ok st'), ColocatedWF st' := by
    intro h
    obtain ⟨y, hy, h⟩ := bind_ok _ _ _ h
    cases hy
    split at h
    · obtain ⟨s', hs, h⟩ := bind_ok _ _ _ h
      obtain ⟨o', ho, h⟩ := bind_ok _ _ _ h
      cases h
      exact hwf
    · cases h
      exact hwf
  split at h
  · obtain ⟨recvers, hrv, h⟩ := bind_ok _ _ _ h
    split at h
    · obtain ⟨r', hr, h⟩ := bind_ok _ _ _ h
      obtain ⟨i', hi, h⟩ := bind_ok _ _ _ h
      obtain ⟨y, hy, h⟩ := bind_ok _ _ _ h
      cases hy
      split at h
      · obtain ⟨s', hs, h⟩ := bind_ok _ _ _ h
        obtain ⟨o', ho, h⟩ := bind_ok _ _ _ h
        cases h
        exact hwf
      · cases h
        exact hwf
    · exact tail h
  · exact tail h

theorem createRemote_wf (st st' : DistributedDomain × Outboxes) (hwf : ColocatedWF st)
    (h : DistributedDomain.createRemote st = .ok st') : ColocatedWF st' := by
  obtain ⟨dd, out⟩ := st
  unfold DistributedDomain.createRemote at h
  simp only at h
  split at h
  · refine foldlM_inv ColocatedWF _ (fun s di s' hs hf =>
      foldlM_inv ColocatedWF _ (fun s dir s' hs hf => createRemoteStep_wf di s s' dir hs hf)
        loopDirs s s' hs hf) _ _ st' ?_ h
    exact hwf
  · cases h
    exact hwf


theorem planSend_lengths (dd : DistributedDomain) (di : Nat) (dir : Dim3) (out out' : Outboxes)
    (h : dd.planSend di dir out = .ok out') :
    out'.colocatedOutboxes.length = out.colocatedOutboxes.length ∧
    out'.colocatedInboxes = out.colocatedInboxes := by
  unfold DistributedDomain.planSend at h
  simp only at h
  split at h
  · obtain ⟨d1, _, h⟩ := bind_ok _ _ _ h
    obtain ⟨d2, _, h⟩ := bind_ok _ _ _ h
    split at h
    · cases h
      exact ⟨rfl, rfl⟩
    · split at h
      · cases h
        exact ⟨rfl, rfl⟩
      · split at h
        · obtain ⟨_, _, h⟩ := bind_ok _ _ _ h
          obtain ⟨_, _, h⟩ := bind_ok _ _ _ h
          obtain ⟨_, _, h⟩ := bind_ok _ _ _ h
          obtain ⟨v', _, h⟩ := bind_ok _ _ _ h
          cases h
          exact ⟨rfl, rfl⟩
        · cases h
  · split at h
    · obtain ⟨_, _, h⟩ := bind_ok _ _ _ h
      obtain ⟨_, _, h⟩ := bind_ok _ _ _ h
      obtain ⟨_, _, h⟩ := bind_ok _ _ _ h
      obtain ⟨v', hv, h⟩ := bind_ok _ _ _ h
      cases h
      exact ⟨pushAt_length _ _ _ _ _ _ hv, rfl⟩
    · split at h
      · obtain ⟨v', _, h⟩ := bind_ok _ _ _ h
        cases h
        exact ⟨rfl, rfl⟩
      · cases h

theorem planRecv_lengths (dd : DistributedDomain) (di : Nat) (dir : Dim3) (out out' : Outboxes)
    (h : dd.planRecv di dir out = .ok out') :
    out'.colocatedOutboxes = out.colocatedOutboxes ∧
    out'.colocatedInboxes.length = out.colocatedInboxes.length ∧
    out'.outgoing = out.outgoing := by
  unfold DistributedDomain.planRecv at h
  simp only at h
  split at h
  · obtain ⟨d1, _, h⟩ := bind_ok _ _ _ h
    obtain ⟨d2, _, h⟩ := bind_ok _ _ _ h
    split at h
    · cases h
      exact ⟨rfl, rfl, rfl⟩
    · split at h
      · cases h
        exact ⟨rfl, rfl, rfl⟩
      · split at h
        · obtain ⟨v', _, h⟩ := bind_ok _ _ _ h
          cases h
          exact ⟨rfl, rfl, rfl⟩
        · cases h
  · split at h
    · obtain ⟨v', hv, h⟩ := bind_ok _ _ _ h
      cases h
      exact ⟨rfl, pushAt_length _ _ _ _ _ _ hv, rfl⟩
    · split at h
      · obtain ⟨v', _, h⟩ := bind_ok _ _ _ h
        cases h
        exact ⟨rfl, rfl, rfl⟩
      · cases h

theorem planStep_wf (dd : DistributedDomain) (di : Nat) (out out' : Outboxes) (dir : Dim3)
    (hwf : ColocatedWF (dd, out)) (h : dd.planStep di out dir = .ok out') :
    ColocatedWF (dd, out') := by
  unfold DistributedDomain.planStep at h
  obtain ⟨out1, h1, h2⟩ := bind_ok _ _ _ h
  have s := planSend_lengths dd di dir out out1 h1
  have r := planRecv_lengths dd di dir out1 out' h2
  obtain ⟨w1, w2, w3, w4, w5⟩ := hwf
  simp only at w1 w2 w3 w4 w5
  refine ⟨w1, ?_, ?_, w4, w5⟩ <;> simp only
  · rw [r.1, s.1]
    exact w2
  · rw [r.2.1, s.2]
    exact w3

theorem planMessages_wf (dd : DistributedDomain) (out out' : Outboxes)
    (hwf : ColocatedWF (dd, out)) (h : dd.planMessages out = .ok out') :
    ColocatedWF (dd, out') := by
  unfold DistributedDomain.planMessages at h
  exact foldlM_inv (fun o => ColocatedWF (dd, o)) _ (fun s di s' hs hf =>
    foldlM_inv (fun o => ColocatedWF (dd, o)) _
      (fun s dir s' hs hf => planStep_wf dd di s s' dir hs hf) loopDirs s s' hs hf) _ _ out' hwf h


theorem foldl_inv {σ α : Type} (P : σ → Prop) (f : σ → α → σ) (hf : ∀ s a, P s → P (f s a)) :
    ∀ (l : List α) (s : σ), P s → P (l.foldl f s) := by
  intro l
  induction l with
  | nil => exact fun s hs => hs
  | cons a rest ih => exact fun s hs => ih (f s a) (hf s a hs)

theorem createLocalDomains_colocated (dd : DistributedDomain) :
    dd.createLocalDomains.colocatedSenders_ = dd.colocatedSenders_ ∧
    dd.createLocalDomains.colocatedRecvers_ = dd.colocatedRecvers_ := by
  unfold DistributedDomain.createLocalDomains
  simp only
  refine foldl_inv (fun s => s.colocatedSenders_ = dd.colocatedSenders_ ∧
      s.colocatedRecvers_ = dd.colocatedRecvers_) _ ?_ _ dd ⟨rfl, rfl⟩
  intro s a hs
  exact hs

/-- The planning part of `realize()` leaves the shared-host maps in the state the
"prep colocated" block relies on. -/
theorem realizePlan_wf (dd dd' : DistributedDomain) (out : Outboxes)
    (hwf : ColocatedWF (dd, Outboxes.empty)) (h : dd.realizePlan = .ok (dd', out)) :
    ColocatedWF (dd', out) := by
  unfold DistributedDomain.realizePlan at h
  simp only at h
  obtain ⟨⟨dd1, out1⟩, h1, h⟩ := bind_ok _ _ _ h
  obtain ⟨⟨dd2, out2⟩, h2, h⟩ := bind_ok _ _ _ h
  obtain ⟨out3, h3, h⟩ := bind_ok _ _ _ h
  cases h
  have e := createLocalDomains_colocated dd
  have w0 : ColocatedWF (dd.createLocalDomains, Outboxes.empty) := by
    unfold ColocatedWF at hwf ⊢
    simp only at hwf ⊢
    rw [e.1, e.2]
    exact hwf
  exact planMessages_wf _ _ _ (createColocated_wf _ _ (createRemote_wf _ _ w0 h1) h2) h3

theorem prepRemote_calls (dd : DistributedDomain) (out : Outboxes) :
    ∀ c ∈ (dd.prepRemote out).1, c.isStart = false ∧ c.isFinish = false := by
  unfold DistributedDomain.prepRemote
  split
  · intro c hc
    simp at hc
  · refine forEach_all _ _ _ fun di _ => Trace.seq_all _ _ _ ?_ ?_
    · refine forEach_all _ _ _ fun k _ => call_all _ _ fun c hc => ?_
      obtain ⟨m, _, hc⟩ := bind_ok _ _ _ hc
      cases hc
      exact ⟨rfl, rfl⟩
    · refine forEach_all _ _ _ fun k _ => call_all _ _ fun c hc => ?_
      obtain ⟨m, _, hc⟩ := bind_ok _ _ _ hc
      cases hc
      exact ⟨rfl, rfl⟩


theorem prepRemote_peers (dd : DistributedDomain) (out : Outboxes) (p : Peer)
    (hp : (∃ di k, p = Peer.colocatedSender di k) ∨ (∃ di k, p = Peer.colocatedRecver di k)) :
    (dd.prepRemote out).1.filter (fun c => decide (c.peer = p)) = [] := by
  rw [List.filter_eq_nil_iff]
  have key : ∀ c ∈ (dd.prepRemote out).1,
      (∃ di k, c.peer = Peer.remoteSender di k) ∨ (∃ di k, c.peer = Peer.remoteRecver di k) := by
    unfold DistributedDomain.prepRemote
    split
    · intro c hc
      simp at hc
    · refine forEach_all _ _ _ fun di _ => Trace.seq_all _ _ _ ?_ ?_
      · refine forEach_all _ _ _ fun k _ => call_all _ _ fun c hc => ?_
        obtain ⟨m, _, hc⟩ := bind_ok _ _ _ hc
        cases hc
        exact Or.inl ⟨di, k, rfl⟩
      · refine forEach_all _ _ _ fun k _ => call_all _ _ fun c hc => ?_
        obtain ⟨m, _, hc⟩ := bind_ok _ _ _ hc
        cases hc
        exact Or.inr ⟨di, k, rfl⟩
  intro c hc
  simp only [decide_eq_true_eq]
  intro hcp
  rcases key c hc with ⟨di, k, h⟩ | ⟨di, k, h⟩ <;>
    rcases hp with ⟨di', k', h'⟩ | ⟨di', k', h'⟩ <;>
    · rw [hcp, h'] at h
      cases h

theorem getD_keys_nodup {K V : Type} (v : List (AMap K V))
    (h : ∀ m ∈ v, (AMap.keys m).Nodup) (di : Nat) : (AMap.keys (v.getD di [])).Nodup := by
  rw [List.getD_eq_getElem?_getD]
  cases hm : v[di]? with
  | none => exact List.nodup_nil
  | some m => exact h m (List.getElem?_mem hm)

theorem lt_of_mem_getD_keys {K V : Type} (v : List (AMap K V)) (di : Nat) (k : K)
    (h : k ∈ AMap.keys (v.getD di [])) : di < v.length := by
  by_contra hlt
  rw [List.getD_eq_getElem?_getD, List.getElem?_eq_none (by omega)] at h
  simp [AMap.keys] at h

/-- The calls of all the prepare blocks of `realize()`. -/
theorem prepareAll_eq (dd : DistributedDomain) (out : Outboxes) :
    (dd.prepareAll out).1 =
      [Call.prepare Peer.peerAccessSender out.peerAccessOutbox,
        Call.prepare Peer.peerCopySender out.peerCopyOutbox]
      ++ ((dd.prepColocated out).seq (dd.prepRemote out)).1 := rfl


/-- C7: in `realize()`, every `start_prepare` call comes before any `finish_prepare` call:
the calls `realize()` makes are `prepare` calls, then `start_prepare` calls, then
`finish_prepare` calls, then `prepare` calls. On an engine that has no shared-host senders or
receivers yet (the first call), every shared-host sender and receiver of every local
sub-domain that `realize()` creates gets exactly one `start_prepare`, with its box, followed
by exactly one `finish_prepare`. -/
theorem realize_start_before_finish (dd dd' : DistributedDomain) (tr : Trace)
    (h : dd.realize = .ok (dd', tr)) :
    ∃ out, dd.realizePlan = .ok (dd', out) ∧
      (∃ before starts finishes after, tr.1 = before ++ starts ++ finishes ++ after ∧
        (∀ c ∈ before, c.isStart = false ∧ c.isFinish = false) ∧
        (∀ c ∈ starts, c.isStart = true) ∧ (∀ c ∈ finishes, c.isFinish = true) ∧
        (∀ c ∈ after, c.isStart = false ∧ c.isFinish = false)) ∧
      (dd.colocatedSenders_ = [] → dd.colocatedRecvers_ = [] → ∀ di k,
        (k ∈ (dd'.colocatedSenders_.getD di []).keys →
          tr.1.filter (fun c => decide (c.peer = Peer.colocatedSender di k))
            = [Call.start_prepare (Peer.colocatedSender di k)
                ((out.colocatedOutboxes.getD di []).getD k),
              Call.finish_prepare (Peer.colocatedSender di k)]) ∧
        (k ∈ (dd'.colocatedRecvers_.getD di []).keys →
          tr.1.filter (fun c => decide (c.peer = Peer.colocatedRecver di k))
            = [Call.start_prepare (Peer.colocatedRecver di k)
                ((out.colocatedInboxes.getD di []).getD k),
              Call.finish_prepare (Peer.colocatedRecver di k)])) := by
  unfold DistributedDomain.realize at h
  obtain ⟨⟨dd1, out⟩, hplan, h⟩ := bind_ok _ _ _ h
  cases h
  refine ⟨out, hplan, ?_, ?_⟩
  · obtain ⟨starts, finishes, hsf, hs, hf⟩ := prepColocated_phases dd' out
    rw [prepareAll_eq]
    unfold Trace.seq
    cases hfault : (dd'.prepColocated out).2 with
    | none =>
      refine ⟨[Call.prepare Peer.peerAccessSender out.peerAccessOutbox,
          Call.prepare Peer.peerCopySender out.peerCopyOutbox],
        starts, finishes, (dd'.prepRemote out).1, ?_, ?_, hs, hf, prepRemote_calls dd' out⟩
      · simp only [hsf, List.append_assoc]
      · intro c hc
        simp only [List.mem_cons, List.mem_singleton, List.not_mem_nil, or_false] at hc
        rcases hc with rfl | rfl <;> exact ⟨rfl, rfl⟩
    | some e =>
      refine ⟨[Call.prepare Peer.peerAccessSender out.peerAccessOutbox,
          Call.prepare Peer.peerCopySender out.peerCopyOutbox],
        starts, finishes, [], ?_, ?_, hs, hf, by simp⟩
      · simp only [hsf, List.append_assoc, List.append_nil]
      · intro c hc
        simp only [List.mem_cons, List.mem_singleton, List.not_mem_nil, or_false] at hc
        rcases hc with rfl | rfl <;> exact ⟨rfl, rfl⟩
  · intro hS hR di k
    have hwf : ColocatedWF (dd', out) := by
      refine realizePlan_wf dd dd' out ?_ hplan
      refine ⟨?_, ?_, ?_, ?_, ?_⟩ <;> simp [hS, hR, Outboxes.empty]
    obtain ⟨w1, w2, w3, w4, w5⟩ := hwf
    simp only at w1 w2 w3 w4 w5
    have hfault : (dd'.prepColocated out).2 = none := by
      rw [prepColocated_eq dd' out w1 w2 w3]
    have htr : (dd'.prepareAll out).1 =
        [Call.prepare Peer.peerAccessSender out.peerAccessOutbox,
          Call.prepare Peer.peerCopySender out.peerCopyOutbox]
        ++ ((dd'.prepColocated out).1 ++ (dd'.prepRemote out).1) := by
      rw [prepareAll_eq]
      unfold Trace.seq
      rw [hfault]
    constructor
    · intro hk
      have hdi := lt_of_mem_getD_keys _ di k hk
      rw [htr, List.filter_append, List.filter_append,
        prepColocated_sender dd' out w1 w2 w3 di k hdi (getD_keys_nodup _ w4 di) hk,
        prepRemote_peers dd' out _ (Or.inl ⟨di, k, rfl⟩)]
      rfl
    · intro hk
      have hdi : di < dd'.colocatedSenders_.length := by
        have := lt_of_mem_getD_keys _ di k hk
        omega
      rw [htr, List.filter_append, List.filter_append,
        prepColocated_recver dd' out w1 w2 w3 di k hdi (getD_keys_nodup _ w5 di) hk,
        prepRemote_peers dd' out _ (Or.inr ⟨di, k, rfl⟩)]
      rfl

theorem twoRanks_realize :
    twoRanks.realize = .ok (twoRanksPlanned, twoRanksPlanned.prepareAll twoRanksPlannedBoxes) := by
  rfl

/-- Witness for C7 on rank 1 of two co-located ranks: in the calls of `realize()`, the
shared-host sender for rank 0 gets `start_prepare` with the four messages planned for rank 0,
then `finish_prepare`. -/
theorem realize_start_before_finish_witness :
    (twoRanksPlanned.prepareAll twoRanksPlannedBoxes).1.filter
        (fun c => decide (c.peer = Peer.colocatedSender 0 0))
      = [Call.start_prepare (Peer.colocatedSender 0 0) twoRanksToRank0,
         Call.finish_prepare (Peer.colocatedSender 0 0)] := by
  obtain ⟨out, hplan, _, hper⟩ := realize_start_before_finish twoRanks twoRanksPlanned
    (twoRanksPlanned.prepareAll twoRanksPlannedBoxes) twoRanks_realize
  have hout : out = twoRanksPlannedBoxes := by
    have h := twoRanks_planned.2.2.2.2.2
    rw [hplan] at h
    cases h
    rfl
  subst hout
  exact ((hper rfl rfl 0 0).1 (by decide))


/-- A quantity that every step of a loop raises by `c` is raised by `c` times the number of
steps. -/
theorem foldlM_count {σ α : Type} (μ : σ → Nat) (c : Nat) (f : σ → α → Except Fault σ)
    (hf : ∀ s a s', f s a = .ok s' → μ s' = μ s + c) :
    ∀ (l : List α) (s s' : σ), l.foldlM f s = .ok s' → μ s' = μ s + c * l.length := by
  intro l
  induction l with
  | nil =>
    intro s s' h
    cases h
    simp
  | cons a rest ih =>
    intro s s' h
    rw [List.foldlM_cons] at h
    obtain ⟨s1, h1, h2⟩ := bind_ok _ _ _ h
    rw [ih s1 s' h2, hf s a s1 h1, List.length_cons]
    ring

theorem planStep_outgoing (dd : DistributedDomain) (di : Nat) (out out' : Outboxes) (dir : Dim3)
    (h : dd.planStep di out dir = .ok out') : out'.outgoing = out.outgoing + 1 := by
  unfold DistributedDomain.planStep at h
  obtain ⟨out1, h1, h2⟩ := bind_ok _ _ _ h
  rw [(planRecv_lengths dd di dir out1 out' h2).2.2, (planSend_outgoing dd di dir out out1 h1).1]

/-- The planning pass of `realize()`, whenever it runs to its end, plans seven outgoing
messages for each local sub-domain: one for each direction of `loopDirs`. -/
theorem planMessages_outgoing (dd : DistributedDomain) (out out' : Outboxes)
    (h : dd.planMessages out = .ok out') :
    out'.outgoing = out.outgoing + 7 * dd.domains_.length := by
  unfold DistributedDomain.planMessages at h
  have hdirs : loopDirs.length = 7 := by decide
  have := foldlM_count Outboxes.outgoing 7 _ (fun s di s' hf => by
    have := foldlM_count Outboxes.outgoing 1 _
      (fun s dir s' hf => planStep_outgoing dd di s s' dir hf) loopDirs s s' hf
    rw [hdirs] at this
    omega) _ out out' h
  rw [List.length_range] at this
  exact this

/-! ## Direction maps and radii -/

/-- What `face_edge_corner(face, edge, corner)` builds, for every content `init` of the
uninitialised local: the entry of direction `(x, y, z)` is chosen by the number of components
other than `-1` (one: `face`, two: `edge`, three: `corner`), the entry of `(-1,-1,-1)` is
never written, and the centre holds 0. -/
theorem face_edge_corner_entries (init : Radius) (face edge corner : Nat) (x y z : Int)
    (hx : x = -1 ∨ x = 0 ∨ x = 1) (hy : y = -1 ∨ y = 0 ∨ y = 1) (hz : z = -1 ∨ z = 0 ∨ z = 1) :
    ∃ r, Radius.face_edge_corner init face edge corner = .ok r ∧
      r.dir x y z = .ok (
        if x = 0 ∧ y = 0 ∧ z = 0 then 0
        else if nonZeroCount (x + 1) (y + 1) (z + 1) = 0 then init.rads_.data_ 0 0 0
        else if nonZeroCount (x + 1) (y + 1) (z + 1) = 1 then face
        else if nonZeroCount (x + 1) (y + 1) (z + 1) = 2 then edge
        else corner) := by
  rcases hx with rfl | rfl | rfl <;> rcases hy with rfl | rfl | rfl <;>
    rcases hz with rfl | rfl | rfl <;> exact ⟨_, rfl, rfl⟩

/-- C11 (code bug): `face_edge_corner(1, 2, 3)` does not put the face radius on the six
axis-aligned unit directions. The setters use natural indices and take index 0 for the zero
component: direction `(1,0,0)` holds the corner radius 3, `(-1,0,0)` the edge radius 2,
the edge `(-1,-1,0)` the face radius 1, the corner `(-1,-1,-1)` is left as the uninitialised
memory had it. -/
theorem face_edge_corner_wrong_index :
    (Radius.face_edge_corner (Radius.filled 99) 1 2 3 >>= fun r => r.dir 1 0 0) = .ok 3 ∧
    (Radius.face_edge_corner (Radius.filled 99) 1 2 3 >>= fun r => r.dir (-1) 0 0) = .ok 2 ∧
    (Radius.face_edge_corner (Radius.filled 99) 1 2 3 >>= fun r => r.dir (-1) (-1) 0) = .ok 1 ∧
    (Radius.face_edge_corner (Radius.filled 99) 1 2 3 >>= fun r => r.dir (-1) (-1) (-1))
      = .ok 99 := by
  decide

/-- What `constant(r)` builds, for every content `init` of the uninitialised local: all 27
entries hold `r`, the centre too. -/
theorem constant_entries (init : Radius) (r : Nat) (x y z : Int)
    (hx : x = -1 ∨ x = 0 ∨ x = 1) (hy : y = -1 ∨ y = 0 ∨ y = 1) (hz : z = -1 ∨ z = 0 ∨ z = 1) :
    ∃ res, Radius.constant init r = .ok res ∧ res.dir x y z = .ok r := by
  rcases hx with rfl | rfl | rfl <;> rcases hy with rfl | rfl | rfl <;>
    rcases hz with rfl | rfl | rfl <;> exact ⟨_, rfl, rfl⟩

/-- C12 (code bug): `constant(r)` writes `r` to all 27 entries and never resets the centre:
after `constant(1)` the entry of direction `(0,0,0)` is 1, not 0. The 26 other directions do
hold `r`, here `(1,0,0)` and `(-1,1,1)`. -/
theorem constant_centre_not_zero :
    (Radius.constant (Radius.filled 0) 1 >>= fun r => r.dir 0 0 0) = .ok 1 ∧
    (Radius.constant (Radius.filled 0) 1 >>= fun r => r.dir 1 0 0) = .ok 1 ∧
    (Radius.constant (Radius.filled 0) 1 >>= fun r => r.dir (-1) 1 1) = .ok 1 := by
  decide

/-- C13: after `face_edge_corner(f, e, c)` the centre entry, direction `(0,0,0)`, is 0, for
all `f`, `e`, `c` and whatever the memory of the local held and the setters wrote before:
the construction succeeds and reading `dir(0,0,0)` gives 0. -/
theorem face_edge_corner_centre (init : Radius) (f e c : Nat) :
    ∃ r, Radius.face_edge_corner init f e c = .ok r ∧ r.dir 0 0 0 = .ok 0 ∧
      r.rads_.at 1 1 1 = .ok 0 :=
  ⟨_, rfl, rfl, rfl⟩

/-- The non-const signed accessor and the natural accessor designate the same entry:
`at_dir(x, y, z)` is `at(x + 1, y + 1, z + 1)`, the element `data_[z+1][y+1][x+1]`. -/
theorem at_dir_eq_at {T : Type} (m : DirectionMap T) (x y z : Int)
    (hx : x = -1 ∨ x = 0 ∨ x = 1) (hy : y = -1 ∨ y = 0 ∨ y = 1) (hz : z = -1 ∨ z = 0 ∨ z = 1) :
    m.at_dir x y z = m.at (x + 1) (y + 1) (z + 1) ∧
    m.at_dir x y z = .ok (m.data_ (Fin.ofNat (z + 1).toNat) (Fin.ofNat (y + 1).toNat)
      (Fin.ofNat (x + 1).toNat)) := by
  rcases hx with rfl | rfl | rfl <;> rcases hy with rfl | rfl | rfl <;>
    rcases hz with rfl | rfl | rfl <;> exact ⟨rfl, rfl⟩

/-- The const `at_dir` calls itself and nothing else: at no depth does it return. -/
theorem at_dir_const_none {T : Type} (m : DirectionMap T) (x y z : Int) (fuel : Nat) :
    m.at_dir_const x y z fuel = none := by
  induction fuel with
  | zero => rfl
  | succ n ih => exact ih

/-- C20 (code bug): on a read-only object signed indexing never returns. The const
`at_dir(x, y, z)` is `return at_dir(x, y, z);`, a call of itself: for every map, every
direction and every call depth the const `DirectionMap::at_dir`, the const `Radius::dir` and,
for `d` in `{-1,0,1}`, `Radius::x(d)`, `y(d)`, `z(d)` have not returned, while the non-const
`at_dir(0, 0, 0)` returns `data_[1][1][1]`. -/
theorem at_dir_const_never_returns :
    (∀ (m : DirectionMap Nat) (x y z : Int) (fuel : Nat), m.at_dir_const x y z fuel = none) ∧
    (∀ (r : Radius) (x y z : Int) (fuel : Nat), r.dir_const x y z fuel = none) ∧
    (∀ (r : Radius) (fuel : Nat), r.x (-1) fuel = none ∧ r.x 0 fuel = none ∧
      r.x 1 fuel = none ∧ r.y (-1) fuel = none ∧ r.y 0 fuel = none ∧ r.y 1 fuel = none ∧
      r.z (-1) fuel = none ∧ r.z 0 fuel = none ∧ r.z 1 fuel = none) ∧
    (∀ m : DirectionMap Nat, m.at_dir 0 0 0 = .ok (m.data_ 1 1 1)) := by
  refine ⟨fun m x y z fuel => at_dir_const_none m x y z fuel,
    fun r x y z fuel => at_dir_const_none _ x y z fuel, fun r fuel => ?_, fun m => rfl⟩
  simp [Radius.x, Radius.y, Radius.z, Radius.dir_const, at_dir_const_none]

/-! ## The bit layout of the tags -/

theorem MsgKind.toInt_inj (a b : MsgKind) (h : a.toInt = b.toInt) : a = b := by
  cases a <;> cases b <;> first | rfl | (exact absurd h (by decide))

/-- C14: the three-argument tag follows the documented layout. For a device slot below 256, a
field index below 65536 and a direction vector, the encoder returns
`idx + 2^16 * gpu + 2^24 * (c x + 4 * c y + 16 * c z)` with `c 0 = 0`, `c 1 = 1`, `c (-1) = 2`;
the field index is the tag modulo `2^16`, the device slot the next eight bits, and the
direction code the quotient by `2^24`. -/
theorem make_tag_layout (gpu idx : Nat) (dir : Dim3) (hg : gpu < 256) (hi : idx < 65536)
    (hd : IsDirection dir) :
    (dirCode 0 = 0 ∧ dirCode 1 = 1 ∧ dirCode (-1) = 2) ∧
    ∃ t : Int, make_tag gpu idx dir = some t ∧
      t = idx + 2 ^ 16 * gpu
            + 2 ^ 24 * (dirCode dir.x + 4 * dirCode dir.y + 16 * dirCode dir.z) ∧
      t % 2 ^ 16 = idx ∧ t / 2 ^ 16 % 2 ^ 8 = gpu ∧
      t / 2 ^ 24 = dirCode dir.x + 4 * dirCode dir.y + 16 * dirCode dir.z := by
  refine ⟨⟨rfl, rfl, rfl⟩, _, make_tag_eq gpu idx dir hg hi (dirAsserts_of_isDirection dir hd), ?_⟩
  rw [dirBitsOf_eq dir (dirAsserts_of_isDirection dir hd)]
  have hx := dirCode_range dir.x
  have hy := dirCode_range dir.y
  have hz := dirCode_range dir.z
  norm_num
  refine ⟨?_, ?_, ?_⟩ <;> omega

theorem make_tag_layout_witness :
    (3 < 256 ∧ 7 < 65536 ∧ IsDirection ⟨1, -1, 0⟩) ∧
    make_tag 3 7 ⟨1, -1, 0⟩ = some 151191559 ∧
    (dirCode 0 = 0 ∧ dirCode 1 = 1 ∧ dirCode (-1) = 2) ∧
    ∃ t : Int, make_tag ((3 : Nat) : Int) ((7 : Nat) : Int) ⟨1, -1, 0⟩ = some t ∧
      t = (7 : Nat) + 2 ^ 16 * (3 : Nat)
            + 2 ^ 24 * (dirCode (1 : Int) + 4 * dirCode (-1) + 16 * dirCode 0) ∧
      t % 2 ^ 16 = (7 : Nat) ∧ t / 2 ^ 16 % 2 ^ 8 = (3 : Nat) ∧
      t / 2 ^ 24 = dirCode (1 : Int) + 4 * dirCode (-1) + 16 * dirCode 0 :=
  ⟨by decide, by decide, make_tag_layout 3 7 ⟨1, -1, 0⟩ (by decide) (by decide) (by decide)⟩

/-- C15, counterexample: the kind-tagged encoder rejects the payload of device slot 32 and
field index 0, which lies within the documented 24 low bits. -/
theorem make_tag_kind_rejects_slot_32 :
    make_tag_kind MsgKind.ColocatedEvt (0 + 2 ^ 16 * 32) ⟨0, 0, 0⟩ = none ∧
    make_tag_kind MsgKind.Other (65535 + 2 ^ 16 * 255) ⟨1, 1, 1⟩ = none ∧
    make_tag_kind MsgKind.ColocatedEvt (65535 + 2 ^ 16 * 31) ⟨0, 0, 0⟩ = some 2097151 := by
  decide

/-- C15, amended: the kind-tagged encoder is collision-free over the payloads it accepts. With
the payload `idx + 2^16 * gpu` for a device slot below 32 and a field index below 65536, every
tuple of a kind, a direction vector, a device slot and a field index is accepted, and two
tuples with the same tag are the same tuple. -/
theorem make_tag_kind_injective (k k' : MsgKind) (gpu idx gpu' idx' : Nat) (dir dir' : Dim3)
    (hg : gpu < 32) (hi : idx < 65536) (hg' : gpu' < 32) (hi' : idx' < 65536)
    (hd : IsDirection dir) (hd' : IsDirection dir') :
    ∃ t t' : Int, make_tag_kind k ((idx : Int) + 2 ^ 16 * gpu) dir = some t ∧
      make_tag_kind k' ((idx' : Int) + 2 ^ 16 * gpu') dir' = some t' ∧ 0 ≤ t ∧ 0 ≤ t' ∧
      (t = t' → k = k' ∧ dir = dir' ∧ gpu = gpu' ∧ idx = idx') := by
  have e : ∀ i g : Nat, ((i : Int) + 2 ^ 16 * g) = ((i + 65536 * g : Nat) : Int) := by
    intro i g
    push_cast
    norm_num
  have a := make_tag_kind_eq k (idx + 65536 * gpu) dir (by omega)
    (dirAsserts_of_isDirection dir hd)
  have a' := make_tag_kind_eq k' (idx' + 65536 * gpu') dir' (by omega)
    (dirAsserts_of_isDirection dir' hd')
  obtain ⟨n, hn, hk⟩ := MsgKind.toInt_nat k
  obtain ⟨n', hn', hk'⟩ := MsgKind.toInt_nat k'
  have r := dirBitsOf_range dir hd
  have r' := dirBitsOf_range dir' hd'
  rw [e idx gpu, e idx' gpu']
  refine ⟨_, _, a, a', ?_, ?_, ?_⟩
  · rw [hk]; omega
  · rw [hk']; omega
  · intro h
    rw [hk, hk'] at h
    have h1 : dirBitsOf dir = dirBitsOf dir' := by omega
    have h2 : n = n' := by omega
    have h3 : idx + 65536 * gpu = idx' + 65536 * gpu' := by omega
    refine ⟨MsgKind.toInt_inj k k' (by rw [hk, hk', h2]), dirBitsOf_inj dir dir' hd hd' h1, ?_, ?_⟩
      <;> omega

theorem make_tag_kind_injective_witness :
    (31 < 32 ∧ 65535 < 65536 ∧ IsDirection ⟨-1, -1, -1⟩ ∧ IsDirection ⟨0, 1, 0⟩) ∧
    make_tag_kind MsgKind.Other (65535 + 2 ^ 16 * 31) ⟨-1, -1, -1⟩ = some 1965031423 ∧
    ∃ t t' : Int,
      make_tag_kind MsgKind.Other (((65535 : Nat) : Int) + 2 ^ 16 * (31 : Nat)) ⟨-1, -1, -1⟩
        = some t ∧
      make_tag_kind MsgKind.ColocatedMem (((65535 : Nat) : Int) + 2 ^ 16 * (31 : Nat)) ⟨0, 1, 0⟩
        = some t' ∧ 0 ≤ t ∧ 0 ≤ t' ∧
      (t = t' → MsgKind.Other = MsgKind.ColocatedMem ∧ (⟨-1, -1, -1⟩ : Dim3) = ⟨0, 1, 0⟩ ∧
        31 = 31 ∧ 65535 = 65535) :=
  ⟨by decide, by decide,
    make_tag_kind_injective MsgKind.Other MsgKind.ColocatedMem 31 65535 31 65535 ⟨-1, -1, -1⟩
      ⟨0, 1, 0⟩ (by decide) (by decide) (by decide) (by decide) (by decide) (by decide)⟩

/-- C16: the encoders do not reject a negative device slot or field index. Only the upper
bounds are asserted, so `make_tag(-1, 7, (0,0,0))` returns the tag of device slot 255, and
`make_tag(3, -1, (0,0,0))` the tag of field index 65535; the two-argument form returns the tag
of device slot 255 for device slot -1. A slot of 256, an index of 65536 and a direction
component of 2 are rejected. -/
theorem make_tag_accepts_negative :
    (make_tag (-1) 7 ⟨0, 0, 0⟩ = some 16711687 ∧
      make_tag (-1) 7 ⟨0, 0, 0⟩ = make_tag 255 7 ⟨0, 0, 0⟩) ∧
    (make_tag 3 (-1) ⟨0, 0, 0⟩ = some 262143 ∧
      make_tag 3 (-1) ⟨0, 0, 0⟩ = make_tag 3 65535 ⟨0, 0, 0⟩) ∧
    (make_tag_dir (-1) ⟨0, 0, 0⟩ = some 255 ∧
      make_tag_dir (-1) ⟨0, 0, 0⟩ = make_tag_dir 255 ⟨0, 0, 0⟩) ∧
    (make_tag 256 7 ⟨0, 0, 0⟩ = none ∧ make_tag 3 65536 ⟨0, 0, 0⟩ = none ∧
      make_tag 3 7 ⟨2, 0, 0⟩ = none ∧ make_tag 3 7 ⟨0, -2, 0⟩ = none ∧
      make_tag_dir 256 ⟨0, 0, 0⟩ = none ∧ make_tag_dir 3 ⟨0, 0, 2⟩ = none) := by
  decide

/-! ## Registering data fields -/

theorem add_data_all_spec (sizes : List Nat) : ∀ dd : DistributedDomain,
    (dd.add_data_all sizes).1.dataElemSize_ = dd.dataElemSize_ ++ sizes ∧
    (dd.add_data_all sizes).2.map DataHandle.id_
      = List.range' dd.dataElemSize_.length sizes.length := by
  induction sizes with
  | nil =>
    intro dd
    simp [DistributedDomain.add_data_all]
  | cons sz rest ih =>
    intro dd
    obtain ⟨h1, h2⟩ := ih (dd.add_data sz).1
    simp only [DistributedDomain.add_data_all, List.map_cons, List.length_cons, List.range'_succ]
    rw [h1, h2]
    simp [DistributedDomain.add_data]

/-- C18: `add_data` returns the insertion index. On an engine with `n` registered fields the
call returns the handle with id `n`, the element-size list becomes the old list followed by
`sizeof(T)`, so entry `n` is `sizeof(T)` and the entries below `n` are unchanged; a run of
calls on an engine without fields returns the handles `0, 1, 2, ...` in order, and on an
engine with `n` fields the handles `n, n + 1, ...`. -/
theorem add_data_returns_index (dd : DistributedDomain) (sizeofT : Nat) (sizes : List Nat) :
    (dd.add_data sizeofT).2.id_ = dd.dataElemSize_.length ∧
    (dd.add_data sizeofT).1.dataElemSize_ = dd.dataElemSize_ ++ [sizeofT] ∧
    (dd.add_data sizeofT).1.dataElemSize_[dd.dataElemSize_.length]? = some sizeofT ∧
    (∀ i, i < dd.dataElemSize_.length →
      (dd.add_data sizeofT).1.dataElemSize_[i]? = dd.dataElemSize_[i]?) ∧
    (dd.add_data_all sizes).2.map DataHandle.id_
      = List.range' dd.dataElemSize_.length sizes.length ∧
    (dd.dataElemSize_ = [] →
      (dd.add_data_all sizes).2.map DataHandle.id_ = List.range sizes.length) ∧
    (dd.add_data_all sizes).1.dataElemSize_ = dd.dataElemSize_ ++ sizes := by
  refine ⟨?_, rfl, ?_, ?_, (add_data_all_spec sizes dd).2, ?_, (add_data_all_spec sizes dd).1⟩
  · simp [DistributedDomain.add_data]
  · simp [DistributedDomain.add_data]
  · intro i hi
    simp only [DistributedDomain.add_data]
    exact List.getElem?_append_left hi
  · intro h
    rw [(add_data_all_spec sizes dd).2, h, List.range_eq_range']
    rfl

theorem add_data_returns_index_witness :
    (oneRank.add_data 4).2.id_ = 0 ∧ ((oneRank.add_data 4).1.add_data 8).2.id_ = 1 ∧
    ((oneRank.add_data 4).1.add_data 8).1.dataElemSize_ = [4, 8] ∧
    (oneRank.add_data_all [4, 8, 2]).2 = [⟨0⟩, ⟨1⟩, ⟨2⟩] ∧
    (oneRank.add_data_all [4, 8, 2]).2.map DataHandle.id_ = List.range 3 :=
  ⟨by decide, by decide, by decide, by decide,
    (add_data_returns_index oneRank 4 [4, 8, 2]).2.2.2.2.2.1 rfl⟩

/-! ## Repeated `realize()` -/

/-- The local domains, their indices and the devices of an engine state: what the creation
passes leave alone. -/
theorem createRemoteStep_domains (di : Nat) (st st' : DistributedDomain × Outboxes) (dir : Dim3)
    (h : DistributedDomain.createRemoteStep di st dir = .ok st') :
    st'.1.domains_ = st.1.domains_ ∧ st'.1.domainIdx_ = st.1.domainIdx_ ∧
    st'.1.gpus_ = st.1.gpus_ := by
  obtain ⟨dd, out⟩ := st
  unfold DistributedDomain.createRemoteStep at h
  simp only at h
  have tail : ∀ (h : (do
        let y ← (pure (dd, out) : Except Fault (DistributedDomain × Outboxes))
        if y.1.rank_ ≠ (dd.neighbours di dir).dstRank then do
          let senders' ← setAt Dim3.lt y.1.remoteSenders_ di (dd.neighbours di dir).dstIdx
            ⟨(dd.neighbours di dir).srcRank, (dd.neighbours di dir).srcGPU, y.1.rank_, di⟩
          let outboxes' ← setAt Dim3.lt y.2.remoteOutboxes di (dd.neighbours di dir).dstIdx []
          pure ({ y.1 with remoteSenders_ := senders' }, { y.2 with remoteOutboxes := outboxes' })
        else pure (y.1, y.2)) = Except.ok st'),
      st'.1.domains_ = dd.domains_ ∧ st'.1.domainIdx_ = dd.domainIdx_ ∧
      st'.1.gpus_ = dd.gpus_ := by
    intro h
    obtain ⟨y, hy, h⟩ := bind_ok _ _ _ h
    cases hy
    split at h
    · obtain ⟨s', hs, h⟩ := bind_ok _ _ _ h
      obtain ⟨o', ho, h⟩ := bind_ok _ _ _ h
      cases h
      exact ⟨rfl, rfl, rfl⟩
    · cases h
      exact ⟨rfl, rfl, rfl⟩
  split at h
  · obtain ⟨recvers, hrv, h⟩ := bind_ok _ _ _ h
    split at h
    · obtain ⟨r', hr, h⟩ := bind_ok _ _ _ h
      obtain ⟨i', hi, h⟩ := bind_ok _ _ _ h
      obtain ⟨y, hy, h⟩ := bind_ok _ _ _ h
      cases hy
      split at h
      · obtain ⟨s', hs, h⟩ := bind_ok _ _ _ h
        obtain ⟨o', ho, h⟩ := bind_ok _ _ _ h
        cases h
        exact ⟨rfl, rfl, rfl⟩
      · cases h
        exact ⟨rfl, rfl, rfl⟩
    · exact tail h
  · exact tail h

theorem createColocatedStep_domains (di : Nat) (st st' : DistributedDomain × Outboxes)
    (dir : Dim3) (h : DistributedDomain.createColocatedStep di st dir = .ok st') :
    st'.1.domains_ = st.1.domains_ ∧ st'.1.domainIdx_ = st.1.domainIdx_ ∧
    st'.1.gpus_ = st.1.gpus_ := by
  obtain ⟨dd, out⟩ := st
  unfold DistributedDomain.createColocatedStep at h
  simp only at h
  split at h
  · obtain ⟨r', hr, h⟩ := bind_ok _ _ _ h
    obtain ⟨i', hi, h⟩ := bind_ok _ _ _ h
    obtain ⟨y, hy, h⟩ := bind_ok _ _ _ h
    cases hy
    split at h
    · obtain ⟨s', hs, h⟩ := bind_ok _ _ _ h
      obtain ⟨o', ho, h⟩ := bind_ok _ _ _ h
      cases h
      exact ⟨rfl, rfl, rfl⟩
    · cases h
      exact ⟨rfl, rfl, rfl⟩
  · obtain ⟨y, hy, h⟩ := bind_ok _ _ _ h
    cases hy
    split at h
    · obtain ⟨s', hs, h⟩ := bind_ok _ _ _ h
      obtain ⟨o', ho, h⟩ := bind_ok _ _ _ h
      cases h
      exact ⟨rfl, rfl, rfl⟩
    · cases h
      exact ⟨rfl, rfl, rfl⟩

/-- The three members of an engine state agree with given values. -/
theorem domains_kept_trans {a b : DistributedDomain} {D : List LocalDomain} {I : List Dim3}
    {G : List Int}
    (h : b.domains_ = a.domains_ ∧ b.domainIdx_ = a.domainIdx_ ∧ b.gpus_ = a.gpus_)
    (ha : a.domains_ = D ∧ a.domainIdx_ = I ∧ a.gpus_ = G) :
    b.domains_ = D ∧ b.domainIdx_ = I ∧ b.gpus_ = G :=
  ⟨h.1.trans ha.1, h.2.1.trans ha.2.1, h.2.2.trans ha.2.2⟩

theorem createRemote_domains (st st' : DistributedDomain × Outboxes)
    (h : DistributedDomain.createRemote st = .ok st') :
    st'.1.domains_ = st.1.domains_ ∧ st'.1.domainIdx_ = st.1.domainIdx_ ∧
    st'.1.gpus_ = st.1.gpus_ := by
  obtain ⟨dd, out⟩ := st
  unfold DistributedDomain.createRemote at h
  simp only at h
  split at h
  · refine foldlM_inv (fun s : DistributedDomain × Outboxes => s.1.domains_ = dd.domains_ ∧
        s.1.domainIdx_ = dd.domainIdx_ ∧ s.1.gpus_ = dd.gpus_) _ (fun s di s' hs hf =>
      foldlM_inv (fun s : DistributedDomain × Outboxes => s.1.domains_ = dd.domains_ ∧
        s.1.domainIdx_ = dd.domainIdx_ ∧ s.1.gpus_ = dd.gpus_) _
        (fun s dir s' hs hf => domains_kept_trans (createRemoteStep_domains di s s' dir hf) hs)
        loopDirs s s' hs hf) _ _ st' ?_ h
    exact ⟨rfl, rfl, rfl⟩
  · cases h
    exact ⟨rfl, rfl, rfl⟩

theorem createColocated_domains (st st' : DistributedDomain × Outboxes)
    (h : DistributedDomain.createColocated st = .ok st') :
    st'.1.domains_ = st.1.domains_ ∧ st'.1.domainIdx_ = st.1.domainIdx_ ∧
    st'.1.gpus_ = st.1.gpus_ := by
  obtain ⟨dd, out⟩ := st
  unfold DistributedDomain.createColocated at h
  simp only at h
  split at h
  · refine foldlM_inv (fun s : DistributedDomain × Outboxes => s.1.domains_ = dd.domains_ ∧
        s.1.domainIdx_ = dd.domainIdx_ ∧ s.1.gpus_ = dd.gpus_) _ (fun s di s' hs hf =>
      foldlM_inv (fun s : DistributedDomain × Outboxes => s.1.domains_ = dd.domains_ ∧
        s.1.domainIdx_ = dd.domainIdx_ ∧ s.1.gpus_ = dd.gpus_) _
        (fun s dir s' hs hf => domains_kept_trans (createColocatedStep_domains di s s' dir hf) hs)
        loopDirs s s' hs hf) _ _ st' ?_ h
    exact ⟨rfl, rfl, rfl⟩
  · cases h
    exact ⟨rfl, rfl, rfl⟩

/-- A quantity that every step of a pure loop raises by one is raised by the number of
steps. -/
theorem foldl_count {σ α : Type} (μ : σ → Nat) (f : σ → α → σ)
    (hf : ∀ s a, μ (f s a) = μ s + 1) :
    ∀ (l : List α) (s : σ), μ (l.foldl f s) = μ s + l.length := by
  intro l
  induction l with
  | nil => exact fun s => rfl
  | cons a rest ih =>
    intro s
    rw [List.foldl_cons, ih (f s a), hf s a, List.length_cons]
    omega

/-- The first loop of `realize()` pushes one local domain and one index per device, after
those already there. -/
theorem createLocalDomains_lengths (dd : DistributedDomain) :
    dd.createLocalDomains.domains_.length = dd.domains_.length + dd.gpus_.length ∧
    dd.createLocalDomains.domainIdx_.length = dd.domainIdx_.length + dd.gpus_.length ∧
    dd.createLocalDomains.gpus_ = dd.gpus_ ∧
    dd.domainIdx_ <+: dd.createLocalDomains.domainIdx_ := by
  unfold DistributedDomain.createLocalDomains
  simp only [List.length_map]
  refine ⟨?_, ?_, ?_, ?_⟩
  · rw [foldl_count (fun s : DistributedDomain => s.domains_.length) _ ?_ _ dd,
      List.length_range]
    intro s a
    simp only [List.length_append, List.length_singleton]
  · rw [foldl_count (fun s : DistributedDomain => s.domainIdx_.length) _ ?_ _ dd,
      List.length_range]
    intro s a
    simp only [List.length_append, List.length_singleton]
  · refine foldl_inv (fun s : DistributedDomain => s.gpus_ = dd.gpus_) _ ?_ _ dd rfl
    intro s a hs
    exact hs
  · refine foldl_inv (fun s : DistributedDomain => dd.domainIdx_ <+: s.domainIdx_) _ ?_ _ dd
      (List.prefix_refl _)
    intro s a hs
    exact hs.trans (List.prefix_append _ _)

theorem realizePlan_domains (dd dd' : DistributedDomain) (out : Outboxes)
    (h : dd.realizePlan = .ok (dd', out)) :
    dd'.domains_ = dd.createLocalDomains.domains_ ∧
    dd'.domainIdx_ = dd.createLocalDomains.domainIdx_ ∧
    dd'.gpus_ = dd.createLocalDomains.gpus_ := by
  unfold DistributedDomain.realizePlan at h
  simp only at h
  obtain ⟨⟨dd1, out1⟩, h1, h⟩ := bind_ok _ _ _ h
  obtain ⟨⟨dd2, out2⟩, h2, h⟩ := bind_ok _ _ _ h
  obtain ⟨out3, h3, h⟩ := bind_ok _ _ _ h
  cases h
  exact domains_kept_trans (createColocated_domains _ _ h2) (createRemote_domains _ _ h1)

/-- C17, counterexample: on the engine of a single rank with one device, `realize()` returns
with one local domain, and a second `realize()` returns with two local domains and two
indices: the second call has changed the engine. -/
theorem realize_twice_doubles :
    (∃ tr, oneRank.realize = .ok (oneRankAfter 1, tr)) ∧
    (∃ tr, (oneRankAfter 1).realize = .ok (oneRankAfter 2, tr)) ∧
    (oneRankAfter 1).domains_ = [oneRankDomain] ∧
    (oneRankAfter 2).domains_ = [oneRankDomain, oneRankDomain] ∧
    (oneRankAfter 1).domainIdx_ = [⟨0, 0, 0⟩] ∧
    (oneRankAfter 2).domainIdx_ = [⟨0, 0, 0⟩, ⟨0, 0, 0⟩] :=
  ⟨⟨_, rfl⟩, ⟨_, rfl⟩, rfl, rfl, rfl, rfl⟩

/-- C17, amended: `realize()` has no guard against a second call. Every call that returns,
the first as any later one, has pushed one local domain and one index per device: the lengths
of `domains_` and of `domainIdx_` grow by the number of devices, the indices that were there
stay in front, and the devices are unchanged, so the next call pushes as many again. -/
theorem realize_appends_domains (dd dd' : DistributedDomain) (tr : Trace)
    (h : dd.realize = .ok (dd', tr)) :
    dd'.domains_.length = dd.domains_.length + dd.gpus_.length ∧
    dd'.domainIdx_.length = dd.domainIdx_.length + dd.gpus_.length ∧
    dd.domainIdx_ <+: dd'.domainIdx_ ∧ dd'.gpus_ = dd.gpus_ := by
  unfold DistributedDomain.realize at h
  obtain ⟨⟨dd1, out1⟩, h1, h⟩ := bind_ok _ _ _ h
  obtain ⟨e1, e2, e3⟩ := realizePlan_domains dd dd1 out1 h1
  cases h
  obtain ⟨l1, l2, l3, l4⟩ := createLocalDomains_lengths dd
  rw [e1, e2, e3]
  exact ⟨l1, l2, l4, l3⟩

/-- The second `realize()` of the single-rank engine returns, with the engine `oneRankAfter 2`. -/
theorem oneRank_second_realize :
    ∃ tr, (oneRankAfter 1).realize = .ok (oneRankAfter 2, tr) :=
  ⟨_, rfl⟩

/-- On rank 1 of two ranks a second `realize()` does not reach its end: with two local
domains and the sender vectors resized to one map, the creation pass indexes
`remoteRecvers_[1]`. -/
theorem twoRanks_second_realize :
    twoRanksPlanned.realize.map (fun _ => ()) = .error Fault.outOfRange := by
  decide

theorem realize_appends_domains_witness :
    (oneRankAfter 1).domains_.length = 1 ∧ (oneRankAfter 1).gpus_.length = 1 ∧
    (oneRankAfter 2).domains_.length = 1 + 1 ∧ (oneRankAfter 2).domainIdx_.length = 1 + 1 :=
  oneRank_second_realize.elim fun tr h =>
    ⟨rfl, rfl, (realize_appends_domains (oneRankAfter 1) (oneRankAfter 2) tr h).1,
      (realize_appends_domains (oneRankAfter 1) (oneRankAfter 2) tr h).2.1⟩

/-! ## The poll loop of `exchange()` -/

theorem getElem?_set_same {α : Type} (l : List α) (i : Nat) (v : α) (hi : i < l.length) :
    (l.set i v)[i]? = some v := by
  simp [List.getElem?_set, hi]

theorem getElem?_set_other {α : Type} (l : List α) (i j : Nat) (v : α) (hij : i ≠ j) :
    (l.set i v)[j]? = l[j]? := by
  simp [List.getElem?_set, hij]

theorem getD_is_h2h (l : List RemoteRecver) (i : Nat)
    (h : (l.getD i ⟨RecverState.IDLE⟩).is_h2h = true) :
    i < l.length ∧ l[i]? = some (l.getD i ⟨RecverState.IDLE⟩) := by
  by_cases hi : i < l.length
  · exact ⟨hi, by simp [List.getD, List.getElem?_eq_getElem hi]⟩
  · rw [List.getD_eq_default _ _ (by omega)] at h
    exact absurd h (by decide)

theorem getD_is_d2h (l : List RemoteSender) (i : Nat)
    (h : (l.getD i ⟨SenderState.IDLE⟩).is_d2h = true) :
    i < l.length ∧ l[i]? = some (l.getD i ⟨SenderState.IDLE⟩) := by
  by_cases hi : i < l.length
  · exact ⟨hi, by simp [List.getD, List.getElem?_eq_getElem hi]⟩
  · rw [List.getD_eq_default _ _ (by omega)] at h
    exact absurd h (by decide)

/-- Advancing receiver `i` keeps the invariant, when receiver `i` is in the host-to-host stage
and the query `q` answered that the stage has finished. -/
theorem PollInv.recv_h2d {done : Nat → Bool} {s : PollState} (h : PollInv done s) (i q : Nat)
    (p : Bool) (hs : (s.remoteRecvers_.getD i ⟨RecverState.IDLE⟩).is_h2h = true)
    (hq : done q = true) :
    PollInv done
      { remoteRecvers_ := s.remoteRecvers_.set i
          (s.remoteRecvers_.getD i ⟨RecverState.IDLE⟩).recv_h2d,
        remoteSenders_ := s.remoteSenders_, pending := p, queries := q + 1,
        calls := s.calls ++ [PollCall.recv_h2d i (s.remoteRecvers_.getD i ⟨RecverState.IDLE⟩) q] }
    := by
  obtain ⟨hi, hget⟩ := getD_is_h2h _ _ hs
  obtain ⟨hc, hn⟩ := h
  refine ⟨?_, ?_⟩
  · intro c hcm
    simp only [List.mem_append, List.mem_singleton] at hcm
    rcases hcm with hcm | hcm
    · obtain ⟨hj, hset⟩ := hc c hcm
      refine ⟨hj, ?_⟩
      cases c with
      | recv_h2d j r t =>
        obtain ⟨r0, hr0, hr1⟩ := hset
        simp only [PollCall.settled] at hr0 ⊢
        by_cases hij : i = j
        · subst hij
          exact ⟨_, getElem?_set_same _ _ _ hi, rfl⟩
        · exact ⟨r0, (getElem?_set_other _ _ _ _ hij).trans hr0, hr1⟩
      | send_h2h j x t => exact hset
    · subst hcm
      refine ⟨by rw [PollCall.justified, hs, hq]; rfl, ?_⟩
      exact ⟨_, getElem?_set_same _ _ _ hi, rfl⟩
  · simp only [List.map_append, List.map_cons, List.map_nil, PollCall.target]
    refine List.Nodup.append hn (List.nodup_singleton _) ?_
    rw [List.disjoint_singleton]
    intro hmem
    obtain ⟨c, hcm, hct⟩ := List.mem_map.mp hmem
    obtain ⟨_, hset⟩ := hc c hcm
    cases c with
    | recv_h2d j r t =>
      simp only [PollCall.target, Sum.inl.injEq] at hct
      subst hct
      obtain ⟨r0, hr0, hr1⟩ := hset
      rw [hget] at hr0
      cases hr0
      rw [hs] at hr1
      cases hr1
    | send_h2h j x t => cases hct

/-- Advancing sender `i` keeps the invariant, when sender `i` is in the device-to-host stage
and the query `q` answered that the stage has finished. -/
theorem PollInv.send_h2h {done : Nat → Bool} {s : PollState} (h : PollInv done s) (i q : Nat)
    (p : Bool) (hs : (s.remoteSenders_.getD i ⟨SenderState.IDLE⟩).is_d2h = true)
    (hq : done q = true) :
    PollInv done
      { remoteRecvers_ := s.remoteRecvers_,
        remoteSenders_ := s.remoteSenders_.set i
          (s.remoteSenders_.getD i ⟨SenderState.IDLE⟩).send_h2h,
        pending := p, queries := q + 1,
        calls := s.calls ++ [PollCall.send_h2h i (s.remoteSenders_.getD i ⟨SenderState.IDLE⟩) q] }
    := by
  obtain ⟨hi, hget⟩ := getD_is_d2h _ _ hs
  obtain ⟨hc, hn⟩ := h
  refine ⟨?_, ?_⟩
  · intro c hcm
    simp only [List.mem_append, List.mem_singleton] at hcm
    rcases hcm with hcm | hcm
    · obtain ⟨hj, hset⟩ := hc c hcm
      refine ⟨hj, ?_⟩
      cases c with
      | recv_h2d j r t => exact hset
      | send_h2h j x t =>
        obtain ⟨r0, hr0, hr1⟩ := hset
        simp only [PollCall.settled] at hr0 ⊢
        by_cases hij : i = j
        · subst hij
          exact ⟨_, getElem?_set_same _ _ _ hi, rfl⟩
        · exact ⟨r0, (getElem?_set_other _ _ _ _ hij).trans hr0, hr1⟩
    · subst hcm
      refine ⟨by rw [PollCall.justified, hs, hq]; rfl, ?_⟩
      exact ⟨_, getElem?_set_same _ _ _ hi, rfl⟩
  · simp only [List.map_append, List.map_cons, List.map_nil, PollCall.target]
    refine List.Nodup.append hn (List.nodup_singleton _) ?_
    rw [List.disjoint_singleton]
    intro hmem
    obtain ⟨c, hcm, hct⟩ := List.mem_map.mp hmem
    obtain ⟨_, hset⟩ := hc c hcm
    cases c with
    | recv_h2d j r t => cases hct
    | send_h2h j x t =>
      simp only [PollCall.target, Sum.inr.injEq] at hct
      subst hct
      obtain ⟨r0, hr0, hr1⟩ := hset
      rw [hget] at hr0
      cases hr0
      rw [hs] at hr1
      cases hr1

/-- The invariant does not mention `pending` or the number of queries. -/
theorem PollInv.frame {done : Nat → Bool} {s : PollState} (h : PollInv done s) (p : Bool)
    (q : Nat) : PollInv done { s with pending := p, queries := q } := h

theorem recversLoop_inv (done : Nat → Bool) :
    ∀ (l : List Nat) (s : PollState), PollInv done s → PollInv done (recversLoop done l s).1 := by
  intro l
  induction l with
  | nil => exact fun s h => h
  | cons i rest ih =>
    intro s h
    unfold recversLoop
    simp only
    split
    · rename_i hs
      split
      · rename_i hq
        exact h.recv_h2d i s.queries true hs hq
      · exact ih _ (h.frame true (s.queries + 1))
    · exact ih s h

theorem sendersLoop_inv (done : Nat → Bool) :
    ∀ (l : List Nat) (s : PollState), PollInv done s → PollInv done (sendersLoop done l s).1 := by
  intro l
  induction l with
  | nil => exact fun s h => h
  | cons i rest ih =>
    intro s h
    unfold sendersLoop
    simp only
    split
    · rename_i hs
      split
      · rename_i hq
        exact h.send_h2h i s.queries true hs hq
      · exact ih _ (h.frame true (s.queries + 1))
    · exact ih s h

theorem pollFrom_inv (done : Nat → Bool) :
    ∀ (fuel : Nat) (s : PollState), PollInv done s → PollInv done (pollFrom done fuel s).1 := by
  intro fuel
  induction fuel with
  | zero => exact fun s h => h
  | succ fuel ih =>
    intro s h
    unfold pollFrom
    simp only
    have h1 := recversLoop_inv done (List.range s.remoteRecvers_.length) s h
    have h2 := sendersLoop_inv done
      (List.range (recversLoop done (List.range s.remoteRecvers_.length) s).1.remoteSenders_.length)
      _ h1
    split
    · exact ih _ h2
    · split
      · exact ih _ (h2.frame false _)
      · exact h2

/-- Once `pending` is set, the loops under `recvers:` leave it set. -/
theorem recversLoop_pending (done : Nat → Bool) :
    ∀ (l : List Nat) (s : PollState), s.pending = true →
      (recversLoop done l s).1.pending = true := by
  intro l
  induction l with
  | nil => exact fun s h => h
  | cons i rest ih =>
    intro s h
    unfold recversLoop
    simp only
    split
    · split
      · rfl
      · exact ih _ rfl
    · exact ih s h

theorem sendersLoop_pending (done : Nat → Bool) :
    ∀ (l : List Nat) (s : PollState), s.pending = true →
      (sendersLoop done l s).1.pending = true := by
  intro l
  induction l with
  | nil => exact fun s h => h
  | cons i rest ih =>
    intro s h
    unfold sendersLoop
    simp only
    split
    · split
      · rfl
      · exact ih _ rfl
    · exact ih s h

/-- When the loops under `recvers:` end with `pending` unset, they have changed nothing and
none of the receivers they visited is in the host-to-host stage. -/
theorem recversLoop_quiet (done : Nat → Bool) :
    ∀ (l : List Nat) (s : PollState), (recversLoop done l s).1.pending = false →
      recversLoop done l s = (s, false) ∧
      ∀ i ∈ l, (s.remoteRecvers_.getD i ⟨RecverState.IDLE⟩).is_h2h = false := by
  intro l
  induction l with
  | nil => exact fun s _ => ⟨rfl, fun i hi => absurd hi (List.not_mem_nil i)⟩
  | cons i rest ih =>
    intro s h
    unfold recversLoop at h ⊢
    simp only at h ⊢
    split at h
    · split at h
      · cases h
      · rw [recversLoop_pending done rest _ rfl] at h
        cases h
    · rename_i hs
      rw [if_neg hs]
      obtain ⟨e, hall⟩ := ih s h
      refine ⟨e, ?_⟩
      intro j hj
      rcases List.mem_cons.mp hj with hj | hj
      · subst hj
        exact Bool.eq_false_iff.mpr hs
      · exact hall j hj

theorem sendersLoop_quiet (done : Nat → Bool) :
    ∀ (l : List Nat) (s : PollState), (sendersLoop done l s).1.pending = false →
      sendersLoop done l s = (s, false) ∧
      ∀ i ∈ l, (s.remoteSenders_.getD i ⟨SenderState.IDLE⟩).is_d2h = false := by
  intro l
  induction l with
  | nil => exact fun s _ => ⟨rfl, fun i hi => absurd hi (List.not_mem_nil i)⟩
  | cons i rest ih =>
    intro s h
    unfold sendersLoop at h ⊢
    simp only at h ⊢
    split at h
    · split at h
      · cases h
      · rw [sendersLoop_pending done rest _ rfl] at h
        cases h
    · rename_i hs
      rw [if_neg hs]
      obtain ⟨e, hall⟩ := ih s h
      refine ⟨e, ?_⟩
      intro j hj
      rcases List.mem_cons.mp hj with hj | hj
      · subst hj
        exact Bool.eq_false_iff.mpr hs
      · exact hall j hj

theorem getD_of_mem {α : Type} (l : List α) (d : α) (P : α → Prop)
    (h : ∀ i ∈ List.range l.length, P (l.getD i d)) : ∀ x ∈ l, P x := by
  intro x hx
  obtain ⟨i, hi, rfl⟩ := List.getElem_of_mem hx
  have := h i (List.mem_range.mpr hi)
  rwa [List.getD_eq_getElem _ _ hi] at this

/-- When the poll loop is left, no sender is in the device-to-host stage and no receiver in
the host-to-host stage. -/
theorem pollFrom_exit (done : Nat → Bool) :
    ∀ (fuel : Nat) (s s' : PollState), pollFrom done fuel s = (s', true) →
      (∀ x ∈ s'.remoteSenders_, x.is_d2h = false) ∧
      (∀ r ∈ s'.remoteRecvers_, r.is_h2h = false) ∧ s'.pending = false := by
  intro fuel
  induction fuel with
  | zero =>
    intro s s' h
    cases h
  | succ fuel ih =>
    intro s s' h
    unfold pollFrom at h
    simp only at h
    split at h
    · exact ih _ s' h
    · split at h
      · exact ih _ s' h
      · rename_i hj hp
        have hp' := Bool.eq_false_iff.mpr hp
        obtain ⟨e2, q2⟩ := sendersLoop_quiet done _ _ hp'
        rw [e2] at h hp'
        simp only at hp'
        obtain ⟨e1, q1⟩ := recversLoop_quiet done _ _ hp'
        rw [e1] at h q2
        cases h
        exact ⟨getD_of_mem _ _ (fun x : RemoteSender => x.is_d2h = false) q2,
          getD_of_mem _ _ (fun r : RemoteRecver => r.is_h2h = false) q1, by rw [e1] at hp'; exact hp'⟩

/-- C19: the overlap loop of `exchange()`. (1) In every run of the loop, of any number of
passes and with any answers of the `done` queries, each `recv_h2d()` was made on a receiver
that was in the host-to-host stage with `h2h_done()` answering true, each `send_h2h()` on a
sender that was in the device-to-host stage with `d2h_done()` answering true, the endpoint
has left that stage, and no endpoint is advanced twice. (2) When the loop is left, no sender
is in the device-to-host stage and no receiver in the host-to-host stage. -/
theorem pollLoop_advances (done : Nat → Bool) (fuel : Nat) (recvers : List RemoteRecver)
    (senders : List RemoteSender) :
    (∀ c ∈ (pollLoop done fuel recvers senders).1.calls,
      c.justified done = true ∧ c.settled (pollLoop done fuel recvers senders).1) ∧
    ((pollLoop done fuel recvers senders).1.calls.map PollCall.target).Nodup ∧
    ((pollLoop done fuel recvers senders).2 = true →
      (∀ x ∈ (pollLoop done fuel recvers senders).1.remoteSenders_, x.is_d2h = false) ∧
      (∀ r ∈ (pollLoop done fuel recvers senders).1.remoteRecvers_, r.is_h2h = false)) := by
  have h0 : PollInv done { PollState.start recvers senders with pending := false } :=
    ⟨fun c hc => absurd hc (List.not_mem_nil c), List.nodup_nil⟩
  obtain ⟨h1, h2⟩ := pollFrom_inv done fuel _ h0
  refine ⟨h1, h2, ?_⟩
  intro hx
  have e : pollLoop done fuel recvers senders
      = ((pollLoop done fuel recvers senders).1, true) := by
    rw [← hx]
  obtain ⟨a, b, _⟩ := pollFrom_exit done fuel _ _ e
  exact ⟨a, b⟩

/-- A run of the loop with two receivers and one sender, where every third query answers
that the stage has finished: the loop is left after nine queries, with each endpoint advanced
once. -/
theorem pollLoop_advances_witness :
    pollLoop (fun q => q % 3 == 2) 7 [⟨RecverState.H2H⟩, ⟨RecverState.H2H⟩] [⟨SenderState.D2H⟩]
      = (⟨[⟨RecverState.H2D⟩, ⟨RecverState.H2D⟩], [⟨SenderState.H2H⟩], false, 9,
          [PollCall.send_h2h 0 ⟨SenderState.D2H⟩ 2, PollCall.recv_h2d 0 ⟨RecverState.H2H⟩ 5,
            PollCall.recv_h2d 1 ⟨RecverState.H2H⟩ 8]⟩, true) ∧
    (pollLoop (fun q => q % 3 == 2) 6 [⟨RecverState.H2H⟩, ⟨RecverState.H2H⟩]
      [⟨SenderState.D2H⟩]).2 = false ∧
    ((∀ x ∈ (pollLoop (fun q => q % 3 == 2) 7 [⟨RecverState.H2H⟩, ⟨RecverState.H2H⟩]
        [⟨SenderState.D2H⟩]).1.remoteSenders_, x.is_d2h = false) ∧
      (∀ r ∈ (pollLoop (fun q => q % 3 == 2) 7 [⟨RecverState.H2H⟩, ⟨RecverState.H2H⟩]
        [⟨SenderState.D2H⟩]).1.remoteRecvers_, r.is_h2h = false)) :=
  ⟨by decide, by decide,
    (pollLoop_advances (fun q => q % 3 == 2) 7 [⟨RecverState.H2H⟩, ⟨RecverState.H2H⟩]
      [⟨SenderState.D2H⟩]).2.2 (by decide)⟩

/-! ### The poll loop ends when every stage finishes -/

theorem countP_set_drop {α : Type} (p : α → Bool) (d v : α) (hv : p v = false) :
    ∀ (l : List α) (i : Nat), p (l.getD i d) = true → i < l.length →
      (l.set i v).countP p + 1 = l.countP p := by
  intro l
  induction l with
  | nil =>
    intro i _ hi
    exact absurd hi (Nat.not_lt_zero i)
  | cons a rest ih =>
    intro i hp hi
    cases i with
    | zero =>
      have ha : p a = true := hp
      rw [List.set_cons_zero, List.countP_cons, List.countP_cons, hv, ha]
      simp
    | succ j =>
      have hj : j < rest.length := Nat.lt_of_succ_lt_succ hi
      have := ih j (by simpa [List.getD] using hp) hj
      rw [List.set_cons_succ, List.countP_cons, List.countP_cons]
      omega

/-- With every query answered by true, the loops under `recvers:` either change nothing (no
receiver visited is in the host-to-host stage) or advance one receiver and jump. -/
theorem recversLoop_true :
    ∀ (l : List Nat) (s : PollState),
      recversLoop (fun _ => true) l s = (s, false) ∨
      ∃ s', recversLoop (fun _ => true) l s = (s', true) ∧ s'.pending = true ∧
        s'.remoteRecvers_.countP RemoteRecver.is_h2h + 1
          = s.remoteRecvers_.countP RemoteRecver.is_h2h ∧
        s'.remoteSenders_ = s.remoteSenders_ := by
  intro l
  induction l with
  | nil => exact fun s => Or.inl rfl
  | cons i rest ih =>
    intro s
    unfold recversLoop
    simp only
    split
    · rename_i hs
      rw [if_pos trivial]
      refine Or.inr ⟨_, rfl, rfl, ?_, rfl⟩
      exact countP_set_drop RemoteRecver.is_h2h ⟨RecverState.IDLE⟩ ⟨RecverState.H2D⟩ rfl _ i hs
        (getD_is_h2h _ _ hs).1
    · exact ih s

theorem sendersLoop_true :
    ∀ (l : List Nat) (s : PollState),
      sendersLoop (fun _ => true) l s = (s, false) ∨
      ∃ s', sendersLoop (fun _ => true) l s = (s', true) ∧ s'.pending = true ∧
        s'.remoteSenders_.countP RemoteSender.is_d2h + 1
          = s.remoteSenders_.countP RemoteSender.is_d2h ∧
        s'.remoteRecvers_ = s.remoteRecvers_ := by
  intro l
  induction l with
  | nil => exact fun s => Or.inl rfl
  | cons i rest ih =>
    intro s
    unfold sendersLoop
    simp only
    split
    · rename_i hs
      rw [if_pos trivial]
      refine Or.inr ⟨_, rfl, rfl, ?_, rfl⟩
      exact countP_set_drop RemoteSender.is_d2h ⟨SenderState.IDLE⟩ ⟨SenderState.H2H⟩ rfl _ i hs
        (getD_is_d2h _ _ hs).1
    · exact ih s

/-- With every query answered by true, the poll loop is left within two passes per waiting
endpoint and two more. -/
theorem pollFrom_true_exits :
    ∀ (fuel : Nat) (s : PollState),
      2 * s.waiting + (if s.pending = true then 1 else 0) + 1 ≤ fuel →
      (pollFrom (fun _ => true) fuel s).2 = true := by
  intro fuel
  induction fuel with
  | zero =>
    intro s h
    omega
  | succ fuel ih =>
    intro s h
    unfold pollFrom
    simp only
    unfold PollState.waiting at h
    rcases recversLoop_true (List.range s.remoteRecvers_.length) s with e1 | ⟨s1, e1, p1, c1, k1⟩
    · rw [e1]
      simp only
      rcases sendersLoop_true (List.range s.remoteSenders_.length) s with
        e2 | ⟨s2, e2, p2, c2, k2⟩
      · rw [e2]
        simp only [Bool.false_eq_true, if_false]
        split
        · rename_i hp
          refine ih _ ?_
          rw [if_pos hp] at h
          simp only [PollState.waiting, Bool.false_eq_true, if_false]
          omega
        · rfl
      · rw [e2]
        simp only [if_true]
        refine ih _ ?_
        simp only [PollState.waiting, p2, if_true, k2]
        split at h <;> omega
    · rw [e1]
      simp only
      rcases sendersLoop_true (List.range s1.remoteSenders_.length) s1 with
        e2 | ⟨s2, e2, p2, c2, k2⟩
      · rw [e2]
        simp only [Bool.false_eq_true, if_false, p1, if_true]
        refine ih _ ?_
        simp only [PollState.waiting, Bool.false_eq_true, if_false, k1]
        split at h <;> omega
      · rw [e2]
        simp only [if_true]
        refine ih _ ?_
        simp only [PollState.waiting, p2, if_true, k2]
        rw [k1] at c2
        split at h <;> omega

/-- When every stage has finished by the time it is queried, the poll loop of `exchange()` is
left, within two passes per endpoint that was waiting and one more. -/
theorem pollLoop_true_exits (recvers : List RemoteRecver) (senders : List RemoteSender) :
    (pollLoop (fun _ => true)
      (2 * (recvers.countP RemoteRecver.is_h2h + senders.countP RemoteSender.is_d2h) + 1)
      recvers senders).2 = true :=
  pollFrom_true_exits _ _ (Nat.le_refl _)

/-! ## The partition: index round trip -/

theorem AMap.mem_keys_set {K V : Type} [DecidableEq K] (lt : K → K → Bool) (m : AMap K V)
    (k : K) (v : V) (x : K) (h : x ∈ (AMap.set lt m k v).keys) : x = k ∨ x ∈ m.keys := by
  unfold AMap.set at h
  split at h
  · rw [AMap.keys_replace] at h
    exact Or.inr h
  · exact (AMap.mem_keys_insert lt m k v x).mp h

/-- The assignment `v[di][k] = val` keeps a property of all keys that `k` has. -/
theorem setAt_keys {K V : Type} [DecidableEq K] (lt : K → K → Bool) (Q : K → Prop)
    (v v' : List (AMap K V)) (di : Nat) (k : K) (val : V)
    (h : setAt lt v di k val = .ok v') (hv : ∀ m ∈ v, ∀ x ∈ AMap.keys m, Q x) (hk : Q k) :
    ∀ m ∈ v', ∀ x ∈ AMap.keys m, Q x := by
  unfold setAt vecAt at h
  cases hm : v[di]? with
  | none =>
    rw [hm] at h
    cases h
  | some m0 =>
    rw [hm] at h
    cases h
    intro m hmem x hx
    rcases List.mem_or_eq_of_mem_set hmem with hmem | rfl
    · exact hv m hmem x hx
    · rcases AMap.mem_keys_set lt m0 k val x hx with rfl | hx
      · exact hk
      · exact hv m0 (List.getElem?_mem hm) x hx

/-- The statement `v[di][k].push_back(x)` keeps a property of all keys that `k` has. -/
theorem pushAt_keys {K V : Type} [DecidableEq K] (lt : K → K → Bool) (Q : K → Prop)
    (v v' : List (AMap K (List V))) (di : Nat) (k : K) (x : V)
    (h : pushAt lt v di k x = .ok v') (hv : ∀ m ∈ v, ∀ y ∈ AMap.keys m, Q y) (hk : Q k) :
    ∀ m ∈ v', ∀ y ∈ AMap.keys m, Q y := by
  unfold pushAt vecAt at h
  cases hm : v[di]? with
  | none =>
    rw [hm] at h
    cases h
  | some m0 =>
    rw [hm] at h
    cases h
    intro m hmem y hy
    rcases List.mem_or_eq_of_mem_set hmem with hmem | rfl
    · exact hv m hmem y hy
    · rcases AMap.mem_keys_set lt m0 k _ y hy with rfl | hy
      · exact hk
      · exact hv m0 (List.getElem?_mem hm) y hy

/-- One step of the "create remote" loops makes a remote outbox only for a destination on
another rank. -/
theorem createRemoteStep_foreign (di : Nat) (st st' : DistributedDomain × Outboxes) (dir : Dim3)
    (hk : RemoteKeysForeign st) (h : DistributedDomain.createRemoteStep di st dir = .ok st') :
    RemoteKeysForeign st' := by
  obtain ⟨dd, out⟩ := st
  unfold DistributedDomain.createRemoteStep at h
  simp only at h
  have tail : ∀ (y : DistributedDomain × Outboxes),
      y.1.rank_ = dd.rank_ → y.1.partition_ = dd.partition_ →
      y.2.remoteOutboxes = out.remoteOutboxes →
      (if y.1.rank_ ≠ (dd.neighbours di dir).dstRank then do
          let senders' ← setAt Dim3.lt y.1.remoteSenders_ di (dd.neighbours di dir).dstIdx
            ⟨(dd.neighbours di dir).srcRank, (dd.neighbours di dir).srcGPU, y.1.rank_, di⟩
          let outboxes' ← setAt Dim3.lt y.2.remoteOutboxes di (dd.neighbours di dir).dstIdx []
          pure ({ y.1 with remoteSenders_ := senders' }, { y.2 with remoteOutboxes := outboxes' })
        else pure (y.1, y.2)) = Except.ok st' → RemoteKeysForeign st' := by
    intro y e1 e2 e3 h
    split at h
    · rename_i hne
      obtain ⟨s', hs, h⟩ := bind_ok _ _ _ h
      obtain ⟨o', ho, h⟩ := bind_ok _ _ _ h
      cases h
      rw [e3] at ho
      intro m hm k hkm
      simp only [e1, e2] at hne ⊢
      exact setAt_keys Dim3.lt (fun k => dd.partition_.get_rank k ≠ dd.rank_) _ _ _ _ _ ho hk
        (fun hc => hne hc.symm) m hm k hkm
    · cases h
      intro m hm k hkm
      simp only [e1, e2] at hm ⊢
      rw [e3] at hm
      exact hk m hm k hkm
  split at h
  · obtain ⟨recvers, hrv, h⟩ := bind_ok _ _ _ h
    split at h
    · obtain ⟨r', hr, h⟩ := bind_ok _ _ _ h
      obtain ⟨i', hi, h⟩ := bind_ok _ _ _ h
      obtain ⟨y, hy, h⟩ := bind_ok _ _ _ h
      cases hy
      exact tail _ rfl rfl rfl h
    · obtain ⟨y, hy, h⟩ := bind_ok _ _ _ h
      cases hy
      exact tail _ rfl rfl rfl h
  · obtain ⟨y, hy, h⟩ := bind_ok _ _ _ h
    cases hy
    exact tail _ rfl rfl rfl h

theorem createRemote_foreign (st st' : DistributedDomain × Outboxes)
    (hk : RemoteKeysForeign st) (h : DistributedDomain.createRemote st = .ok st') :
    RemoteKeysForeign st' := by
  obtain ⟨dd, out⟩ := st
  unfold DistributedDomain.createRemote at h
  simp only at h
  split at h
  · refine foldlM_inv RemoteKeysForeign _ (fun s di s' hs hf =>
      foldlM_inv RemoteKeysForeign _
        (fun s dir s' hs hf => createRemoteStep_foreign di s s' dir hs hf)
        loopDirs s s' hs hf) _ _ st' ?_ h
    intro m hm k hkm
    rcases mem_resize _ _ _ _ hm with hm | hm
    · exact hk m hm k hkm
    · rw [hm] at hkm
      exact absurd hkm (List.not_mem_nil k)
  · cases h
    exact hk

theorem createColocatedStep_foreign (di : Nat) (st st' : DistributedDomain × Outboxes)
    (dir : Dim3) (hk : RemoteKeysForeign st)
    (h : DistributedDomain.createColocatedStep di st dir = .ok st') :
    RemoteKeysForeign st' := by
  obtain ⟨dd, out⟩ := st
  unfold DistributedDomain.createColocatedStep at h
  simp only at h
  split at h
  · obtain ⟨r', hr, h⟩ := bind_ok _ _ _ h
    obtain ⟨i', hi, h⟩ := bind_ok _ _ _ h
    obtain ⟨y, hy, h⟩ := bind_ok _ _ _ h
    cases hy
    split at h
    · obtain ⟨s', hs, h⟩ := bind_ok _ _ _ h
      obtain ⟨o', ho, h⟩ := bind_ok _ _ _ h
      cases h
      exact hk
    · cases h
      exact hk
  · obtain ⟨y, hy, h⟩ := bind_ok _ _ _ h
    cases hy
    split at h
    · obtain ⟨s', hs, h⟩ := bind_ok _ _ _ h
      obtain ⟨o', ho, h⟩ := bind_ok _ _ _ h
      cases h
      exact hk
    · cases h
      exact hk

theorem createColocated_foreign (st st' : DistributedDomain × Outboxes)
    (hk : RemoteKeysForeign st) (h : DistributedDomain.createColocated st = .ok st') :
    RemoteKeysForeign st' := by
  obtain ⟨dd, out⟩ := st
  unfold DistributedDomain.createColocated at h
  simp only at h
  split at h
  · refine foldlM_inv RemoteKeysForeign _ (fun s di s' hs hf =>
      foldlM_inv RemoteKeysForeign _
        (fun s dir s' hs hf => createColocatedStep_foreign di s s' dir hs hf)
        loopDirs s s' hs hf) _ _ st' ?_ h
    exact hk
  · cases h
    exact hk

/-- The two creation passes of `realize()`, started on the empty boxes `realize()` declares,
make remote outboxes only for destinations on other ranks, whatever the engine. -/
theorem creation_foreign (dd : DistributedDomain) (st : DistributedDomain × Outboxes)
    (h : (DistributedDomain.createRemote (dd.createLocalDomains, Outboxes.empty)
      >>= DistributedDomain.createColocated) = .ok st) :
    RemoteKeysForeign st := by
  obtain ⟨st1, h1, h2⟩ := bind_ok _ _ _ h
  have h0 : RemoteKeysForeign (dd.createLocalDomains, Outboxes.empty) :=
    fun m hm => absurd hm (List.not_mem_nil m)
  exact createColocated_foreign _ _ (createRemote_foreign _ _ h0 h1) h2

/-- The same-rank `CudaMpi` branch of the planner fails its own assertion on every state whose
remote outboxes are keyed by indices of other ranks, as the creation passes leave them: a
same-rank send with neither the same-device nor the peer-copy method applicable and
`CudaMpi` enabled stops at `assert(remoteOutboxes[di].count(dstIdx))`. -/
theorem planSend_same_rank_cudaMpi (dd : DistributedDomain) (di : Nat) (dir : Dim3)
    (out : Outboxes) (d1 d2 : LocalDomain) (hk : RemoteKeysForeign (dd, out))
    (hr : dd.rank_ = (dd.neighbours di dir).dstRank)
    (h1 : vecAt dd.domains_ di = .ok d1)
    (h2 : vecAtInt dd.domains_ (dd.neighbours di dir).dstGPU = .ok d2)
    (hK : ¬ (d1.gpu = d2.gpu ∧ enabled dd.flags_ MethodFlags.CudaKernel = true))
    (hP : enabled dd.flags_ MethodFlags.CudaMemcpyPeer = false)
    (hM : enabled dd.flags_ MethodFlags.CudaMpi = true) :
    dd.planSend di dir out = .error Fault.assertion := by
  rw [planSend_same_rank dd di dir out d1 d2 hr h1 h2, if_neg hK, hP, hM]
  simp only [Bool.false_eq_true, if_false, if_true]
  cases hm : out.remoteOutboxes[di]? with
  | none => rfl
  | some m =>
    simp only
    rw [if_pos]
    unfold AMap.count
    rw [if_neg]
    intro hmem
    exact hk m (List.getElem?_mem hm) _ hmem hr.symm

/-- C4 (code bug): a same-rank send with neither the same-device nor the peer-copy method
applicable does not end in the no-method-available error when `CudaMpi` is enabled. On the
engine of a single rank with one device and only `CudaMpi` enabled, the rule list of the
specification gives the no-method-available error for the send in direction `(-1,-1,-1)`;
the creation passes leave the remote outbox map of the sub-domain empty, the planner takes
its same-rank `CudaMpi` branch and fails `assert(remoteOutboxes[di].count(dstIdx))`, and so
does `realize()`. With no method enabled the same send does end in the no-method error. -/
theorem planSend_same_rank_remote_asserts :
    specTier
      (decide ((oneRank.set_methods MethodFlags.CudaMpi).rank_
        = ((oneRank.set_methods MethodFlags.CudaMpi).neighbours 0 ⟨-1, -1, -1⟩).dstRank))
      (decide (oneRankDomain.gpu = oneRankDomain.gpu))
      (decide ((oneRank.set_methods MethodFlags.CudaMpi).colocated_.count
        ((oneRank.set_methods MethodFlags.CudaMpi).neighbours 0 ⟨-1, -1, -1⟩).dstRank ≠ 0))
      (oneRank.set_methods MethodFlags.CudaMpi).flags_ = Tier.fatal ∧
    (DistributedDomain.createRemote
        ((oneRank.set_methods MethodFlags.CudaMpi).createLocalDomains, Outboxes.empty)
      >>= DistributedDomain.createColocated).map (fun st => st.2)
      = .ok ⟨[], [], [], [], [[]], [[]]⟩ ∧
    (oneRank.set_methods MethodFlags.CudaMpi).createLocalDomains.planSend 0 ⟨-1, -1, -1⟩
      ⟨[], [], [], [], [[]], [[]]⟩ = .error Fault.assertion ∧
    (oneRank.set_methods MethodFlags.CudaMpi).realize.map (fun _ => ())
      = .error Fault.assertion ∧
    (oneRank.set_methods MethodFlags.None).createLocalDomains.planSend 0 ⟨-1, -1, -1⟩
      Outboxes.empty = .error Fault.noMethod := by
  decide

theorem planSend_foreign (dd : DistributedDomain) (di : Nat) (dir : Dim3) (out out' : Outboxes)
    (hk : RemoteKeysForeign (dd, out)) (h : dd.planSend di dir out = .ok out') :
    RemoteKeysForeign (dd, out') := by
  have h0 := h
  unfold DistributedDomain.planSend at h
  simp only at h
  split at h
  · rename_i hr
    obtain ⟨d1, h1, h⟩ := bind_ok _ _ _ h
    obtain ⟨d2, h2, h⟩ := bind_ok _ _ _ h
    split at h
    · cases h
      exact hk
    · split at h
      · cases h
        exact hk
      · split at h
        · rename_i hK hP hM
          rw [any_methods_eq] at hK hP hM
          rw [planSend_same_rank_cudaMpi dd di dir out d1 d2 hk hr h1 h2 hK
            (Bool.eq_false_iff.mpr hP) hM] at h0
          cases h0
        · cases h
  · rename_i hr
    split at h
    · obtain ⟨_, _, h⟩ := bind_ok _ _ _ h
      obtain ⟨_, _, h⟩ := bind_ok _ _ _ h
      obtain ⟨_, _, h⟩ := bind_ok _ _ _ h
      obtain ⟨v', hv, h⟩ := bind_ok _ _ _ h
      cases h
      exact hk
    · split at h
      · obtain ⟨v', hv, h⟩ := bind_ok _ _ _ h
        cases h
        exact pushAt_keys Dim3.lt (fun k => dd.partition_.get_rank k ≠ dd.rank_) _ _ _ _ _ hv hk
          (fun hc => hr hc.symm)
      · cases h

theorem planRecv_foreign (dd : DistributedDomain) (di : Nat) (dir : Dim3) (out out' : Outboxes)
    (hk : RemoteKeysForeign (dd, out)) (h : dd.planRecv di dir out = .ok out') :
    RemoteKeysForeign (dd, out') := by
  unfold DistributedDomain.planRecv at h
  simp only at h
  split at h
  · obtain ⟨d1, _, h⟩ := bind_ok _ _ _ h
    obtain ⟨d2, _, h⟩ := bind_ok _ _ _ h
    split at h
    · cases h
      exact hk
    · split at h
      · cases h
        exact hk
      · split at h
        · obtain ⟨v', _, h⟩ := bind_ok _ _ _ h
          cases h
          exact hk
        · cases h
  · split at h
    · obtain ⟨v', hv, h⟩ := bind_ok _ _ _ h
      cases h
      exact hk
    · split at h
      · obtain ⟨v', _, h⟩ := bind_ok _ _ _ h
        cases h
        exact hk
      · cases h

theorem planMessages_foreign (dd : DistributedDomain) (out out' : Outboxes)
    (hk : RemoteKeysForeign (dd, out)) (h : dd.planMessages out = .ok out') :
    RemoteKeysForeign (dd, out') := by
  unfold DistributedDomain.planMessages at h
  refine foldlM_inv (fun o => RemoteKeysForeign (dd, o)) _ (fun s di s' hs hf =>
    foldlM_inv (fun o => RemoteKeysForeign (dd, o)) _ (fun s dir s' hs hf => ?_)
      loopDirs s s' hs hf) _ _ out' hk h
  unfold DistributedDomain.planStep at hf
  obtain ⟨o1, a1, a2⟩ := bind_ok _ _ _ hf
  exact planRecv_foreign dd di dir o1 s' (planSend_foreign dd di dir s o1 hs a1) a2

/-- No plan of `realize()` holds a same-rank message in a remote outbox: when the planning part
returns, every remote outbox is that of a destination index on another rank. A same-rank send
is planned by the same-device or the peer-copy rule, or the planning does not return. -/
theorem realizePlan_foreign (dd dd' : DistributedDomain) (out : Outboxes)
    (h : dd.realizePlan = .ok (dd', out)) : RemoteKeysForeign (dd', out) := by
  unfold DistributedDomain.realizePlan at h
  simp only at h
  obtain ⟨⟨dd1, out1⟩, h1, h⟩ := bind_ok _ _ _ h
  obtain ⟨⟨dd2, out2⟩, h2, h⟩ := bind_ok _ _ _ h
  obtain ⟨out3, h3, h⟩ := bind_ok _ _ _ h
  cases h
  have h0 : RemoteKeysForeign (dd.createLocalDomains, Outboxes.empty) :=
    fun m hm => absurd hm (List.not_mem_nil m)
  exact planMessages_foreign _ _ _
    (createColocated_foreign _ _ (createRemote_foreign _ _ h0 h1) h2) h3

end Stencil
